import Mathlib

/-!
Shallow embedding of the ideoxan/courses synchronization pipeline
(`src/unnamed/part_000`, first program, lines 14-305, which supersedes the
earlier iteration `src/sync.js`; both share the purge, slug, chapter/lesson
walk, task/condition handling — `part_000` additionally guards the workspace
step with `existsSync` and adds the navigation-linker post-pass).

Modelling conventions:
* The Supabase relational store is a record of five row lists; generated row
  identifiers are modelled as `EntId.gen n` drawn from a counter threaded in
  the run state (the store generates them; the pipeline never chooses them).
  Caller-supplied course UUIDs are `EntId.supplied s`.
* Blob-storage keys such as `guide-<id>.md`, `workspace-<id>.tar`,
  `file-<id>-<sanitized>` are modelled structurally by `BlobName`, paired
  with their bucket in `BlobKey` (supabase returns `data.Key = bucket/path`).
* Every database / storage call consults an error oracle (`Env.oracle`),
  indexed by the position of the operation in the run, and is recorded in an
  operation trace; `console.error` calls are recorded in an error log.
* JS `return` from `main` is `Halt.ret`; an unhandled promise rejection
  (e.g. `fs.stat` on a missing path) is `Halt.crash`.
* `glob` results are modelled as the order-preserving lists stored in the
  filesystem model (glob returns a deterministic sorted order; the model
  takes that order as given), with the `!(node_modules|.git)` filter applied
  explicitly.
-/

/-- Row identifiers: caller-supplied (course UUIDs from `course.yaml`) or
store-generated (returned by `upsert` for chapters/lessons/tasks/conditions). -/
inductive EntId
  | supplied (s : String)
  | gen (n : Nat)
deriving DecidableEq, Repr

/-- The sentinel UUID used by the Step-0 purge (`badUUID` in the source). -/
def badUUID : String := "123e4567-e89b-12d3-a456-426614174000"

def sentinelId : EntId := EntId.supplied badUUID

/-- Structural model of the blob-storage object names built by the code:
`guide-<lessonId>.md`, `workspace-<lessonId>.tar`, `file-<lessonId>-<san>`. -/
inductive BlobName
  | guideName (lesson : EntId)
  | workspaceName (lesson : EntId)
  | fileName (lesson : EntId) (san : String)
deriving DecidableEq, Repr

/-- A stored blob reference (`data.Key` is `bucket/name` in supabase). -/
structure BlobKey where
  bucket : String
  name : BlobName
deriving DecidableEq, Repr

/-- A Condition row's `value`: the literal from the front matter, or the
reference of the uploaded blob that replaced it. -/
inductive CondValue
  | lit (s : String)
  | ref (k : BlobKey)
deriving DecidableEq, Repr

structure CourseRow where
  id : EntId
  name : String
  description : String
  tags : List String
  authors : List String
deriving DecidableEq, Repr

structure ChapterRow where
  id : EntId
  course : EntId
  name : String
  index : Nat
deriving DecidableEq, Repr

structure LessonRow where
  id : EntId
  chapter : EntId
  name : String
  environment : String
  index : Nat
  guide : Option BlobKey
  workspace : Option BlobKey
  previous : Option String
  next : Option String
deriving DecidableEq, Repr

structure TaskRow where
  id : EntId
  lesson : EntId
  instructions : String
  index : Nat
  completed_by_default : Bool
deriving DecidableEq, Repr

structure ConditionRow where
  id : EntId
  task : EntId
  ctype : String
  cin : String
  cis : String
  value : CondValue
deriving DecidableEq, Repr

structure DB where
  courses : List CourseRow
  chapters : List ChapterRow
  lessons : List LessonRow
  tasks : List TaskRow
  task_conditions : List ConditionRow
deriving DecidableEq, Repr

def emptyDB : DB := ⟨[], [], [], [], []⟩

/-- The five relational tables, in the purge's deletion order. -/
inductive DbTable
  | task_conditions | tasks | lessons | chapters | courses
deriving DecidableEq, Repr

/-- Code site an operation was issued from (used to classify which sites
check the returned error and which log a path before the error). -/
inductive Site
  | purgeDel | courseUp | chapterUp | lessonUp | guideUpl | wsUpl | wsUpd
  | guideUpd | taskUp | fileUpl | condUp
  | navChSel | navLsSel | navPrevSel | navUpd
deriving DecidableEq, Repr

inductive OpKind
  | deleteNeq (t : DbTable) (sentinel : String)
  | upsert (t : DbTable)
  | update (t : DbTable)
  | select (t : DbTable)
  | upload (bucket : String) (name : BlobName) (content : String)
      (contentType : Option String)
deriving DecidableEq, Repr

/-- One issued store operation: where it came from, what it was, the path
context available at the site, and the error the store reported (if any). -/
structure Op where
  site : Site
  kind : OpKind
  ctx : String
  err : Option String
deriving DecidableEq, Repr

/-- `console.error` calls: a path-context line or an error object line. -/
inductive LogEntry
  | path (s : String)
  | err (e : String)
deriving DecidableEq, Repr

/-- Run state: store contents, blob storage, operation trace, error log,
the store's id-generation counter, and the operation index consulted by the
error oracle. -/
structure St where
  db : DB
  storage : List (BlobKey × String)
  trace : List Op
  elog : List LogEntry
  ctr : Nat
  opIdx : Nat
deriving DecidableEq, Repr

/-- External-world behaviour of the store: which operation (by sequence
number) fails, and with what error message. -/
structure Env where
  oracle : Nat → Option String

def noErrEnv : Env := ⟨fun _ => none⟩

/-- How the run stops early: a `return` from `main`, or an unhandled
promise rejection. -/
inductive Halt
  | ret
  | crash (msg : String)
deriving DecidableEq, Repr

/-! ### Number rendering (JS template-literal interpolation of numbers) -/

def digitChar (n : Nat) : Char :=
  if n = 0 then '0' else if n = 1 then '1' else if n = 2 then '2'
  else if n = 3 then '3' else if n = 4 then '4' else if n = 5 then '5'
  else if n = 6 then '6' else if n = 7 then '7' else if n = 8 then '8' else '9'

def natDigitsAux : Nat → Nat → List Char
  | 0, _ => []
  | fuel + 1, n =>
    if n < 10 then [digitChar n]
    else natDigitsAux fuel (n / 10) ++ [digitChar (n % 10)]

def natStr (n : Nat) : String := String.mk (natDigitsAux (n + 1) n)

def intStr (i : Int) : String :=
  if i < 0 then "-" ++ natStr i.natAbs else natStr i.natAbs

/-- `${uuid}/${a}/${b}` — the navigation path strings written by the
navigation linker (components are JS numbers, so they may be negative). -/
def navStr (uuid : String) (a b : Int) : String :=
  uuid ++ "/" ++ intStr a ++ "/" ++ intStr b

/-- Rendering of a row identifier as the string the store would show.
Store-generated UUIDs contain only hexadecimal digits and dashes — never a
slash — which is all the model needs; they are rendered as slash-free
tokens. -/
def renderId : EntId → String
  | .supplied s => s
  | .gen n => "id-" ++ natStr n

/-! ### Slugification (`.replace(/[^a-z0-9]/gi, "-").toLowerCase()`) -/

def slugChar (c : Char) : Char := if c.isAlphanum then c else '-'

def slugCore (l : List Char) : List Char :=
  (l.map slugChar).map Char.toLower

/-- The path-safe transform the code applies to chapter names and to the
basenames of condition-referenced files. -/
def slug (s : String) : String := String.mk (slugCore s.data)

/-- Last segment of a `/`-separated path (`value.split("/").pop()`):
characters after the final `/`, the whole string when there is none. -/
def lastSegAux (sep : Char) (acc : List Char) : List Char → List Char
  | [] => acc.reverse
  | c :: rest => if c = sep then lastSegAux sep [] rest else lastSegAux sep (c :: acc) rest

def basenameOf (s : String) : String :=
  String.mk (lastSegAux '/' [] s.data)

/-- Sanitized filename used in the `file-<id>-<san>` object name. -/
def sanitize (s : String) : String := slug (basenameOf s)

/-! ### Filesystem model -/

inductive FSNode
  | file (content : String)
  | dir
deriving DecidableEq, Repr

structure CondMeta where
  ctype : String
  cin : String
  cis : String
  value : String
deriving DecidableEq, Repr

structure TaskMeta where
  instructions : String
  completed_by_default : Bool
  conditions : List CondMeta
deriving DecidableEq, Repr

/-- Parsed front matter of a lesson's `guide.md`. -/
structure LessonFM where
  name : String
  environment : String
  tasks : List TaskMeta
deriving DecidableEq, Repr

/-- A lesson directory: parsed guide front matter and body, the optional
`workspace/` directory (top-level entries, name ↦ content), and the other
filesystem entries of the lesson directory (relative path ↦ node), which is
what `stat`/`readFile` on a condition's `value` resolve against. -/
structure LessonDir where
  dirname : String
  guideFM : LessonFM
  guideBody : String
  workspace : Option (List (String × String))
  entries : List (String × FSNode)
deriving DecidableEq, Repr

/-- Parsed `course.yaml`. -/
structure CourseMeta where
  uuid : String
  name : String
  description : String
  tags : List String
  authors : List String
  chapters : List String
deriving DecidableEq, Repr

/-- A course directory: its descriptor and its subdirectories
(directory name ↦ the lesson directories found inside, in glob order). -/
structure CourseDir where
  dirname : String
  meta : CourseMeta
  subdirs : List (String × List LessonDir)
deriving DecidableEq, Repr

/-- `fs.stat(path.join(lesson, value))`: `none` models the ENOENT
rejection. -/
def statNode (l : LessonDir) (p : String) : Option FSNode :=
  (l.entries.find? (fun e => e.fst = p)).map Prod.snd

/-- `readFile(path.resolve(lesson, value))` for an existing regular file. -/
def readEntry (l : LessonDir) (p : String) : Option String :=
  match statNode l p with
  | some (.file c) => some c
  | _ => none

/-- `mime-types`' `lookup(value)` — content type from the file extension
(a representative table; unknown extensions yield `none`, modelling the
library's `false`). -/
def mimeLookup (p : String) : Option String :=
  match String.mk (lastSegAux '.' [] p.data) with
  | "py" => some "text/x-python"
  | "md" => some "text/markdown"
  | "txt" => some "text/plain"
  | "json" => some "application/json"
  | _ => none

/-- Deterministic stand-in for the bytes of the uncompressed tar archive
`tar.create` builds from the workspace directory's entries. -/
def tarOf (files : List (String × String)) : String :=
  files.foldr (fun e acc => e.fst ++ "\n" ++ e.snd ++ "\n" ++ acc) ""

/-- The per-chapter record the code builds from the declared chapter list
(`{name, pathSafe, index}`). -/
structure ChapterMeta where
  name : String
  pathSafe : String
  index : Nat
deriving DecidableEq, Repr

/-- `courseMetadata.chapters.map((chapter, i) => {name, pathSafe, index: i})` -/
def chaptersOfAux : Nat → List String → List ChapterMeta
  | _, [] => []
  | i, n :: rest => ⟨n, slug n, i⟩ :: chaptersOfAux (i + 1) rest

def chaptersOf (names : List String) : List ChapterMeta :=
  chaptersOfAux 0 names

/-- Insertion into a list sorted by `index` (ascending, stable). -/
def insertByIdx (key : α → Nat) (x : α) : List α → List α
  | [] => [x]
  | y :: ys => if key x < key y then x :: y :: ys else y :: insertByIdx key x ys

/-- `.sort((a, b) => a.index - b.index)` / `.order("index", ascending)`. -/
def sortByIdx (key : α → Nat) : List α → List α
  | [] => []
  | x :: xs => insertByIdx key x (sortByIdx key xs)

/-- The `!(node_modules|.git)` glob filter. -/
def globKeep (name : String) : Bool :=
  name ≠ "node_modules" && name ≠ ".git"

/-! ### Store-operation primitives -/

/-- Issue one store operation: consult the error oracle at the current
operation index, record the operation in the trace. -/
def issueOp (env : Env) (site : Site) (kind : OpKind) (ctx : String)
    (st : St) : St × Option String :=
  let e := env.oracle st.opIdx
  ({ st with trace := st.trace ++ [⟨site, kind, ctx, e⟩],
             opIdx := st.opIdx + 1 }, e)

def logPathErr (ctx e : String) (st : St) : St :=
  { st with elog := st.elog ++ [.path ctx, .err e] }

def logErrOnly (e : String) (st : St) : St :=
  { st with elog := st.elog ++ [.err e] }

/-- Effect of `.delete().neq("id", badUUID)`: every row whose id differs
from the sentinel is removed; a row whose id equals it is kept. -/
def applyPurge (t : DbTable) (db : DB) : DB :=
  match t with
  | .task_conditions =>
      { db with task_conditions := db.task_conditions.filter (fun r => r.id == sentinelId) }
  | .tasks => { db with tasks := db.tasks.filter (fun r => r.id == sentinelId) }
  | .lessons => { db with lessons := db.lessons.filter (fun r => r.id == sentinelId) }
  | .chapters => { db with chapters := db.chapters.filter (fun r => r.id == sentinelId) }
  | .courses => { db with courses := db.courses.filter (fun r => r.id == sentinelId) }

/-- One Step-0 delete.  The source neither destructures nor checks the
result of these five awaits, so an error is ignored and the run continues. -/
def purgeDelete (env : Env) (t : DbTable) (st : St) : St :=
  let r := issueOp env .purgeDel (.deleteNeq t badUUID) "" st
  match r.2 with
  | none => { r.1 with db := applyPurge t r.1.db }
  | some _ => r.1

/-- Course upsert is keyed by the caller-supplied id: update if present,
insert otherwise. -/
def upsertCourseRow (db : DB) (r : CourseRow) : DB :=
  if db.courses.any (fun c => c.id == r.id) then
    { db with courses := db.courses.map (fun c => if c.id == r.id then r else c) }
  else
    { db with courses := db.courses ++ [r] }

/-- Blob upload with `upsert: true`: overwrite the key if present. -/
def putBlob (storage : List (BlobKey × String)) (k : BlobKey) (content : String) :
    List (BlobKey × String) :=
  if storage.any (fun e => e.fst == k) then
    storage.map (fun e => if e.fst == k then (k, content) else e)
  else
    storage ++ [(k, content)]

/-- `.from("chapters").select().eq("course", uuid).order("index", ascending)` -/
def selectChapters (db : DB) (course : EntId) : List ChapterRow :=
  sortByIdx ChapterRow.index (db.chapters.filter (fun r => r.course == course))

/-- `.from("lessons").select().eq("chapter", id).order("index", ascending)` -/
def selectLessons (db : DB) (chapter : EntId) : List LessonRow :=
  sortByIdx LessonRow.index (db.lessons.filter (fun r => r.chapter == chapter))

def updateLessonWs (db : DB) (target : EntId) (w : Option BlobKey) : DB :=
  { db with lessons :=
      db.lessons.map (fun r => if r.id == target then { r with workspace := w } else r) }

def updateLessonGuide (db : DB) (target : EntId) (g : Option BlobKey) : DB :=
  { db with lessons :=
      db.lessons.map (fun r => if r.id == target then { r with guide := g } else r) }

def updateLessonNav (db : DB) (target : EntId) (pv nx : Option String) : DB :=
  { db with lessons :=
      db.lessons.map (fun r =>
        if r.id == target then { r with previous := pv, next := nx } else r) }

/-- Lesson directories enumerated by
`asyncGlob(course/pathSafe/!(node_modules|.git)/)`: the entries of the
chapter directory if it exists (glob over a missing directory matches
nothing), with the tooling exclusions applied. -/
def chapterLessons (c : CourseDir) (pathSafe : String) : List LessonDir :=
  match c.subdirs.find? (fun e => e.fst == pathSafe) with
  | none => []
  | some e => e.snd.filter (fun l => globKeep l.dirname)

/-! ### The pipeline (part_000, first program, lines 14-305) -/

/-- Lines 199-232: one condition.  `stat(path.join(lesson, value))` rejects
with ENOENT when the path does not exist — the code does not catch it, so
the whole run crashes.  When the path is a regular file its bytes are
uploaded and the condition's `value` is replaced by the blob's key before
the row is inserted; the condition-insert error site logs only the error
object (no path). -/
def processCondition (env : Env) (lessonCtx : String) (lessonId taskId : EntId)
    (l : LessonDir) (cond : CondMeta) (st : St) : St × Except Halt Unit :=
  match statNode l cond.value with
  | none => (st, .error (.crash "ENOENT"))
  | some node =>
    let afterFile : St × Except Halt CondValue :=
      match node with
      | .file content =>
        let key : BlobKey := ⟨"misc-course-content", .fileName lessonId (sanitize cond.value)⟩
        let r := issueOp env .fileUpl
          (.upload "misc-course-content" (.fileName lessonId (sanitize cond.value))
            content (mimeLookup cond.value)) (lessonCtx ++ cond.value) st
        match r.2 with
        | some msg => (logPathErr (lessonCtx ++ cond.value) msg r.1, .error .ret)
        | none => ({ r.1 with storage := putBlob r.1.storage key content }, .ok (.ref key))
      | .dir => (st, .ok (.lit cond.value))
    match afterFile with
    | (st1, .error h) => (st1, .error h)
    | (st1, .ok value) =>
      let r := issueOp env .condUp (.upsert .task_conditions) lessonCtx st1
      match r.2 with
      | some msg => (logErrOnly msg r.1, .error .ret)
      | none =>
        let row : ConditionRow := ⟨.gen r.1.ctr, taskId, cond.ctype, cond.cin, cond.cis, value⟩
        ({ r.1 with
            ctr := r.1.ctr + 1,
            db := { r.1.db with task_conditions := r.1.db.task_conditions ++ [row] } },
         .ok ())

def processConditions (env : Env) (lessonCtx : String) (lessonId taskId : EntId)
    (l : LessonDir) : List CondMeta → St → St × Except Halt Unit
  | [], st => (st, .ok ())
  | c :: rest, st =>
    match processCondition env lessonCtx lessonId taskId l c st with
    | (st1, .error h) => (st1, .error h)
    | (st1, .ok _) => processConditions env lessonCtx lessonId taskId l rest st1

/-- Lines 183-233: one task (index `j` is the position in the declared task
list), then its conditions. -/
def processTask (env : Env) (lessonCtx : String) (lessonId : EntId) (l : LessonDir)
    (j : Nat) (task : TaskMeta) (st : St) : St × Except Halt Unit :=
  let r := issueOp env .taskUp (.upsert .tasks) lessonCtx st
  match r.2 with
  | some msg => (logPathErr lessonCtx msg r.1, .error .ret)
  | none =>
    let tid := EntId.gen r.1.ctr
    let row : TaskRow := ⟨tid, lessonId, task.instructions, j, task.completed_by_default⟩
    let st2 := { r.1 with
                 ctr := r.1.ctr + 1,
                 db := { r.1.db with tasks := r.1.db.tasks ++ [row] } }
    processConditions env lessonCtx lessonId tid l task.conditions st2

def processTasks (env : Env) (lessonCtx : String) (lessonId : EntId) (l : LessonDir) :
    Nat → List TaskMeta → St → St × Except Halt Unit
  | _, [], st => (st, .ok ())
  | j, t :: rest, st =>
    match processTask env lessonCtx lessonId l j t st with
    | (st1, .error h) => (st1, .error h)
    | (st1, .ok _) => processTasks env lessonCtx lessonId l (j + 1) rest st1

/-- Lines 101-234: one lesson.  Upsert the row, upload the guide body,
package/upload the workspace only when `existsSync` finds the directory
(writing the workspace key back), always write the guide key back, then
the tasks. -/
def processLesson (env : Env) (lessonCtx : String) (chapterId : EntId) (i : Nat)
    (l : LessonDir) (st : St) : St × Except Halt Unit :=
  let md := l.guideFM
  let r := issueOp env .lessonUp (.upsert .lessons) lessonCtx st
  match r.2 with
  | some msg => (logPathErr lessonCtx msg r.1, .error .ret)
  | none =>
    let lid := EntId.gen r.1.ctr
    let row : LessonRow := ⟨lid, chapterId, md.name, md.environment, i, none, none, none, none⟩
    let st2 := { r.1 with
                 ctr := r.1.ctr + 1,
                 db := { r.1.db with lessons := r.1.db.lessons ++ [row] } }
    let gkey : BlobKey := ⟨"guides", .guideName lid⟩
    let r2 := issueOp env .guideUpl
      (.upload "guides" (.guideName lid) l.guideBody (some "text/markdown")) lessonCtx st2
    match r2.2 with
    | some msg => (logPathErr lessonCtx msg r2.1, .error .ret)
    | none =>
      let st4 := { r2.1 with storage := putBlob r2.1.storage gkey l.guideBody }
      let wsRes : St × Except Halt Unit :=
        match l.workspace with
        | none => (st4, .ok ())
        | some files =>
          let wkey : BlobKey := ⟨"starter-workspaces", .workspaceName lid⟩
          let r3 := issueOp env .wsUpl
            (.upload "starter-workspaces" (.workspaceName lid) (tarOf files)
              (some "application/x-tar")) lessonCtx st4
          match r3.2 with
          | some msg => (logPathErr lessonCtx msg r3.1, .error .ret)
          | none =>
            let st6 := { r3.1 with storage := putBlob r3.1.storage wkey (tarOf files) }
            let r4 := issueOp env .wsUpd (.update .lessons) lessonCtx st6
            match r4.2 with
            | some msg => (logPathErr lessonCtx msg r4.1, .error .ret)
            | none => ({ r4.1 with db := updateLessonWs r4.1.db lid (some wkey) }, .ok ())
      match wsRes with
      | (stw, .error h) => (stw, .error h)
      | (stw, .ok _) =>
        let r5 := issueOp env .guideUpd (.update .lessons) lessonCtx stw
        match r5.2 with
        | some msg => (logPathErr lessonCtx msg r5.1, .error .ret)
        | none =>
          let st9 := { r5.1 with db := updateLessonGuide r5.1.db lid (some gkey) }
          processTasks env lessonCtx lid l 0 md.tasks st9

def processLessons (env : Env) (courseCtx pathSafe : String) (chapterId : EntId) :
    Nat → List LessonDir → St → St × Except Halt Unit
  | _, [], st => (st, .ok ())
  | i, l :: rest, st =>
    let lessonCtx := courseCtx ++ "/" ++ pathSafe ++ "/" ++ l.dirname ++ "/"
    match processLesson env lessonCtx chapterId i l st with
    | (st1, .error h) => (st1, .error h)
    | (st1, .ok _) => processLessons env courseCtx pathSafe chapterId (i + 1) rest st1

/-- Lines 84-235: one declared chapter — upsert the row (course id, name,
declared index), then the lessons discovered under the slugged directory. -/
def processChapter (env : Env) (courseCtx courseUuid : String) (c : CourseDir)
    (cm : ChapterMeta) (st : St) : St × Except Halt Unit :=
  let r := issueOp env .chapterUp (.upsert .chapters) (courseCtx ++ "/" ++ cm.pathSafe) st
  match r.2 with
  | some msg => (logPathErr (courseCtx ++ "/" ++ cm.pathSafe) msg r.1, .error .ret)
  | none =>
    let chid := EntId.gen r.1.ctr
    let row : ChapterRow := ⟨chid, .supplied courseUuid, cm.name, cm.index⟩
    let st2 := { r.1 with
                 ctr := r.1.ctr + 1,
                 db := { r.1.db with chapters := r.1.db.chapters ++ [row] } }
    processLessons env courseCtx cm.pathSafe chid 0 (chapterLessons c cm.pathSafe) st2

def processChapters (env : Env) (courseCtx courseUuid : String) (c : CourseDir) :
    List ChapterMeta → St → St × Except Halt Unit
  | [], st => (st, .ok ())
  | cm :: rest, st =>
    match processChapter env courseCtx courseUuid c cm st with
    | (st1, .error h) => (st1, .error h)
    | (st1, .ok _) => processChapters env courseCtx courseUuid c rest st1

/-! ### Navigation linker (lines 240-303) -/

/-- The `previous` pointer for lesson `j` of chapter `i`: the previous
lesson in the chapter, else (re-reading the prior chapter's lessons) the
last lesson of the prior chapter, else null.  `cs` is the chapter select
re-read in this iteration. -/
def navPrevOf (env : Env) (uuid : String) (cs : List ChapterRow) (i j : Nat)
    (st : St) : St × Except Halt (Option String) :=
  if j > 0 then (st, .ok (some (navStr uuid (i : Int) ((j : Int) - 1))))
  else if i > 0 then
    match cs.get? (i - 1) with
    | none => (st, .error (.crash "chapter row out of range"))
    | some prevCh =>
      let r := issueOp env .navPrevSel (.select .lessons) "" st
      match r.2 with
      | some msg => (logErrOnly msg r.1, .error .ret)
      | none =>
        let pls := selectLessons r.1.db prevCh.id
        (r.1, .ok (some (navStr uuid ((i : Int) - 1) ((pls.length : Int) - 1))))
  else (st, .ok none)

/-- The `next` pointer for lesson `j` of chapter `i`: the next lesson in
the chapter, else the first lesson of the next chapter, else null.
`csLen`/`lsLen` are the lengths of this iteration's select results. -/
def navNextOf (uuid : String) (csLen lsLen : Nat) (i j : Nat) : Option String :=
  if j < lsLen - 1 then some (navStr uuid (i : Int) ((j : Int) + 1))
  else if i < csLen - 1 then some (navStr uuid ((i : Int) + 1) 0)
  else none

def navLessonLoop (env : Env) (uuid : String) (cs : List ChapterRow)
    (ls : List LessonRow) (i : Nat) : Nat → List LessonRow → St → St × Except Halt Unit
  | _, [], st => (st, .ok ())
  | j, lrow :: rest, st =>
    match navPrevOf env uuid cs i j st with
    | (st1, .error h) => (st1, .error h)
    | (st1, .ok previous) =>
      let next := navNextOf uuid cs.length ls.length i j
      let r := issueOp env .navUpd (.update .lessons) "" st1
      match r.2 with
      | some msg => (logErrOnly msg r.1, .error .ret)
      | none =>
        let st3 := { r.1 with db := updateLessonNav r.1.db lrow.id previous next }
        navLessonLoop env uuid cs ls i (j + 1) rest st3

/-- The outer `for (let i = 0; ...)` loop: each iteration re-reads the
course's chapters and the current chapter's lessons from the store (ordered
by index) before linking.  The loop bound is the declared chapter count;
the re-read list is used for everything inside the body. -/
def navChapterLoop (env : Env) (uuid : String) : Nat → Nat → St → St × Except Halt Unit
  | _, 0, st => (st, .ok ())
  | i, remaining + 1, st =>
    let r := issueOp env .navChSel (.select .chapters) "" st
    match r.2 with
    | some msg => (logErrOnly msg r.1, .error .ret)
    | none =>
      let cs := selectChapters r.1.db (.supplied uuid)
      match cs.get? i with
      | none => (r.1, .error (.crash "chapter row out of range"))
      | some ci =>
        let r2 := issueOp env .navLsSel (.select .lessons) "" r.1
        match r2.2 with
        | some msg => (logErrOnly msg r2.1, .error .ret)
        | none =>
          let ls := selectLessons r2.1.db ci.id
          match navLessonLoop env uuid cs ls i 0 ls r2.1 with
          | (st3, .error h) => (st3, .error h)
          | (st3, .ok _) => navChapterLoop env uuid (i + 1) remaining st3

/-- Lines 57-304: one course — upsert the Course row keyed by the supplied
uuid, process the declared chapters (built with slug and index, then
sorted by index), then run the navigation linker over the course. -/
def processCourse (env : Env) (c : CourseDir) (st : St) : St × Except Halt Unit :=
  let courseCtx := "/" ++ c.dirname ++ "/"
  let meta := c.meta
  let r := issueOp env .courseUp (.upsert .courses) courseCtx st
  match r.2 with
  | some msg => (logPathErr courseCtx msg r.1, .error .ret)
  | none =>
    let row : CourseRow := ⟨.supplied meta.uuid, meta.name, meta.description,
                            meta.tags, meta.authors⟩
    let st2 := { r.1 with db := upsertCourseRow r.1.db row }
    let chapters := sortByIdx ChapterMeta.index (chaptersOf meta.chapters)
    match processChapters env courseCtx meta.uuid c chapters st2 with
    | (st3, .error h) => (st3, .error h)
    | (st3, .ok _) => navChapterLoop env meta.uuid 0 chapters.length st3

def coursesPhase (env : Env) : List CourseDir → St → St × Except Halt Unit
  | [], st => (st, .ok ())
  | c :: rest, st =>
    match processCourse env c st with
    | (st1, .error h) => (st1, .error h)
    | (st1, .ok _) => coursesPhase env rest st1

/-- Step 0: the five unchecked deletes, children before parents. -/
def purgePhase (env : Env) (st : St) : St :=
  purgeDelete env .courses
    (purgeDelete env .chapters
      (purgeDelete env .lessons
        (purgeDelete env .tasks
          (purgeDelete env .task_conditions st))))

/-- Run state at the start of a run: the store's surviving contents and the
store's id-generation counter (`n0` — the store, not the pipeline, chooses
generated ids, so the starting point is a parameter of the model). -/
def initSt (db0 : DB) (n0 : Nat) : St :=
  ⟨db0, [], [], [], n0, 0⟩

/-- `main()`: purge, then every course directory found at the root
(excluding `node_modules` and `.git`). -/
def mainRun (env : Env) (fs : List CourseDir) (db0 : DB) (n0 : Nat) :
    St × Except Halt Unit :=
  coursesPhase env (fs.filter (fun c => globKeep c.dirname))
    (purgePhase env (initSt db0 n0))

/-! ### Spec-side definitions (written from the spec/claim wording, for
comparison with the code-derived definitions above) -/

/-- Slugification as the claim words it: each maximal run of
non-alphanumeric characters becomes a single `-`, and the result is
lower-cased.  The flag records whether the previous character was part of a
non-alphanumeric run. -/
def collapseRunsAux : Bool → List Char → List Char
  | _, [] => []
  | inRun, c :: rest =>
    if c.isAlphanum then c.toLower :: collapseRunsAux false rest
    else if inRun then collapseRunsAux true rest
    else '-' :: collapseRunsAux true rest

/-- The claim's run-collapsing slug. -/
def claimSlug (s : String) : String := String.mk (collapseRunsAux false s.data)

/-- Slugification as the code actually behaves, worded per-character:
every non-alphanumeric character becomes its own `-`, alphanumerics are
lower-cased. -/
def perCharSlug (l : List Char) : List Char :=
  l.map (fun c => if c.isAlphanum then c.toLower else '-')

/-- No row of any of the five tables carries the purge's sentinel id. -/
def SFreeDB (db : DB) : Prop :=
  (∀ r ∈ db.courses, r.id ≠ sentinelId) ∧
  (∀ r ∈ db.chapters, r.id ≠ sentinelId) ∧
  (∀ r ∈ db.lessons, r.id ≠ sentinelId) ∧
  (∀ r ∈ db.tasks, r.id ≠ sentinelId) ∧
  (∀ r ∈ db.task_conditions, r.id ≠ sentinelId)

instance (db : DB) : Decidable (SFreeDB db) := by
  unfold SFreeDB; infer_instance

/-! ### Concrete fixtures used by counterexamples and witnesses -/

/-- A lesson whose single condition has the literal value `"true"`, which
names no entry of the lesson directory. -/
def fmLit : LessonFM := ⟨"L", "e", [⟨"i", true, [⟨"output", "stdout", "eq", "true"⟩]⟩]⟩

def lesLit : LessonDir := ⟨"l1", fmLit, "b", none, []⟩

def crsLit : CourseDir := ⟨"c1", ⟨"u", "C", "d", [], [], ["A"]⟩, [("a", [lesLit])]⟩

/-- The same lesson, but the condition's value `"tests/check.py"` names an
existing regular file with bytes `"check"`. -/
def fmFile : LessonFM :=
  ⟨"L", "e", [⟨"i", true, [⟨"output", "stdout", "eq", "tests/check.py"⟩]⟩]⟩

def lesFile : LessonDir :=
  ⟨"l1", fmFile, "b", none, [("tests/check.py", .file "check"), ("tests", .dir)]⟩

def crsFile : CourseDir := ⟨"c1", ⟨"u", "C", "d", [], [], ["A"]⟩, [("a", [lesFile])]⟩

/-- A course declaring one chapter `"A"` whose directory `a/` is absent. -/
def crsNoDir : CourseDir := ⟨"c1", ⟨"u", "C", "d", [], [], ["A"]⟩, []⟩

/-- A course with two declared chapters where the first chapter's directory
is empty (zero lessons) and the second has exactly one lesson — so the
course's one and only (hence globally first and last) lesson lives in the
second chapter. -/
def fmOnly : LessonFM := ⟨"L", "e", []⟩

def lesOnly : LessonDir := ⟨"l1", fmOnly, "b", none, []⟩

def crsEmptyFirst : CourseDir :=
  ⟨"c1", ⟨"u", "C", "d", [], [], ["A", "B"]⟩, [("a", []), ("b", [lesOnly])]⟩

/-! ### C7 — slugification -/

/-- C7 counterexample: the claim says slugification replaces each maximal
run of non-alphanumerics by a single `-`; on the declared chapter name
`"C++ Basics"` the code's path segment is `"c---basics"` (one dash per
character) while the run-collapsing slug of the claim is `"c-basics"`. -/
theorem slug_run_collapse_refuted :
    (chaptersOf ["C++ Basics"]).map ChapterMeta.pathSafe = ["c---basics"] ∧
    claimSlug "C++ Basics" = "c-basics" ∧
    ("c---basics" : String) ≠ "c-basics" := by
  refine ⟨rfl, rfl, ?_⟩
  decide

theorem slugCore_eq_perChar (l : List Char) : slugCore l = perCharSlug l := by
  induction l with
  | nil => rfl
  | cons c rest ih =>
    show Char.toLower (slugChar c) :: slugCore rest =
      (if c.isAlphanum then c.toLower else '-') :: perCharSlug rest
    rw [ih]
    by_cases h : c.isAlphanum
    · simp [slugChar, h]
    · simp only [slugChar, h, if_false]
      norm_num
      decide

/-- C7 (amended): the path segment used for every declared chapter is the
per-character slug of its name — each non-alphanumeric character becomes
its own `-` (a run of k characters becomes k dashes) and letters are
lower-cased. -/
theorem slug_per_character :
    ∀ names : List String,
      (chaptersOf names).map ChapterMeta.pathSafe =
        names.map (fun n => String.mk (perCharSlug n.data)) := by
  intro names
  have aux : ∀ (i : Nat) (ns : List String),
      (chaptersOfAux i ns).map ChapterMeta.pathSafe =
        ns.map (fun n => String.mk (perCharSlug n.data)) := by
    intro i ns
    induction ns generalizing i with
    | nil => rfl
    | cons n rest ih =>
      simp only [chaptersOfAux, List.map_cons, ih]
      rw [show slug n = String.mk (perCharSlug n.data) by
        simp [slug, slugCore_eq_perChar]]
  exact aux 0 names

/-! ### C9 — purge semantics and the sentinel -/

/-- The five purge operations as recorded in the trace (success case). -/
def purgeTraceOps : List Op :=
  [⟨.purgeDel, .deleteNeq .task_conditions badUUID, "", none⟩,
   ⟨.purgeDel, .deleteNeq .tasks badUUID, "", none⟩,
   ⟨.purgeDel, .deleteNeq .lessons badUUID, "", none⟩,
   ⟨.purgeDel, .deleteNeq .chapters badUUID, "", none⟩,
   ⟨.purgeDel, .deleteNeq .courses badUUID, "", none⟩]

theorem purgePhase_noerr (db0 : DB) (n0 : Nat) :
    purgePhase noErrEnv (initSt db0 n0) =
      ⟨⟨db0.courses.filter (fun r => r.id == sentinelId),
        db0.chapters.filter (fun r => r.id == sentinelId),
        db0.lessons.filter (fun r => r.id == sentinelId),
        db0.tasks.filter (fun r => r.id == sentinelId),
        db0.task_conditions.filter (fun r => r.id == sentinelId)⟩,
       [], purgeTraceOps, [], n0, 5⟩ := rfl

theorem filter_beq_nil_iff {α : Type} (f : α → EntId) (l : List α) :
    l.filter (fun r => f r == sentinelId) = [] ↔ ∀ r ∈ l, f r ≠ sentinelId := by
  rw [List.filter_eq_nil_iff]
  constructor
  · intro h r hr
    simpa using h r hr
  · intro h r hr
    simpa using h r hr

/-- C9: the purge deletes through `id ≠ "123e4567-…"`, so a pre-existing
row whose id equals the sentinel survives every table's delete, and the
purge empties the five tables exactly when no row carries the sentinel. -/
theorem purge_sentinel_survival (db0 : DB) (n0 : Nat) :
    sentinelId = EntId.supplied "123e4567-e89b-12d3-a456-426614174000" ∧
    (purgePhase noErrEnv (initSt db0 n0)).db.courses
      = db0.courses.filter (fun r => r.id == sentinelId) ∧
    (purgePhase noErrEnv (initSt db0 n0)).db.chapters
      = db0.chapters.filter (fun r => r.id == sentinelId) ∧
    (purgePhase noErrEnv (initSt db0 n0)).db.lessons
      = db0.lessons.filter (fun r => r.id == sentinelId) ∧
    (purgePhase noErrEnv (initSt db0 n0)).db.tasks
      = db0.tasks.filter (fun r => r.id == sentinelId) ∧
    (purgePhase noErrEnv (initSt db0 n0)).db.task_conditions
      = db0.task_conditions.filter (fun r => r.id == sentinelId) ∧
    ((purgePhase noErrEnv (initSt db0 n0)).db = emptyDB ↔ SFreeDB db0) := by
  refine ⟨rfl, rfl, rfl, rfl, rfl, rfl, ?_⟩
  rw [purgePhase_noerr]
  show (⟨db0.courses.filter (fun r => r.id == sentinelId),
        db0.chapters.filter (fun r => r.id == sentinelId),
        db0.lessons.filter (fun r => r.id == sentinelId),
        db0.tasks.filter (fun r => r.id == sentinelId),
        db0.task_conditions.filter (fun r => r.id == sentinelId)⟩ : DB) = emptyDB
      ↔ SFreeDB db0
  unfold SFreeDB emptyDB
  rw [DB.mk.injEq]
  rw [filter_beq_nil_iff CourseRow.id db0.courses,
      filter_beq_nil_iff ChapterRow.id db0.chapters,
      filter_beq_nil_iff LessonRow.id db0.lessons,
      filter_beq_nil_iff TaskRow.id db0.tasks,
      filter_beq_nil_iff ConditionRow.id db0.task_conditions]

/-- A pre-existing lessons row carrying the sentinel id. -/
def sentinelLessonRow : LessonRow :=
  ⟨sentinelId, .gen 7, "n", "e", 0, none, none, none, none⟩

def dbWithSentinel : DB := ⟨[], [], [sentinelLessonRow], [], []⟩

theorem purge_sentinel_survival_witness :
    (purgePhase noErrEnv (initSt dbWithSentinel 0)).db.lessons = [sentinelLessonRow] ∧
    ¬ ((purgePhase noErrEnv (initSt dbWithSentinel 0)).db = emptyDB) := by
  have h := purge_sentinel_survival dbWithSentinel 0
  refine ⟨?_, ?_⟩
  · rw [h.2.2.2.1]
    decide
  · intro hempty
    have hsf := (h.2.2.2.2.2.2).1 hempty
    exact (hsf.2.2.1 sentinelLessonRow (by decide)) rfl

/-! ### C1 — condition `value` resolution -/

/-- C1: when the condition's `value` names an existing regular file the
pipeline uploads the file's bytes and persists the blob reference; but when
the `value` (here the literal `"true"`) names no entry of the lesson
directory, `fs.stat` rejects and the uncaught rejection crashes the whole
run before the condition row is persisted — the literal is never written. -/
theorem condition_value_stat_crash :
    (mainRun noErrEnv [crsFile] emptyDB 0).2 = .ok () ∧
    (mainRun noErrEnv [crsFile] emptyDB 0).1.db.task_conditions.map ConditionRow.value
      = [.ref ⟨"misc-course-content", .fileName (.gen 1) "check-py"⟩] ∧
    (⟨⟨"misc-course-content", .fileName (.gen 1) "check-py"⟩, "check"⟩ : BlobKey × String)
      ∈ (mainRun noErrEnv [crsFile] emptyDB 0).1.storage ∧
    (mainRun noErrEnv [crsLit] emptyDB 0).2 = .error (.crash "ENOENT") ∧
    (mainRun noErrEnv [crsLit] emptyDB 0).1.db.task_conditions = [] := by
  refine ⟨rfl, by decide, by decide, rfl, by decide⟩

/-! ### C4 — chapter walk follows the declared list -/

/-- C4 counterexample: a declared chapter (`"A"`) whose directory is
absent does not fail the run at all — there is no `MissingChapterDirectory`
error anywhere in the code; the run completes, logs nothing, still creates
the Chapter row, and simply finds zero lessons. -/
theorem missing_chapter_dir_no_failure :
    (mainRun noErrEnv [crsNoDir] emptyDB 0).2 = .ok () ∧
    (mainRun noErrEnv [crsNoDir] emptyDB 0).1.elog = [] ∧
    (mainRun noErrEnv [crsNoDir] emptyDB 0).1.db.chapters.map
      (fun r => (r.course, r.name, r.index)) = [(.supplied "u", "A", 0)] ∧
    (mainRun noErrEnv [crsNoDir] emptyDB 0).1.db.lessons = [] := by
  exact ⟨rfl, rfl, rfl, rfl⟩

/-! ### C5 — navigation links, empty-chapter counterexample -/

/-- C5 counterexample: with chapters `[A (0 lessons), B (1 lesson)]` the
course's one and only lesson — its globally first lesson — receives a
non-null `previous`, namely `u/0/(-1)`, a dangling reference into the
empty prior chapter, instead of the `null` the claim requires for the
course's very first lesson. -/
theorem nav_empty_chapter_dangling_previous :
    (mainRun noErrEnv [crsEmptyFirst] emptyDB 0).2 = .ok () ∧
    (mainRun noErrEnv [crsEmptyFirst] emptyDB 0).1.db.lessons.map
      (fun r => (r.previous, r.next)) = [(some "u/0/-1", none)] ∧
    some "u/0/-1" ≠ (none : Option String) := by
  refine ⟨rfl, rfl, ?_⟩
  decide

/-! ### Error-policy machinery (C3, C6) -/

def isDel (o : Op) : Bool :=
  match o.kind with
  | .deleteNeq _ _ => true
  | _ => false

/-- Sites that log the offending path before the error object.  The
condition-insert and the four navigation-phase sites log only the error;
the purge deletes log nothing at all. -/
def pathSite : Site → Bool
  | .condUp | .navChSel | .navLsSel | .navPrevSel | .navUpd | .purgeDel => false
  | _ => true

/-- What a site's failure writes to `console.error`. -/
def expectedLog (o : Op) : List LogEntry :=
  match o.err with
  | none => []
  | some m => if pathSite o.site then [.path o.ctx, .err m] else [.err m]

/-- How a fragment of the per-course phase advances the run state: the
trace grows by `new`, no delete is ever issued there, and errors are
fail-fast — with `failed = none` every new operation succeeded and nothing
was logged; with `failed = some f` the failed operation is the last one
issued, all earlier new operations succeeded, and exactly its site's log
was appended. -/
def Progress (st st' : St) (failed : Option Op) : Prop :=
  ∃ new, st'.trace = st.trace ++ new ∧ (∀ o ∈ new, isDel o = false) ∧
    match failed with
    | none => st'.elog = st.elog ∧ ∀ o ∈ new, o.err = none
    | some f => f.err ≠ none ∧ new.getLast? = some f ∧
        (∀ o ∈ new.dropLast, o.err = none) ∧
        st'.elog = st.elog ++ expectedLog f

/-- Classification of a step's result: success and crash leave a clean
`Progress`, an early `return` pins a failed operation. -/
def StepProg {α : Type} (st st' : St) (r : Except Halt α) : Prop :=
  match r with
  | .ok _ => Progress st st' none
  | .error .ret => ∃ f, Progress st st' (some f)
  | .error (.crash _) => Progress st st' none

theorem prog_refl (st : St) : Progress st st none :=
  ⟨[], by simp, by simp, by simp⟩

theorem prog_single_ok (st st' : St) (o : Op)
    (ht : st'.trace = st.trace ++ [o]) (hd : isDel o = false)
    (he : o.err = none) (hl : st'.elog = st.elog) : Progress st st' none :=
  ⟨[o], ht, by simpa using hd, by simp [hl, he]⟩

theorem prog_single_fail (st st' : St) (o : Op)
    (ht : st'.trace = st.trace ++ [o]) (hd : isDel o = false)
    (he : o.err ≠ none) (hl : st'.elog = st.elog ++ expectedLog o) :
    Progress st st' (some o) :=
  ⟨[o], ht, by simpa using hd, he, by simp, by simp, hl⟩

theorem prog_trans_ok (st st1 st2 : St) (f : Option Op)
    (h1 : Progress st st1 none) (h2 : Progress st1 st2 f) :
    Progress st st2 f := by
  obtain ⟨n1, ht1, hd1, hl1, he1⟩ := h1
  obtain ⟨n2, ht2, hd2, hrest⟩ := h2
  refine ⟨n1 ++ n2, by rw [ht2, ht1, List.append_assoc], ?_, ?_⟩
  · intro o ho
    rcases List.mem_append.mp ho with h | h
    · exact hd1 o h
    · exact hd2 o h
  · cases f with
    | none =>
      obtain ⟨hl2, he2⟩ := hrest
      refine ⟨by rw [hl2, hl1], ?_⟩
      intro o ho
      rcases List.mem_append.mp ho with h | h
      · exact he1 o h
      · exact he2 o h
    | some f =>
      obtain ⟨hfe, hlast, hpre, hl2⟩ := hrest
      have hn2 : n2 ≠ [] := by
        intro h
        rw [h] at hlast
        simp at hlast
      refine ⟨hfe, ?_, ?_, by rw [hl2, hl1]⟩
      · rw [List.getLast?_append_of_ne_nil n1 hn2]
        exact hlast
      · intro o ho
        rw [List.dropLast_append_of_ne_nil n1 hn2] at ho
        rcases List.mem_append.mp ho with h | h
        · exact he1 o h
        · exact hpre o h

theorem stepProg_comp {α : Type} (st st1 st2 : St) (r : Except Halt α)
    (h1 : Progress st st1 none) (h2 : StepProg st1 st2 r) :
    StepProg st st2 r := by
  cases r with
  | ok a => exact prog_trans_ok st st1 st2 none h1 h2
  | error e =>
    cases e with
    | ret =>
      obtain ⟨f, hf⟩ := h2
      exact ⟨f, prog_trans_ok st st1 st2 (some f) h1 hf⟩
    | crash m => exact prog_trans_ok st st1 st2 none h1 h2

theorem prog_double_ok (st st' : St) (o1 o2 : Op)
    (ht : st'.trace = st.trace ++ [o1, o2])
    (hd1 : isDel o1 = false) (hd2 : isDel o2 = false)
    (he1 : o1.err = none) (he2 : o2.err = none)
    (hl : st'.elog = st.elog) : Progress st st' none := by
  refine ⟨[o1, o2], ht, ?_, hl, ?_⟩
  · intro o ho
    simp only [List.mem_cons, List.not_mem_nil, or_false] at ho
    rcases ho with rfl | rfl
    · exact hd1
    · exact hd2
  · intro o ho
    simp only [List.mem_cons, List.not_mem_nil, or_false] at ho
    rcases ho with rfl | rfl
    · exact he1
    · exact he2

theorem prog_double_fail (st st' : St) (o1 o2 : Op)
    (ht : st'.trace = st.trace ++ [o1, o2])
    (hd1 : isDel o1 = false) (hd2 : isDel o2 = false)
    (he1 : o1.err = none) (he2 : o2.err ≠ none)
    (hl : st'.elog = st.elog ++ expectedLog o2) : Progress st st' (some o2) := by
  refine ⟨[o1, o2], ht, ?_, he2, rfl, ?_, hl⟩
  · intro o ho
    simp only [List.mem_cons, List.not_mem_nil, or_false] at ho
    rcases ho with rfl | rfl
    · exact hd1
    · exact hd2
  · intro o ho
    rw [show ([o1, o2]).dropLast = [o1] from rfl] at ho
    simp only [List.mem_singleton] at ho
    exact ho ▸ he1

theorem processCondition_progress (env : Env) (lessonCtx : String)
    (lid tid : EntId) (l : LessonDir) (cond : CondMeta) (st st' : St)
    (r : Except Halt Unit)
    (h : processCondition env lessonCtx lid tid l cond st = (st', r)) :
    StepProg st st' r := by
  unfold processCondition at h
  cases hstat : statNode l cond.value with
  | none =>
    rw [hstat] at h
    obtain ⟨rfl, rfl⟩ := Prod.mk.injEq .. ▸ h
    exact prog_refl st
  | some node =>
    rw [hstat] at h
    cases node with
    | dir =>
      simp only [issueOp] at h
      cases he : env.oracle st.opIdx with
      | some m =>
        rw [he] at h
        simp only at h
        obtain ⟨rfl, rfl⟩ := Prod.mk.injEq .. ▸ h
        refine ⟨⟨.condUp, .upsert .task_conditions, lessonCtx, some m⟩,
          prog_single_fail _ _ _ (by simp [logErrOnly]) (by simp [isDel]) (by simp)
            (by simp [logErrOnly, expectedLog, pathSite])⟩
      | none =>
        rw [he] at h
        simp only at h
        obtain ⟨rfl, rfl⟩ := Prod.mk.injEq .. ▸ h
        exact prog_single_ok _ _ ⟨.condUp, .upsert .task_conditions, lessonCtx, none⟩
          (by simp) (by simp [isDel]) (by simp) (by simp)
    | file content =>
      simp only [issueOp] at h
      cases he : env.oracle st.opIdx with
      | some m =>
        rw [he] at h
        simp only at h
        obtain ⟨rfl, rfl⟩ := Prod.mk.injEq .. ▸ h
        refine ⟨⟨.fileUpl, .upload "misc-course-content"
            (.fileName lid (sanitize cond.value)) content (mimeLookup cond.value),
            lessonCtx ++ cond.value, some m⟩,
          prog_single_fail _ _ _ (by simp [logPathErr]) (by simp [isDel]) (by simp)
            (by simp [logPathErr, expectedLog, pathSite])⟩
      | none =>
        rw [he] at h
        simp only at h
        cases he2 : env.oracle (st.opIdx + 1) with
        | some m =>
          rw [he2] at h
          simp only at h
          obtain ⟨rfl, rfl⟩ := Prod.mk.injEq .. ▸ h
          refine ⟨⟨.condUp, .upsert .task_conditions, lessonCtx, some m⟩, ?_⟩
          exact prog_double_fail _ _
            ⟨.fileUpl, .upload "misc-course-content"
              (.fileName lid (sanitize cond.value)) content (mimeLookup cond.value),
              lessonCtx ++ cond.value, none⟩
            ⟨.condUp, .upsert .task_conditions, lessonCtx, some m⟩
            (by simp [logErrOnly]) (by simp [isDel]) (by simp [isDel]) (by simp) (by simp)
            (by simp [logErrOnly, expectedLog, pathSite])
        | none =>
          rw [he2] at h
          simp only at h
          obtain ⟨rfl, rfl⟩ := Prod.mk.injEq .. ▸ h
          exact prog_double_ok _ _
            ⟨.fileUpl, .upload "misc-course-content"
              (.fileName lid (sanitize cond.value)) content (mimeLookup cond.value),
              lessonCtx ++ cond.value, none⟩
            ⟨.condUp, .upsert .task_conditions, lessonCtx, none⟩
            (by simp) (by simp [isDel]) (by simp [isDel]) (by simp) (by simp) (by simp)

theorem prog_ops_ok (st st' : St) (ops : List Op)
    (ht : st'.trace = st.trace ++ ops)
    (hd : ∀ o ∈ ops, isDel o = false)
    (he : ∀ o ∈ ops, o.err = none)
    (hl : st'.elog = st.elog) : Progress st st' none :=
  ⟨ops, ht, hd, hl, he⟩

theorem prog_ops_fail (st st' : St) (ops : List Op) (f : Op)
    (ht : st'.trace = st.trace ++ (ops ++ [f]))
    (hd : ∀ o ∈ ops ++ [f], isDel o = false)
    (he : ∀ o ∈ ops, o.err = none) (hf : f.err ≠ none)
    (hl : st'.elog = st.elog ++ expectedLog f) : Progress st st' (some f) := by
  refine ⟨ops ++ [f], ht, hd, hf, by simp, ?_, hl⟩
  intro o ho
  rw [List.dropLast_concat] at ho
  exact he o ho

theorem processConditions_progress (env : Env) (lessonCtx : String)
    (lid tid : EntId) (l : LessonDir) (cs : List CondMeta) (st st' : St)
    (r : Except Halt Unit)
    (h : processConditions env lessonCtx lid tid l cs st = (st', r)) :
    StepProg st st' r := by
  induction cs generalizing st with
  | nil =>
    unfold processConditions at h
    obtain ⟨rfl, rfl⟩ := Prod.mk.injEq .. ▸ h
    exact prog_refl st
  | cons c rest ih =>
    unfold processConditions at h
    cases hc : processCondition env lessonCtx lid tid l c st with
    | mk st1 r1 =>
      rw [hc] at h
      have h1 := processCondition_progress env lessonCtx lid tid l c st st1 r1 hc
      cases r1 with
      | error e =>
        simp only at h
        obtain ⟨rfl, rfl⟩ := Prod.mk.injEq .. ▸ h
        exact h1
      | ok u =>
        simp only at h
        exact stepProg_comp st st1 st' r h1 (ih st1 h)

theorem processTask_progress (env : Env) (lessonCtx : String) (lid : EntId)
    (l : LessonDir) (j : Nat) (task : TaskMeta) (st st' : St)
    (r : Except Halt Unit)
    (h : processTask env lessonCtx lid l j task st = (st', r)) :
    StepProg st st' r := by
  unfold processTask at h
  simp only [issueOp] at h
  cases he : env.oracle st.opIdx with
  | some m =>
    rw [he] at h
    simp only at h
    obtain ⟨rfl, rfl⟩ := Prod.mk.injEq .. ▸ h
    exact ⟨⟨.taskUp, .upsert .tasks, lessonCtx, some m⟩,
      prog_single_fail _ _ _ (by simp [logPathErr]) (by simp [isDel]) (by simp)
        (by simp [logPathErr, expectedLog, pathSite])⟩
  | none =>
    rw [he] at h
    simp only at h
    refine stepProg_comp st _ st' r
      (prog_single_ok _ _ ⟨.taskUp, .upsert .tasks, lessonCtx, none⟩
        (by simp) (by simp [isDel]) (by simp) (by simp))
      (processConditions_progress env lessonCtx lid _ l task.conditions _ st' r h)

theorem processTasks_progress (env : Env) (lessonCtx : String) (lid : EntId)
    (l : LessonDir) (j : Nat) (ts : List TaskMeta) (st st' : St)
    (r : Except Halt Unit)
    (h : processTasks env lessonCtx lid l j ts st = (st', r)) :
    StepProg st st' r := by
  induction ts generalizing st j with
  | nil =>
    unfold processTasks at h
    obtain ⟨rfl, rfl⟩ := Prod.mk.injEq .. ▸ h
    exact prog_refl st
  | cons t rest ih =>
    unfold processTasks at h
    cases hc : processTask env lessonCtx lid l j t st with
    | mk st1 r1 =>
      rw [hc] at h
      have h1 := processTask_progress env lessonCtx lid l j t st st1 r1 hc
      cases r1 with
      | error e =>
        simp only at h
        obtain ⟨rfl, rfl⟩ := Prod.mk.injEq .. ▸ h
        exact h1
      | ok u =>
        simp only at h
        exact stepProg_comp st st1 st' r h1 (ih (j + 1) st1 h)

theorem processLesson_progress (env : Env) (lessonCtx : String) (chid : EntId)
    (i : Nat) (l : LessonDir) (st st' : St) (r : Except Halt Unit)
    (h : processLesson env lessonCtx chid i l st = (st', r)) :
    StepProg st st' r := by
  unfold processLesson at h
  simp only [issueOp] at h
  cases he1 : env.oracle st.opIdx with
  | some m =>
    rw [he1] at h
    simp only at h
    obtain ⟨rfl, rfl⟩ := Prod.mk.injEq .. ▸ h
    exact ⟨⟨.lessonUp, .upsert .lessons, lessonCtx, some m⟩,
      prog_single_fail _ _ _ (by simp [logPathErr]) (by simp [isDel]) (by simp)
        (by simp [logPathErr, expectedLog, pathSite])⟩
  | none =>
    rw [he1] at h
    simp only at h
    cases he2 : env.oracle (st.opIdx + 1) with
    | some m =>
      rw [he2] at h
      simp only at h
      obtain ⟨rfl, rfl⟩ := Prod.mk.injEq .. ▸ h
      refine ⟨⟨.guideUpl, .upload "guides" (.guideName (.gen st.ctr)) l.guideBody
          (some "text/markdown"), lessonCtx, some m⟩, ?_⟩
      exact prog_ops_fail _ _ [⟨.lessonUp, .upsert .lessons, lessonCtx, none⟩] _
        (by simp [logPathErr]) (by simp [isDel]) (by simp) (by simp)
        (by simp [logPathErr, expectedLog, pathSite])
    | none =>
      rw [he2] at h
      simp only at h
      cases hw : l.workspace with
      | none =>
        rw [hw] at h
        simp only at h
        cases he3 : env.oracle (st.opIdx + 1 + 1) with
        | some m =>
          rw [he3] at h
          simp only at h
          obtain ⟨rfl, rfl⟩ := Prod.mk.injEq .. ▸ h
          refine ⟨⟨.guideUpd, .update .lessons, lessonCtx, some m⟩, ?_⟩
          exact prog_ops_fail _ _
            [⟨.lessonUp, .upsert .lessons, lessonCtx, none⟩,
             ⟨.guideUpl, .upload "guides" (.guideName (.gen st.ctr)) l.guideBody
               (some "text/markdown"), lessonCtx, none⟩] _
            (by simp [logPathErr]) (by simp [isDel]) (by simp) (by simp)
            (by simp [logPathErr, expectedLog, pathSite])
        | none =>
          rw [he3] at h
          simp only at h
          refine stepProg_comp st _ st' r
            (prog_ops_ok _ _
              [⟨.lessonUp, .upsert .lessons, lessonCtx, none⟩,
               ⟨.guideUpl, .upload "guides" (.guideName (.gen st.ctr)) l.guideBody
                 (some "text/markdown"), lessonCtx, none⟩,
               ⟨.guideUpd, .update .lessons, lessonCtx, none⟩]
              (by simp) (by simp [isDel]) (by simp) (by simp))
            (processTasks_progress env lessonCtx (.gen st.ctr) l 0 l.guideFM.tasks _ st' r h)
      | some files =>
        rw [hw] at h
        simp only at h
        cases he3 : env.oracle (st.opIdx + 1 + 1) with
        | some m =>
          rw [he3] at h
          simp only at h
          obtain ⟨rfl, rfl⟩ := Prod.mk.injEq .. ▸ h
          refine ⟨⟨.wsUpl, .upload "starter-workspaces" (.workspaceName (.gen st.ctr))
              (tarOf files) (some "application/x-tar"), lessonCtx, some m⟩, ?_⟩
          exact prog_ops_fail _ _
            [⟨.lessonUp, .upsert .lessons, lessonCtx, none⟩,
             ⟨.guideUpl, .upload "guides" (.guideName (.gen st.ctr)) l.guideBody
               (some "text/markdown"), lessonCtx, none⟩] _
            (by simp [logPathErr]) (by simp [isDel]) (by simp) (by simp)
            (by simp [logPathErr, expectedLog, pathSite])
        | none =>
          rw [he3] at h
          simp only at h
          cases he4 : env.oracle (st.opIdx + 1 + 1 + 1) with
          | some m =>
            rw [he4] at h
            simp only at h
            obtain ⟨rfl, rfl⟩ := Prod.mk.injEq .. ▸ h
            refine ⟨⟨.wsUpd, .update .lessons, lessonCtx, some m⟩, ?_⟩
            exact prog_ops_fail _ _
              [⟨.lessonUp, .upsert .lessons, lessonCtx, none⟩,
               ⟨.guideUpl, .upload "guides" (.guideName (.gen st.ctr)) l.guideBody
                 (some "text/markdown"), lessonCtx, none⟩,
               ⟨.wsUpl, .upload "starter-workspaces" (.workspaceName (.gen st.ctr))
                 (tarOf files) (some "application/x-tar"), lessonCtx, none⟩] _
              (by simp [logPathErr]) (by simp [isDel]) (by simp) (by simp)
              (by simp [logPathErr, expectedLog, pathSite])
          | none =>
            rw [he4] at h
            simp only at h
            cases he5 : env.oracle (st.opIdx + 1 + 1 + 1 + 1) with
            | some m =>
              rw [he5] at h
              simp only at h
              obtain ⟨rfl, rfl⟩ := Prod.mk.injEq .. ▸ h
              refine ⟨⟨.guideUpd, .update .lessons, lessonCtx, some m⟩, ?_⟩
              exact prog_ops_fail _ _
                [⟨.lessonUp, .upsert .lessons, lessonCtx, none⟩,
                 ⟨.guideUpl, .upload "guides" (.guideName (.gen st.ctr)) l.guideBody
                   (some "text/markdown"), lessonCtx, none⟩,
                 ⟨.wsUpl, .upload "starter-workspaces" (.workspaceName (.gen st.ctr))
                   (tarOf files) (some "application/x-tar"), lessonCtx, none⟩,
                 ⟨.wsUpd, .update .lessons, lessonCtx, none⟩] _
                (by simp [logPathErr]) (by simp [isDel]) (by simp) (by simp)
                (by simp [logPathErr, expectedLog, pathSite])
            | none =>
              rw [he5] at h
              simp only at h
              refine stepProg_comp st _ st' r
                (prog_ops_ok _ _
                  [⟨.lessonUp, .upsert .lessons, lessonCtx, none⟩,
                   ⟨.guideUpl, .upload "guides" (.guideName (.gen st.ctr)) l.guideBody
                     (some "text/markdown"), lessonCtx, none⟩,
                   ⟨.wsUpl, .upload "starter-workspaces" (.workspaceName (.gen st.ctr))
                     (tarOf files) (some "application/x-tar"), lessonCtx, none⟩,
                   ⟨.wsUpd, .update .lessons, lessonCtx, none⟩,
                   ⟨.guideUpd, .update .lessons, lessonCtx, none⟩]
                  (by simp) (by simp [isDel]) (by simp) (by simp))
                (processTasks_progress env lessonCtx (.gen st.ctr) l 0 l.guideFM.tasks _ st' r h)

theorem processLessons_progress (env : Env) (courseCtx pathSafe : String)
    (chid : EntId) (i : Nat) (ls : List LessonDir) (st st' : St)
    (r : Except Halt Unit)
    (h : processLessons env courseCtx pathSafe chid i ls st = (st', r)) :
    StepProg st st' r := by
  induction ls generalizing st i with
  | nil =>
    unfold processLessons at h
    obtain ⟨rfl, rfl⟩ := Prod.mk.injEq .. ▸ h
    exact prog_refl st
  | cons l rest ih =>
    unfold processLessons at h
    simp only at h
    cases hc : processLesson env (courseCtx ++ "/" ++ pathSafe ++ "/" ++ l.dirname ++ "/")
        chid i l st with
    | mk st1 r1 =>
      rw [hc] at h
      have h1 := processLesson_progress env _ chid i l st st1 r1 hc
      cases r1 with
      | error e =>
        simp only at h
        obtain ⟨rfl, rfl⟩ := Prod.mk.injEq .. ▸ h
        exact h1
      | ok u =>
        simp only at h
        exact stepProg_comp st st1 st' r h1 (ih (i + 1) st1 h)

theorem processChapter_progress (env : Env) (courseCtx courseUuid : String)
    (c : CourseDir) (cm : ChapterMeta) (st st' : St) (r : Except Halt Unit)
    (h : processChapter env courseCtx courseUuid c cm st = (st', r)) :
    StepProg st st' r := by
  unfold processChapter at h
  simp only [issueOp] at h
  cases he : env.oracle st.opIdx with
  | some m =>
    rw [he] at h
    simp only at h
    obtain ⟨rfl, rfl⟩ := Prod.mk.injEq .. ▸ h
    exact ⟨⟨.chapterUp, .upsert .chapters, courseCtx ++ "/" ++ cm.pathSafe, some m⟩,
      prog_single_fail _ _ _ (by simp [logPathErr]) (by simp [isDel]) (by simp)
        (by simp [logPathErr, expectedLog, pathSite])⟩
  | none =>
    rw [he] at h
    simp only at h
    exact stepProg_comp st _ st' r
      (prog_single_ok _ _ ⟨.chapterUp, .upsert .chapters,
          courseCtx ++ "/" ++ cm.pathSafe, none⟩
        (by simp) (by simp [isDel]) (by simp) (by simp))
      (processLessons_progress env courseCtx cm.pathSafe (.gen st.ctr) 0
        (chapterLessons c cm.pathSafe) _ st' r h)

theorem processChapters_progress (env : Env) (courseCtx courseUuid : String)
    (c : CourseDir) (cms : List ChapterMeta) (st st' : St) (r : Except Halt Unit)
    (h : processChapters env courseCtx courseUuid c cms st = (st', r)) :
    StepProg st st' r := by
  induction cms generalizing st with
  | nil =>
    unfold processChapters at h
    obtain ⟨rfl, rfl⟩ := Prod.mk.injEq .. ▸ h
    exact prog_refl st
  | cons cm rest ih =>
    unfold processChapters at h
    cases hc : processChapter env courseCtx courseUuid c cm st with
    | mk st1 r1 =>
      rw [hc] at h
      have h1 := processChapter_progress env courseCtx courseUuid c cm st st1 r1 hc
      cases r1 with
      | error e =>
        simp only at h
        obtain ⟨rfl, rfl⟩ := Prod.mk.injEq .. ▸ h
        exact h1
      | ok u =>
        simp only at h
        exact stepProg_comp st st1 st' r h1 (ih st1 h)

theorem navPrevOf_progress (env : Env) (uuid : String) (cs : List ChapterRow)
    (i j : Nat) (st st' : St) (r : Except Halt (Option String))
    (h : navPrevOf env uuid cs i j st = (st', r)) :
    StepProg st st' r := by
  unfold navPrevOf at h
  split at h
  · obtain ⟨rfl, rfl⟩ := Prod.mk.injEq .. ▸ h
    exact prog_refl st
  · split at h
    · cases hg : cs.get? (i - 1) with
      | none =>
        rw [hg] at h
        simp only at h
        obtain ⟨rfl, rfl⟩ := Prod.mk.injEq .. ▸ h
        exact prog_refl st
      | some prevCh =>
        rw [hg] at h
        simp only [issueOp] at h
        cases he : env.oracle st.opIdx with
        | some m =>
          rw [he] at h
          simp only at h
          obtain ⟨rfl, rfl⟩ := Prod.mk.injEq .. ▸ h
          exact ⟨⟨.navPrevSel, .select .lessons, "", some m⟩,
            prog_single_fail _ _ _ (by simp [logErrOnly]) (by simp [isDel]) (by simp)
              (by simp [logErrOnly, expectedLog, pathSite])⟩
        | none =>
          rw [he] at h
          simp only at h
          obtain ⟨rfl, rfl⟩ := Prod.mk.injEq .. ▸ h
          exact prog_single_ok _ _ ⟨.navPrevSel, .select .lessons, "", none⟩
            (by simp) (by simp [isDel]) (by simp) (by simp)
    · obtain ⟨rfl, rfl⟩ := Prod.mk.injEq .. ▸ h
      exact prog_refl st

theorem stepProg_error_cast {α β : Type} (st st' : St) (e : Halt)
    (h : StepProg st st' (.error e : Except Halt α)) :
    StepProg st st' (.error e : Except Halt β) := by
  cases e with
  | ret => exact h
  | crash m => exact h

theorem navLessonLoop_progress (env : Env) (uuid : String) (cs : List ChapterRow)
    (ls : List LessonRow) (i j : Nat) (rest : List LessonRow) (st st' : St)
    (r : Except Halt Unit)
    (h : navLessonLoop env uuid cs ls i j rest st = (st', r)) :
    StepProg st st' r := by
  induction rest generalizing st j with
  | nil =>
    unfold navLessonLoop at h
    obtain ⟨rfl, rfl⟩ := Prod.mk.injEq .. ▸ h
    exact prog_refl st
  | cons lrow tail ih =>
    unfold navLessonLoop at h
    cases hp : navPrevOf env uuid cs i j st with
    | mk st1 r1 =>
      rw [hp] at h
      have h1 := navPrevOf_progress env uuid cs i j st st1 r1 hp
      cases r1 with
      | error e =>
        simp only at h
        obtain ⟨rfl, rfl⟩ := Prod.mk.injEq .. ▸ h
        exact stepProg_error_cast st st1 e h1
      | ok previous =>
        simp only [issueOp] at h
        cases he : env.oracle st1.opIdx with
        | some m =>
          rw [he] at h
          simp only at h
          obtain ⟨rfl, rfl⟩ := Prod.mk.injEq .. ▸ h
          exact stepProg_comp st st1 _ _ h1
            ⟨⟨.navUpd, .update .lessons, "", some m⟩,
              prog_single_fail _ _ _ (by simp [logErrOnly]) (by simp [isDel]) (by simp)
                (by simp [logErrOnly, expectedLog, pathSite])⟩
        | none =>
          rw [he] at h
          simp only at h
          have h2 := ih (j + 1) _ h
          exact stepProg_comp st st1 st' r h1
            (stepProg_comp st1 _ st' r
              (prog_single_ok _ _ ⟨.navUpd, .update .lessons, "", none⟩
                (by simp) (by simp [isDel]) (by simp) (by simp)) h2)

theorem navChapterLoop_progress (env : Env) (uuid : String) (i remaining : Nat)
    (st st' : St) (r : Except Halt Unit)
    (h : navChapterLoop env uuid i remaining st = (st', r)) :
    StepProg st st' r := by
  induction remaining generalizing st i with
  | zero =>
    unfold navChapterLoop at h
    obtain ⟨rfl, rfl⟩ := Prod.mk.injEq .. ▸ h
    exact prog_refl st
  | succ rem ih =>
    unfold navChapterLoop at h
    simp only [issueOp] at h
    cases he : env.oracle st.opIdx with
    | some m =>
      rw [he] at h
      simp only at h
      obtain ⟨rfl, rfl⟩ := Prod.mk.injEq .. ▸ h
      exact ⟨⟨.navChSel, .select .chapters, "", some m⟩,
        prog_single_fail _ _ _ (by simp [logErrOnly]) (by simp [isDel]) (by simp)
          (by simp [logErrOnly, expectedLog, pathSite])⟩
    | none =>
      rw [he] at h
      simp only at h
      cases hg : (selectChapters st.db (EntId.supplied uuid)).get? i with
      | none =>
        rw [hg] at h
        simp only at h
        obtain ⟨rfl, rfl⟩ := Prod.mk.injEq .. ▸ h
        exact prog_single_ok _ _ ⟨.navChSel, .select .chapters, "", none⟩
          (by simp) (by simp [isDel]) (by simp) (by simp)
      | some ci =>
        rw [hg] at h
        simp only at h
        cases he2 : env.oracle (st.opIdx + 1) with
        | some m =>
          rw [he2] at h
          simp only at h
          obtain ⟨rfl, rfl⟩ := Prod.mk.injEq .. ▸ h
          refine ⟨⟨.navLsSel, .select .lessons, "", some m⟩, ?_⟩
          exact prog_ops_fail _ _ [⟨.navChSel, .select .chapters, "", none⟩] _
            (by simp [logErrOnly]) (by simp [isDel]) (by simp) (by simp)
            (by simp [logErrOnly, expectedLog, pathSite])
        | none =>
          rw [he2] at h
          simp only at h
          cases hl : navLessonLoop env uuid _ _ i 0 _ _ with
          | mk st3 r3 =>
            rw [hl] at h
            have h3 := navLessonLoop_progress env uuid _ _ i 0 _ _ st3 r3 hl
            cases r3 with
            | error e =>
              simp only at h
              obtain ⟨rfl, rfl⟩ := Prod.mk.injEq .. ▸ h
              exact stepProg_comp st _ st3 (.error e)
                (prog_double_ok _ _ ⟨.navChSel, .select .chapters, "", none⟩
                  ⟨.navLsSel, .select .lessons, "", none⟩
                  (by simp) (by simp [isDel]) (by simp [isDel]) (by simp) (by simp)
                  (by simp)) h3
            | ok u =>
              simp only at h
              have h4 := ih (i + 1) st3 h
              exact stepProg_comp st _ st' r
                (prog_double_ok _ _ ⟨.navChSel, .select .chapters, "", none⟩
                  ⟨.navLsSel, .select .lessons, "", none⟩
                  (by simp) (by simp [isDel]) (by simp [isDel]) (by simp) (by simp)
                  (by simp))
                (stepProg_comp _ st3 st' r h3 h4)

theorem processCourse_progress (env : Env) (c : CourseDir) (st st' : St)
    (r : Except Halt Unit)
    (h : processCourse env c st = (st', r)) : StepProg st st' r := by
  unfold processCourse at h
  simp only [issueOp] at h
  cases he : env.oracle st.opIdx with
  | some m =>
    rw [he] at h
    simp only at h
    obtain ⟨rfl, rfl⟩ := Prod.mk.injEq .. ▸ h
    exact ⟨⟨.courseUp, .upsert .courses, "/" ++ c.dirname ++ "/", some m⟩,
      prog_single_fail _ _ _ (by simp [logPathErr]) (by simp [isDel]) (by simp)
        (by simp [logPathErr, expectedLog, pathSite])⟩
  | none =>
    rw [he] at h
    simp only at h
    cases hc : processChapters env ("/" ++ c.dirname ++ "/") c.meta.uuid c
        (sortByIdx ChapterMeta.index (chaptersOf c.meta.chapters)) _ with
    | mk st1 r1 =>
      rw [hc] at h
      have h1 := processChapters_progress env _ c.meta.uuid c _ _ st1 r1 hc
      cases r1 with
      | error e =>
        simp only at h
        obtain ⟨rfl, rfl⟩ := Prod.mk.injEq .. ▸ h
        exact stepProg_comp st _ st1 (.error e)
          (prog_single_ok _ _ ⟨.courseUp, .upsert .courses, "/" ++ c.dirname ++ "/", none⟩
            (by simp) (by simp [isDel]) (by simp) (by simp)) h1
      | ok u =>
        simp only at h
        exact stepProg_comp st _ st' r
          (prog_single_ok _ _ ⟨.courseUp, .upsert .courses, "/" ++ c.dirname ++ "/", none⟩
            (by simp) (by simp [isDel]) (by simp) (by simp))
          (stepProg_comp _ st1 st' r h1
            (navChapterLoop_progress env c.meta.uuid 0 _ st1 st' r h))

theorem coursesPhase_progress (env : Env) (cs : List CourseDir) (st st' : St)
    (r : Except Halt Unit)
    (h : coursesPhase env cs st = (st', r)) : StepProg st st' r := by
  induction cs generalizing st with
  | nil =>
    unfold coursesPhase at h
    obtain ⟨rfl, rfl⟩ := Prod.mk.injEq .. ▸ h
    exact prog_refl st
  | cons c rest ih =>
    unfold coursesPhase at h
    cases hc : processCourse env c st with
    | mk st1 r1 =>
      rw [hc] at h
      have h1 := processCourse_progress env c st st1 r1 hc
      cases r1 with
      | error e =>
        simp only at h
        obtain ⟨rfl, rfl⟩ := Prod.mk.injEq .. ▸ h
        exact h1
      | ok u =>
        simp only at h
        exact stepProg_comp st st1 st' r h1 (ih st1 h)

theorem purgeDelete_eq (env : Env) (t : DbTable) (st : St) :
    purgeDelete env t st =
      ⟨(match env.oracle st.opIdx with
        | none => applyPurge t st.db
        | some _ => st.db),
       st.storage,
       st.trace ++ [⟨.purgeDel, .deleteNeq t badUUID, "", env.oracle st.opIdx⟩],
       st.elog, st.ctr, st.opIdx + 1⟩ := by
  unfold purgeDelete issueOp
  cases env.oracle st.opIdx <;> rfl

/-- The trace, log, counters of the purge phase, for an arbitrary oracle:
five delete operations, nothing logged, whatever errors the store
reported. -/
theorem purgePhase_shape (env : Env) (db0 : DB) (n0 : Nat) :
    (purgePhase env (initSt db0 n0)).trace =
      [⟨.purgeDel, .deleteNeq .task_conditions badUUID, "", env.oracle 0⟩,
       ⟨.purgeDel, .deleteNeq .tasks badUUID, "", env.oracle 1⟩,
       ⟨.purgeDel, .deleteNeq .lessons badUUID, "", env.oracle 2⟩,
       ⟨.purgeDel, .deleteNeq .chapters badUUID, "", env.oracle 3⟩,
       ⟨.purgeDel, .deleteNeq .courses badUUID, "", env.oracle 4⟩] ∧
    (purgePhase env (initSt db0 n0)).elog = [] := by
  simp only [purgePhase, purgeDelete_eq, initSt]
  norm_num

/-- C3 (amended): after the unchecked Step-0 purge, every store operation's
error is checked: a run that does not end in an early `return` has an empty
error log and only (unchecked) purge deletes may carry errors; a run that
ends in an early `return` does so at a failed checked operation which is
the very last operation issued (no retry, no continuation), every earlier
error sits on a purge delete, and the log is exactly that operation's
site log — path context plus error for most sites, the bare error object
for the condition-insert and navigation sites. -/
theorem error_policy_checked_ops (env : Env) (fs : List CourseDir)
    (db0 : DB) (n0 : Nat) :
    ((mainRun env fs db0 n0).2 ≠ .error .ret →
      (mainRun env fs db0 n0).1.elog = [] ∧
      ∀ o ∈ (mainRun env fs db0 n0).1.trace, o.err ≠ none → isDel o = true) ∧
    ((mainRun env fs db0 n0).2 = .error .ret →
      ∃ f, f.err ≠ none ∧ isDel f = false ∧
        (mainRun env fs db0 n0).1.trace.getLast? = some f ∧
        (∀ o ∈ (mainRun env fs db0 n0).1.trace.dropLast, o.err ≠ none → isDel o = true) ∧
        (mainRun env fs db0 n0).1.elog = expectedLog f) := by
  have hps := purgePhase_shape env db0 n0
  have hdel : ∀ o ∈ (purgePhase env (initSt db0 n0)).trace, isDel o = true := by
    rw [hps.1]
    intro o ho
    simp only [List.mem_cons, List.not_mem_nil, or_false] at ho
    rcases ho with rfl | rfl | rfl | rfl | rfl <;> simp [isDel]
  cases hc : coursesPhase env (fs.filter (fun c => globKeep c.dirname))
      (purgePhase env (initSt db0 n0)) with
  | mk st' r =>
    have hrun : mainRun env fs db0 n0 = (st', r) := hc
    have hprog := coursesPhase_progress env _ _ st' r hc
    rw [hrun]
    cases r with
    | ok u =>
      obtain ⟨new, ht, hd, hl, he⟩ := hprog
      refine ⟨fun _ => ⟨by rw [hl, hps.2], ?_⟩, fun hcon => by simp at hcon⟩
      intro o ho herr
      rw [ht] at ho
      rcases List.mem_append.mp ho with hmem | hmem
      · exact hdel o hmem
      · exact absurd (he o hmem) herr
    | error e =>
      cases e with
      | crash m =>
        obtain ⟨new, ht, hd, hl, he⟩ := hprog
        refine ⟨fun _ => ⟨by rw [hl, hps.2], ?_⟩, fun hcon => by simp at hcon⟩
        intro o ho herr
        rw [ht] at ho
        rcases List.mem_append.mp ho with hmem | hmem
        · exact hdel o hmem
        · exact absurd (he o hmem) herr
      | ret =>
        obtain ⟨f, new, ht, hd, hfe, hlast, hpre, hl⟩ := hprog
        have hn : new ≠ [] := by
          intro hn
          rw [hn] at hlast
          simp at hlast
        refine ⟨fun hcon => absurd rfl hcon, fun _ => ⟨f, hfe, ?_, ?_, ?_, ?_⟩⟩
        · by_contra hdf
          have := hd f (List.mem_of_mem_getLast? hlast)
          simp [hdf] at this
        · rw [ht, List.getLast?_append_of_ne_nil _ hn]
          exact hlast
        · intro o ho herr
          rw [ht, List.dropLast_append_of_ne_nil _ hn] at ho
          rcases List.mem_append.mp ho with hmem | hmem
          · exact hdel o hmem
          · exact absurd (hpre o hmem) herr
        · rw [hl, hps.2, List.nil_append]

/-- Oracle that fails only the very first operation of the run (the
`task_conditions` purge delete). -/
def oracleFail0 : Env := ⟨fun n => if n == 0 then some "boom" else none⟩

/-- Oracle that fails only operation 11 — the condition-row insert of the
single-condition fixture course. -/
def oracleFail11 : Env := ⟨fun n => if n == 11 then some "boom" else none⟩

/-- A pre-existing condition row that Step 0 ought to purge. -/
def dbPre : DB := ⟨[], [], [], [], [⟨.gen 99, .gen 98, "t", "i", "s", .lit "v"⟩]⟩

/-- A lesson with one condition whose `value` names a directory, so the
run reaches the condition insert without crashing or uploading. -/
def lesDirCond : LessonDir :=
  ⟨"l1", ⟨"L", "e", [⟨"i", true, [⟨"t", "i2", "i3", "x"⟩]⟩]⟩, "b", none, [("x", .dir)]⟩

def crsDirCond : CourseDir := ⟨"c1", ⟨"u", "C", "d", [], [], ["A"]⟩, [("a", [lesDirCond])]⟩

/-- C3 counterexample: (run A) the first purge delete returns an error,
yet nothing is logged, the run continues to normal completion, and the row
the delete should have removed survives — contradicting "any such error is
logged ... and the entire run terminates immediately"; (run B) a failed
condition insert terminates the run but is logged without any filesystem
path or entity context — contradicting "logged together with the offending
filesystem path or entity context". -/
theorem error_policy_refuted :
    (mainRun oracleFail0 [crsNoDir] dbPre 0).2 = .ok () ∧
    (mainRun oracleFail0 [crsNoDir] dbPre 0).1.elog = [] ∧
    ((mainRun oracleFail0 [crsNoDir] dbPre 0).1.trace.head?.map Op.err)
      = some (some "boom") ∧
    (mainRun oracleFail0 [crsNoDir] dbPre 0).1.db.task_conditions ≠ [] ∧
    (mainRun oracleFail11 [crsDirCond] emptyDB 0).2 = .error .ret ∧
    (mainRun oracleFail11 [crsDirCond] emptyDB 0).1.elog = [.err "boom"] := by
  refine ⟨rfl, rfl, by decide, by decide, rfl, by decide⟩

theorem error_policy_checked_ops_witness :
    ∃ f, f.err ≠ none ∧ isDel f = false ∧
      (mainRun oracleFail11 [crsDirCond] emptyDB 0).1.trace.getLast? = some f ∧
      (∀ o ∈ (mainRun oracleFail11 [crsDirCond] emptyDB 0).1.trace.dropLast,
        o.err ≠ none → isDel o = true) ∧
      (mainRun oracleFail11 [crsDirCond] emptyDB 0).1.elog = expectedLog f :=
  (error_policy_checked_ops oracleFail11 [crsDirCond] emptyDB 0).2 rfl

/-! ### C6 — the purge is first, unconditional, ordered, delete-only -/

/-- C6: every run's trace starts with exactly the five purge deletes, in
dependency order `task_conditions`, `tasks`, `lessons`, `chapters`,
`courses`, each filtered by `id ≠ badUUID`; no later operation of the run
is a delete (the purge happens exactly once, before any course); and when
the deletes succeed on a store free of the sentinel id, all five tables
are empty afterwards. -/
theorem purge_first_unconditional_ordered (env : Env) (fs : List CourseDir)
    (db0 : DB) (n0 : Nat) :
    ((mainRun env fs db0 n0).1.trace.take 5).map (fun o => (o.site, o.kind)) =
      [(.purgeDel, .deleteNeq .task_conditions badUUID),
       (.purgeDel, .deleteNeq .tasks badUUID),
       (.purgeDel, .deleteNeq .lessons badUUID),
       (.purgeDel, .deleteNeq .chapters badUUID),
       (.purgeDel, .deleteNeq .courses badUUID)] ∧
    (∀ o ∈ (mainRun env fs db0 n0).1.trace.drop 5, isDel o = false) ∧
    (SFreeDB db0 → (purgePhase noErrEnv (initSt db0 n0)).db = emptyDB) := by
  have hps := purgePhase_shape env db0 n0
  cases hc : coursesPhase env (fs.filter (fun c => globKeep c.dirname))
      (purgePhase env (initSt db0 n0)) with
  | mk st' r =>
    have hrun : mainRun env fs db0 n0 = (st', r) := hc
    have hprog := coursesPhase_progress env _ _ st' r hc
    rw [hrun]
    have hnew : ∃ new, st'.trace = (purgePhase env (initSt db0 n0)).trace ++ new ∧
        ∀ o ∈ new, isDel o = false := by
      cases r with
      | ok u =>
        obtain ⟨new, ht, hd, _⟩ := hprog
        exact ⟨new, ht, hd⟩
      | error e =>
        cases e with
        | crash m =>
          obtain ⟨new, ht, hd, _⟩ := hprog
          exact ⟨new, ht, hd⟩
        | ret =>
          obtain ⟨f, new, ht, hd, _⟩ := hprog
          exact ⟨new, ht, hd⟩
    obtain ⟨new, ht, hd⟩ := hnew
    rw [ht, hps.1]
    refine ⟨by simp, ?_, ?_⟩
    · intro o ho
      simp only [List.cons_append, List.nil_append, List.drop_succ_cons,
        List.drop_zero] at ho
      exact hd o ho
    · intro hsf
      rw [purgePhase_noerr]
      show (⟨db0.courses.filter (fun r => r.id == sentinelId),
            db0.chapters.filter (fun r => r.id == sentinelId),
            db0.lessons.filter (fun r => r.id == sentinelId),
            db0.tasks.filter (fun r => r.id == sentinelId),
            db0.task_conditions.filter (fun r => r.id == sentinelId)⟩ : DB) = emptyDB
      obtain ⟨h1, h2, h3, h4, h5⟩ := hsf
      have e1 := (filter_beq_nil_iff CourseRow.id db0.courses).mpr h1
      have e2 := (filter_beq_nil_iff ChapterRow.id db0.chapters).mpr h2
      have e3 := (filter_beq_nil_iff LessonRow.id db0.lessons).mpr h3
      have e4 := (filter_beq_nil_iff TaskRow.id db0.tasks).mpr h4
      have e5 := (filter_beq_nil_iff ConditionRow.id db0.task_conditions).mpr h5
      simp [emptyDB, e1, e2, e3, e4, e5]

theorem purge_first_unconditional_ordered_witness :
    SFreeDB dbPre ∧ (purgePhase noErrEnv (initSt dbPre 3)).db = emptyDB := by
  have h := (purge_first_unconditional_ordered noErrEnv [] dbPre 3).2.2
  exact ⟨by decide, h (by decide)⟩

/-! ### Frame lemmas: which tables each phase leaves untouched -/

/-- No operation of the task/condition subtree uploads to the
`starter-workspaces` bucket. -/
def NoWsUpload (o : Op) : Prop :=
  ∀ nm c ct, o.kind ≠ .upload "starter-workspaces" nm c ct

theorem processCondition_frame (env : Env) (lessonCtx : String) (lid tid : EntId)
    (l : LessonDir) (cond : CondMeta) (st : St) :
    (processCondition env lessonCtx lid tid l cond st).1.db.courses = st.db.courses ∧
    (processCondition env lessonCtx lid tid l cond st).1.db.chapters = st.db.chapters ∧
    (processCondition env lessonCtx lid tid l cond st).1.db.lessons = st.db.lessons ∧
    ∃ new, (processCondition env lessonCtx lid tid l cond st).1.trace = st.trace ++ new ∧
      ∀ o ∈ new, NoWsUpload o := by
  unfold processCondition
  cases statNode l cond.value with
  | none => exact ⟨rfl, rfl, rfl, [], by simp, by simp⟩
  | some node =>
    cases node with
    | dir =>
      simp only [issueOp]
      cases env.oracle st.opIdx with
      | some m =>
        refine ⟨by simp [logErrOnly], by simp [logErrOnly], by simp [logErrOnly],
          [⟨.condUp, .upsert .task_conditions, lessonCtx, some m⟩], by simp [logErrOnly], ?_⟩
        intro o ho nm c ct
        simp only [List.mem_singleton] at ho
        subst ho
        simp
      | none =>
        refine ⟨by simp, by simp, by simp,
          [⟨.condUp, .upsert .task_conditions, lessonCtx, none⟩], by simp, ?_⟩
        intro o ho nm c ct
        simp only [List.mem_singleton] at ho
        subst ho
        simp
    | file content =>
      simp only [issueOp]
      cases he : env.oracle st.opIdx with
      | some m =>
        simp only [he]
        refine ⟨by simp [logPathErr], by simp [logPathErr], by simp [logPathErr],
          [⟨.fileUpl, .upload "misc-course-content"
            (.fileName lid (sanitize cond.value)) content (mimeLookup cond.value),
            lessonCtx ++ cond.value, some m⟩], by simp [logPathErr], ?_⟩
        intro o ho nm c ct
        simp only [List.mem_singleton] at ho
        subst ho
        simp
      | none =>
        simp only [he]
        cases he2 : env.oracle (st.opIdx + 1) with
        | some m =>
          simp only [he2]
          refine ⟨by simp [logErrOnly], by simp [logErrOnly], by simp [logErrOnly],
            [⟨.fileUpl, .upload "misc-course-content"
              (.fileName lid (sanitize cond.value)) content (mimeLookup cond.value),
              lessonCtx ++ cond.value, none⟩,
             ⟨.condUp, .upsert .task_conditions, lessonCtx, some m⟩],
            by simp [logErrOnly], ?_⟩
          intro o ho nm c ct
          simp only [List.mem_cons, List.not_mem_nil, or_false] at ho
          rcases ho with rfl | rfl <;> simp
        | none =>
          simp only [he2]
          refine ⟨by simp, by simp, by simp,
            [⟨.fileUpl, .upload "misc-course-content"
              (.fileName lid (sanitize cond.value)) content (mimeLookup cond.value),
              lessonCtx ++ cond.value, none⟩,
             ⟨.condUp, .upsert .task_conditions, lessonCtx, none⟩],
            by simp, ?_⟩
          intro o ho nm c ct
          simp only [List.mem_cons, List.not_mem_nil, or_false] at ho
          rcases ho with rfl | rfl <;> simp

theorem processConditions_frame (env : Env) (lessonCtx : String) (lid tid : EntId)
    (l : LessonDir) (cs : List CondMeta) (st : St) :
    (processConditions env lessonCtx lid tid l cs st).1.db.courses = st.db.courses ∧
    (processConditions env lessonCtx lid tid l cs st).1.db.chapters = st.db.chapters ∧
    (processConditions env lessonCtx lid tid l cs st).1.db.lessons = st.db.lessons ∧
    ∃ new, (processConditions env lessonCtx lid tid l cs st).1.trace = st.trace ++ new ∧
      ∀ o ∈ new, NoWsUpload o := by
  induction cs generalizing st with
  | nil => exact ⟨rfl, rfl, rfl, [], by simp [processConditions], by simp⟩
  | cons c rest ih =>
    unfold processConditions
    cases hc : processCondition env lessonCtx lid tid l c st with
    | mk st1 r1 =>
      have hf := processCondition_frame env lessonCtx lid tid l c st
      rw [hc] at hf
      obtain ⟨hc1, hc2, hc3, new1, htr, hws⟩ := hf
      cases r1 with
      | error e => exact ⟨hc1, hc2, hc3, new1, htr, hws⟩
      | ok u =>
        obtain ⟨hd1, hd2, hd3, new2, htr2, hws2⟩ := ih st1
        refine ⟨hd1.trans hc1, hd2.trans hc2, hd3.trans hc3, new1 ++ new2,
          by rw [htr2, htr, List.append_assoc], ?_⟩
        intro o ho
        rcases List.mem_append.mp ho with hm | hm
        · exact hws o hm
        · exact hws2 o hm

theorem processTask_frame (env : Env) (lessonCtx : String) (lid : EntId)
    (l : LessonDir) (j : Nat) (task : TaskMeta) (st : St) :
    (processTask env lessonCtx lid l j task st).1.db.courses = st.db.courses ∧
    (processTask env lessonCtx lid l j task st).1.db.chapters = st.db.chapters ∧
    (processTask env lessonCtx lid l j task st).1.db.lessons = st.db.lessons ∧
    ∃ new, (processTask env lessonCtx lid l j task st).1.trace = st.trace ++ new ∧
      ∀ o ∈ new, NoWsUpload o := by
  unfold processTask
  simp only [issueOp]
  cases he : env.oracle st.opIdx with
  | some m =>
    simp only [he]
    refine ⟨by simp [logPathErr], by simp [logPathErr], by simp [logPathErr],
      [⟨.taskUp, .upsert .tasks, lessonCtx, some m⟩], by simp [logPathErr], ?_⟩
    intro o ho nm c ct
    simp only [List.mem_singleton] at ho
    subst ho
    simp
  | none =>
    simp only [he]
    have hf := processConditions_frame env lessonCtx lid (.gen st.ctr) l task.conditions
      ⟨⟨st.db.courses, st.db.chapters, st.db.lessons,
        st.db.tasks ++ [⟨.gen st.ctr, lid, task.instructions, j, task.completed_by_default⟩],
        st.db.task_conditions⟩,
       st.storage, st.trace ++ [⟨.taskUp, .upsert .tasks, lessonCtx, none⟩],
       st.elog, st.ctr + 1, st.opIdx + 1⟩
    obtain ⟨h1, h2, h3, new, htr, hws⟩ := hf
    refine ⟨h1, h2, h3,
      ⟨.taskUp, .upsert .tasks, lessonCtx, none⟩ :: new,
      by rw [htr]; simp, ?_⟩
    intro o ho
    rcases List.mem_cons.mp ho with rfl | hm
    · intro nm c ct
      simp
    · exact hws o hm

theorem processTasks_frame (env : Env) (lessonCtx : String) (lid : EntId)
    (l : LessonDir) (j : Nat) (ts : List TaskMeta) (st : St) :
    (processTasks env lessonCtx lid l j ts st).1.db.courses = st.db.courses ∧
    (processTasks env lessonCtx lid l j ts st).1.db.chapters = st.db.chapters ∧
    (processTasks env lessonCtx lid l j ts st).1.db.lessons = st.db.lessons ∧
    ∃ new, (processTasks env lessonCtx lid l j ts st).1.trace = st.trace ++ new ∧
      ∀ o ∈ new, NoWsUpload o := by
  induction ts generalizing st j with
  | nil => exact ⟨rfl, rfl, rfl, [], by simp [processTasks], by simp⟩
  | cons t rest ih =>
    unfold processTasks
    cases hc : processTask env lessonCtx lid l j t st with
    | mk st1 r1 =>
      have hf := processTask_frame env lessonCtx lid l j t st
      rw [hc] at hf
      obtain ⟨hc1, hc2, hc3, new1, htr, hws⟩ := hf
      cases r1 with
      | error e => exact ⟨hc1, hc2, hc3, new1, htr, hws⟩
      | ok u =>
        obtain ⟨hd1, hd2, hd3, new2, htr2, hws2⟩ := ih (j + 1) st1
        refine ⟨hd1.trans hc1, hd2.trans hc2, hd3.trans hc3, new1 ++ new2,
          by rw [htr2, htr, List.append_assoc], ?_⟩
        intro o ho
        rcases List.mem_append.mp ho with hm | hm
        · exact hws o hm
        · exact hws2 o hm

theorem processLesson_frame (env : Env) (lessonCtx : String) (chid : EntId)
    (i : Nat) (l : LessonDir) (st : St) :
    (processLesson env lessonCtx chid i l st).1.db.courses = st.db.courses ∧
    (processLesson env lessonCtx chid i l st).1.db.chapters = st.db.chapters := by
  unfold processLesson
  simp only [issueOp]
  cases he1 : env.oracle st.opIdx with
  | some m =>
    simp only [he1]
    exact ⟨by simp [logPathErr], by simp [logPathErr]⟩
  | none =>
    simp only [he1]
    cases he2 : env.oracle (st.opIdx + 1) with
    | some m =>
      simp only [he2]
      exact ⟨by simp [logPathErr], by simp [logPathErr]⟩
    | none =>
      simp only [he2]
      cases hw : l.workspace with
      | none =>
        simp only [hw]
        cases he3 : env.oracle (st.opIdx + 1 + 1) with
        | some m =>
          simp only [he3]
          exact ⟨by simp [logPathErr], by simp [logPathErr]⟩
        | none =>
          simp only [he3]
          constructor
          · exact ((processTasks_frame env lessonCtx (EntId.gen st.ctr) l 0
              l.guideFM.tasks _).1).trans (by simp [updateLessonGuide])
          · exact ((processTasks_frame env lessonCtx (EntId.gen st.ctr) l 0
              l.guideFM.tasks _).2.1).trans (by simp [updateLessonGuide])
      | some files =>
        simp only [hw]
        cases he3 : env.oracle (st.opIdx + 1 + 1) with
        | some m =>
          simp only [he3]
          exact ⟨by simp [logPathErr], by simp [logPathErr]⟩
        | none =>
          simp only [he3]
          cases he4 : env.oracle (st.opIdx + 1 + 1 + 1) with
          | some m =>
            simp only [he4]
            exact ⟨by simp [logPathErr], by simp [logPathErr]⟩
          | none =>
            simp only [he4]
            cases he5 : env.oracle (st.opIdx + 1 + 1 + 1 + 1) with
            | some m =>
              simp only [he5]
              exact ⟨by simp [logPathErr, updateLessonWs],
                     by simp [logPathErr, updateLessonWs]⟩
            | none =>
              simp only [he5]
              constructor
              · exact ((processTasks_frame env lessonCtx (EntId.gen st.ctr) l 0
                  l.guideFM.tasks _).1).trans
                  (by simp [updateLessonGuide, updateLessonWs])
              · exact ((processTasks_frame env lessonCtx (EntId.gen st.ctr) l 0
                  l.guideFM.tasks _).2.1).trans
                  (by simp [updateLessonGuide, updateLessonWs])

theorem processLessons_frame (env : Env) (courseCtx pathSafe : String)
    (chid : EntId) (i : Nat) (ls : List LessonDir) (st : St) :
    (processLessons env courseCtx pathSafe chid i ls st).1.db.courses = st.db.courses ∧
    (processLessons env courseCtx pathSafe chid i ls st).1.db.chapters = st.db.chapters := by
  induction ls generalizing st i with
  | nil => exact ⟨by simp [processLessons], by simp [processLessons]⟩
  | cons l rest ih =>
    unfold processLessons
    simp only
    cases hc : processLesson env (courseCtx ++ "/" ++ pathSafe ++ "/" ++ l.dirname ++ "/")
        chid i l st with
    | mk st1 r1 =>
      have hf := processLesson_frame env
        (courseCtx ++ "/" ++ pathSafe ++ "/" ++ l.dirname ++ "/") chid i l st
      rw [hc] at hf
      cases r1 with
      | error e => exact hf
      | ok u =>
        obtain ⟨hd1, hd2⟩ := ih (i + 1) st1
        exact ⟨hd1.trans hf.1, hd2.trans hf.2⟩

theorem navPrevOf_frame (env : Env) (uuid : String) (cs : List ChapterRow)
    (i j : Nat) (st : St) :
    (navPrevOf env uuid cs i j st).1.db = st.db := by
  unfold navPrevOf
  split
  · rfl
  · split
    · cases cs.get? (i - 1) with
      | none => rfl
      | some prevCh =>
        simp only [issueOp]
        cases he : env.oracle st.opIdx with
        | some m => simp [he, logErrOnly]
        | none => simp [he]
    · rfl

theorem navLessonLoop_frame (env : Env) (uuid : String) (cs : List ChapterRow)
    (ls : List LessonRow) (i j : Nat) (rest : List LessonRow) (st : St) :
    (navLessonLoop env uuid cs ls i j rest st).1.db.courses = st.db.courses ∧
    (navLessonLoop env uuid cs ls i j rest st).1.db.chapters = st.db.chapters := by
  induction rest generalizing st j with
  | nil => exact ⟨by simp [navLessonLoop], by simp [navLessonLoop]⟩
  | cons lrow tail ih =>
    unfold navLessonLoop
    cases hp : navPrevOf env uuid cs i j st with
    | mk st1 r1 =>
      have hdb := navPrevOf_frame env uuid cs i j st
      rw [hp] at hdb
      have hdb' : st1.db = st.db := hdb
      cases r1 with
      | error e =>
        simp only
        exact ⟨by rw [hdb'], by rw [hdb']⟩
      | ok previous =>
        simp only [issueOp]
        cases he : env.oracle st1.opIdx with
        | some m =>
          simp only [he]
          exact ⟨by simp [logErrOnly, hdb'], by simp [logErrOnly, hdb']⟩
        | none =>
          simp only [he]
          obtain ⟨hd1, hd2⟩ := ih (j + 1) _
          exact ⟨hd1.trans (by simp [updateLessonNav, hdb']),
                 hd2.trans (by simp [updateLessonNav, hdb'])⟩

theorem navChapterLoop_frame (env : Env) (uuid : String) (i remaining : Nat)
    (st : St) :
    (navChapterLoop env uuid i remaining st).1.db.courses = st.db.courses ∧
    (navChapterLoop env uuid i remaining st).1.db.chapters = st.db.chapters := by
  induction remaining generalizing st i with
  | zero => exact ⟨by simp [navChapterLoop], by simp [navChapterLoop]⟩
  | succ rem ih =>
    unfold navChapterLoop
    simp only [issueOp]
    cases he : env.oracle st.opIdx with
    | some m =>
      simp only [he]
      exact ⟨by simp [logErrOnly], by simp [logErrOnly]⟩
    | none =>
      simp only [he]
      cases hg : (selectChapters st.db (EntId.supplied uuid)).get? i with
      | none =>
        simp only [hg]
        exact ⟨by simp, by simp⟩
      | some ci =>
        simp only [hg]
        cases he2 : env.oracle (st.opIdx + 1) with
        | some m =>
          simp only [he2]
          exact ⟨by simp [logErrOnly], by simp [logErrOnly]⟩
        | none =>
          simp only [he2]
          cases hl : navLessonLoop env uuid _ _ i 0 _ _ with
          | mk st3 r3 =>
            have hf := navLessonLoop_frame env uuid
              (selectChapters st.db (EntId.supplied uuid))
              (selectLessons st.db ci.id) i 0 (selectLessons st.db ci.id)
              ⟨st.db, st.storage,
               st.trace ++ [⟨.navChSel, .select .chapters, "", none⟩] ++
                 [⟨.navLsSel, .select .lessons, "", none⟩],
               st.elog, st.ctr, st.opIdx + 1 + 1⟩
            rw [hl] at hf
            cases r3 with
            | error e =>
              simp only
              exact ⟨hf.1.trans (by simp), hf.2.trans (by simp)⟩
            | ok u =>
              simp only
              obtain ⟨hd1, hd2⟩ := ih (i + 1) st3
              exact ⟨hd1.trans (hf.1.trans (by simp)),
                     hd2.trans (hf.2.trans (by simp))⟩

theorem chaptersOfAux_names (i : Nat) (ns : List String) :
    (chaptersOfAux i ns).map ChapterMeta.name = ns := by
  induction ns generalizing i with
  | nil => rfl
  | cons n rest ih => simp [chaptersOfAux, ih]

/-- The declared chapter list the code builds carries strictly increasing
indices, so the `.sort((a, b) => a.index - b.index)` is the identity. -/
theorem sortByIdx_chaptersOfAux (i : Nat) (ns : List String) :
    sortByIdx ChapterMeta.index (chaptersOfAux i ns) = chaptersOfAux i ns := by
  induction ns generalizing i with
  | nil => rfl
  | cons n rest ih =>
    show sortByIdx ChapterMeta.index (⟨n, slug n, i⟩ :: chaptersOfAux (i + 1) rest)
      = ⟨n, slug n, i⟩ :: chaptersOfAux (i + 1) rest
    unfold sortByIdx
    rw [ih (i + 1)]
    cases rest with
    | nil => rfl
    | cons m ms =>
      show insertByIdx ChapterMeta.index ⟨n, slug n, i⟩
        (⟨m, slug m, i + 1⟩ :: chaptersOfAux (i + 1 + 1) ms) = _
      unfold insertByIdx
      simp [chaptersOfAux]

def projCh (r : ChapterRow) : EntId × String × Nat := (r.course, r.name, r.index)

theorem processChapter_ok_chapters (env : Env) (courseCtx courseUuid : String)
    (c : CourseDir) (cm : ChapterMeta) (st st' : St)
    (h : processChapter env courseCtx courseUuid c cm st = (st', .ok ())) :
    st'.db.chapters = st.db.chapters ++
      [⟨.gen st.ctr, .supplied courseUuid, cm.name, cm.index⟩] := by
  unfold processChapter at h
  simp only [issueOp] at h
  cases he : env.oracle st.opIdx with
  | some m =>
    rw [he] at h
    simp only at h
    exact absurd (congrArg Prod.snd h) (by simp)
  | none =>
    rw [he] at h
    simp only at h
    have hf := (processLessons_frame env courseCtx cm.pathSafe (EntId.gen st.ctr) 0
      (chapterLessons c cm.pathSafe)
      ⟨{ st.db with chapters := st.db.chapters ++
          [⟨.gen st.ctr, .supplied courseUuid, cm.name, cm.index⟩] },
        st.storage,
        st.trace ++ [⟨.chapterUp, .upsert .chapters, courseCtx ++ "/" ++ cm.pathSafe, none⟩],
        st.elog, st.ctr + 1, st.opIdx + 1⟩).2
    rw [h] at hf
    exact hf

theorem processChapters_ok_chapters (env : Env) (courseCtx courseUuid : String)
    (c : CourseDir) (cms : List ChapterMeta) (st st' : St)
    (h : processChapters env courseCtx courseUuid c cms st = (st', .ok ())) :
    st'.db.chapters.map projCh = st.db.chapters.map projCh ++
      cms.map (fun cm => (EntId.supplied courseUuid, cm.name, cm.index)) := by
  induction cms generalizing st with
  | nil =>
    unfold processChapters at h
    obtain ⟨rfl, -⟩ := Prod.mk.injEq .. ▸ h
    simp
  | cons cm rest ih =>
    unfold processChapters at h
    cases hc : processChapter env courseCtx courseUuid c cm st with
    | mk st1 r1 =>
      rw [hc] at h
      cases r1 with
      | error e =>
        simp only at h
        exact absurd (congrArg Prod.snd h) (by simp)
      | ok u =>
        simp only at h
        have h1 := processChapter_ok_chapters env courseCtx courseUuid c cm st st1 hc
        rw [ih st1 h, h1]
        simp [projCh]

theorem processCourse_ok_chapters (env : Env) (c : CourseDir) (st st' : St)
    (h : processCourse env c st = (st', .ok ())) :
    st'.db.chapters.map projCh = st.db.chapters.map projCh ++
      (chaptersOf c.meta.chapters).map
        (fun cm => (EntId.supplied c.meta.uuid, cm.name, cm.index)) := by
  unfold processCourse at h
  simp only [issueOp] at h
  cases he : env.oracle st.opIdx with
  | some m =>
    rw [he] at h
    simp only at h
    exact absurd (congrArg Prod.snd h) (by simp)
  | none =>
    rw [he] at h
    simp only at h
    rw [show sortByIdx ChapterMeta.index (chaptersOf c.meta.chapters)
        = chaptersOf c.meta.chapters from sortByIdx_chaptersOfAux 0 c.meta.chapters] at h
    cases hc : processChapters env ("/" ++ c.dirname ++ "/") c.meta.uuid c
        (chaptersOf c.meta.chapters)
        ⟨upsertCourseRow st.db ⟨.supplied c.meta.uuid, c.meta.name, c.meta.description,
            c.meta.tags, c.meta.authors⟩,
         st.storage,
         st.trace ++ [⟨.courseUp, .upsert .courses, "/" ++ c.dirname ++ "/", none⟩],
         st.elog, st.ctr, st.opIdx + 1⟩ with
    | mk st1 r1 =>
      rw [hc] at h
      cases r1 with
      | error e =>
        simp only at h
        exact absurd (congrArg Prod.snd h) (by simp)
      | ok u =>
        simp only at h
        have h1 := processChapters_ok_chapters env _ c.meta.uuid c _ _ st1 hc
        have h2 := (navChapterLoop_frame env c.meta.uuid 0
          (chaptersOf c.meta.chapters).length st1).2
        rw [h] at h2
        rw [h2, h1]
        congr 1
        simp [upsertCourseRow]
        split <;> simp [projCh]

/-- C4 (amended): the chapters processed for a course are exactly the
declared chapter-name list, in declared order, with indices 0..n-1 and the
course's id — regardless of what directories exist on disk (unreferenced
subdirectories are never walked); and a declared chapter whose slugged
directory is absent does NOT fail the run: the glob finds no lessons, the
Chapter row is still inserted, and processing continues normally (there is
no MissingChapterDirectory error in the code). -/
theorem chapters_follow_declared_list :
    (∀ (env : Env) (c : CourseDir) (st st' : St),
      processCourse env c st = (st', .ok ()) →
        (chaptersOf c.meta.chapters).map ChapterMeta.name = c.meta.chapters ∧
        st'.db.chapters.map projCh = st.db.chapters.map projCh ++
          (chaptersOf c.meta.chapters).map
            (fun cm => (EntId.supplied c.meta.uuid, cm.name, cm.index))) ∧
    (∀ (courseCtx uuid : String) (c : CourseDir) (cm : ChapterMeta) (st : St),
      c.subdirs.find? (fun e => e.fst == cm.pathSafe) = none →
        chapterLessons c cm.pathSafe = [] ∧
        processChapter noErrEnv courseCtx uuid c cm st =
          (⟨{ st.db with chapters := st.db.chapters ++
              [⟨.gen st.ctr, .supplied uuid, cm.name, cm.index⟩] },
            st.storage,
            st.trace ++ [⟨.chapterUp, .upsert .chapters,
              courseCtx ++ "/" ++ cm.pathSafe, none⟩],
            st.elog, st.ctr + 1, st.opIdx + 1⟩, .ok ())) := by
  constructor
  · intro env c st st' h
    exact ⟨chaptersOfAux_names 0 c.meta.chapters,
           processCourse_ok_chapters env c st st' h⟩
  · intro courseCtx uuid c cm st hmiss
    have hcl : chapterLessons c cm.pathSafe = [] := by
      unfold chapterLessons
      rw [hmiss]
    refine ⟨hcl, ?_⟩
    unfold processChapter
    simp only [issueOp, noErrEnv]
    rw [hcl]
    rfl

theorem chapters_follow_declared_list_witness :
    (mainRun noErrEnv [crsNoDir] emptyDB 0).1.db.chapters.map projCh
      = [(EntId.supplied "u", "A", 0)] ∧
    chapterLessons crsNoDir "a" = [] := by
  have h := chapters_follow_declared_list
  refine ⟨?_, (h.2 "/c1/" "u" crsNoDir ⟨"A", "a", 0⟩ (initSt emptyDB 0) (by decide)).1⟩
  have h1 := h.1 noErrEnv crsNoDir (purgePhase noErrEnv (initSt emptyDB 0))
    (mainRun noErrEnv [crsNoDir] emptyDB 0).1 (by rfl)
  exact h1.2.trans (by decide)

/-! ### C2 — a missing workspace directory is not an error -/

theorem processCondition_noerr_ok (lessonCtx : String) (lid tid : EntId)
    (l : LessonDir) (cond : CondMeta) (st : St)
    (hs : (statNode l cond.value).isSome) :
    (processCondition noErrEnv lessonCtx lid tid l cond st).2 = .ok () := by
  unfold processCondition
  cases hstat : statNode l cond.value with
  | none => rw [hstat] at hs; simp at hs
  | some node =>
    cases node with
    | dir => simp [issueOp, noErrEnv]
    | file content => simp [issueOp, noErrEnv]

theorem processConditions_noerr_ok (lessonCtx : String) (lid tid : EntId)
    (l : LessonDir) (cs : List CondMeta) (st : St)
    (hs : ∀ c ∈ cs, (statNode l c.value).isSome) :
    (processConditions noErrEnv lessonCtx lid tid l cs st).2 = .ok () := by
  induction cs generalizing st with
  | nil => rfl
  | cons c rest ih =>
    unfold processConditions
    cases hc : processCondition noErrEnv lessonCtx lid tid l c st with
    | mk st1 r1 =>
      have hok := processCondition_noerr_ok lessonCtx lid tid l c st
        (hs c (List.mem_cons_self c rest))
      rw [hc] at hok
      simp only at hok
      subst hok
      simp only
      exact ih st1 (fun c hm => hs c (List.mem_cons_of_mem _ hm))

theorem processTask_noerr_ok (lessonCtx : String) (lid : EntId) (l : LessonDir)
    (j : Nat) (task : TaskMeta) (st : St)
    (hs : ∀ c ∈ task.conditions, (statNode l c.value).isSome) :
    (processTask noErrEnv lessonCtx lid l j task st).2 = .ok () := by
  unfold processTask
  simp only [issueOp, noErrEnv]
  exact processConditions_noerr_ok lessonCtx lid _ l task.conditions _ hs

theorem processTasks_noerr_ok (lessonCtx : String) (lid : EntId) (l : LessonDir)
    (j : Nat) (ts : List TaskMeta) (st : St)
    (hs : ∀ t ∈ ts, ∀ c ∈ t.conditions, (statNode l c.value).isSome) :
    (processTasks noErrEnv lessonCtx lid l j ts st).2 = .ok () := by
  induction ts generalizing st j with
  | nil => rfl
  | cons t rest ih =>
    unfold processTasks
    cases hc : processTask noErrEnv lessonCtx lid l j t st with
    | mk st1 r1 =>
      have hok := processTask_noerr_ok lessonCtx lid l j t st
        (hs t (List.mem_cons_self t rest))
      rw [hc] at hok
      simp only at hok
      subst hok
      simp only
      exact ih (j + 1) st1 (fun t hm => hs t (List.mem_cons_of_mem _ hm))

theorem processTasks_noerr_result (lessonCtx : String) (lid : EntId)
    (l : LessonDir) (j : Nat) (ts : List TaskMeta) (S : St)
    (hs : ∀ t ∈ ts, ∀ c ∈ t.conditions, (statNode l c.value).isSome) :
    ∃ st', processTasks noErrEnv lessonCtx lid l j ts S = (st', .ok ()) ∧
      st'.db.lessons = S.db.lessons ∧
      ∃ new, st'.trace = S.trace ++ new ∧ ∀ o ∈ new, NoWsUpload o := by
  cases ht : processTasks noErrEnv lessonCtx lid l j ts S with
  | mk st' r =>
    have hok := processTasks_noerr_ok lessonCtx lid l j ts S hs
    rw [ht] at hok
    simp only at hok
    subst hok
    have hf := processTasks_frame noErrEnv lessonCtx lid l j ts S
    rw [ht] at hf
    exact ⟨st', rfl, hf.2.2.1, hf.2.2.2⟩

/-- C2: a lesson whose directory has no `workspace/` subdirectory
synchronizes without failing (given that store operations succeed and its
condition values resolve): no upload to the `starter-workspaces` bucket is
issued, and the persisted Lesson row ends with `workspace` unset while
`guide` is set to the uploaded guide's key. -/
theorem lesson_without_workspace_guide_still_written
    (lessonCtx : String) (chid : EntId) (i : Nat) (l : LessonDir) (st : St)
    (hw : l.workspace = none)
    (hcond : ∀ t ∈ l.guideFM.tasks, ∀ c ∈ t.conditions, (statNode l c.value).isSome) :
    ∃ st', processLesson noErrEnv lessonCtx chid i l st = (st', .ok ()) ∧
      (∃ new, st'.trace = st.trace ++ new ∧ ∀ o ∈ new, NoWsUpload o) ∧
      ∃ pre, st'.db.lessons = pre ++
        [⟨.gen st.ctr, chid, l.guideFM.name, l.guideFM.environment, i,
          some ⟨"guides", .guideName (.gen st.ctr)⟩, none, none, none⟩] := by
  unfold processLesson
  simp only [issueOp, noErrEnv, hw]
  obtain ⟨st', hrun, hles, new2, htr, hws⟩ :=
    processTasks_noerr_result lessonCtx (EntId.gen st.ctr) l 0 l.guideFM.tasks
      ⟨updateLessonGuide
        { st.db with lessons := st.db.lessons ++
            [⟨.gen st.ctr, chid, l.guideFM.name, l.guideFM.environment, i,
              none, none, none, none⟩] }
        (.gen st.ctr) (some ⟨"guides", .guideName (.gen st.ctr)⟩),
       putBlob st.storage ⟨"guides", .guideName (.gen st.ctr)⟩ l.guideBody,
       st.trace ++ [⟨.lessonUp, .upsert .lessons, lessonCtx, none⟩]
         ++ [⟨.guideUpl, .upload "guides" (.guideName (.gen st.ctr)) l.guideBody
               (some "text/markdown"), lessonCtx, none⟩]
         ++ [⟨.guideUpd, .update .lessons, lessonCtx, none⟩],
       st.elog, st.ctr + 1, st.opIdx + 1 + 1 + 1⟩ hcond
  refine ⟨st', hrun, ?_, ?_⟩
  · refine ⟨[⟨.lessonUp, .upsert .lessons, lessonCtx, none⟩,
      ⟨.guideUpl, .upload "guides" (.guideName (.gen st.ctr)) l.guideBody
        (some "text/markdown"), lessonCtx, none⟩,
      ⟨.guideUpd, .update .lessons, lessonCtx, none⟩] ++ new2,
      by rw [htr]; simp, ?_⟩
    intro o ho
    rcases List.mem_append.mp ho with hm | hm
    · simp only [List.mem_cons, List.not_mem_nil, or_false] at hm
      rcases hm with rfl | rfl | rfl <;> (intro nm c ct; simp)
    · exact hws o hm
  · refine ⟨st.db.lessons.map (fun r =>
      if r.id == EntId.gen st.ctr
      then { r with guide := some ⟨"guides", .guideName (.gen st.ctr)⟩ } else r), ?_⟩
    rw [hles]
    simp only [updateLessonGuide, List.map_append]
    congr 1
    simp

theorem lesson_without_workspace_guide_still_written_witness :
    ∃ st', processLesson noErrEnv "/c1//a/l1/" (EntId.gen 7) 0 lesDirCond
        (initSt emptyDB 0) = (st', .ok ()) ∧
      (∃ new, st'.trace = (initSt emptyDB 0).trace ++ new ∧ ∀ o ∈ new, NoWsUpload o) ∧
      ∃ pre, st'.db.lessons = pre ++
        [⟨.gen 0, .gen 7, lesDirCond.guideFM.name, lesDirCond.guideFM.environment, 0,
          some ⟨"guides", .guideName (.gen 0)⟩, none, none, none⟩] :=
  lesson_without_workspace_guide_still_written "/c1//a/l1/" (.gen 7) 0 lesDirCond
    (initSt emptyDB 0) rfl (by decide)

/-! ### C10 — navigation values are positional path strings -/

theorem digitChar_ne_slash (n : Nat) : digitChar n ≠ '/' := by
  unfold digitChar
  split_ifs <;> decide

theorem natDigitsAux_ne_slash (fuel n : Nat) :
    ∀ c ∈ natDigitsAux fuel n, c ≠ '/' := by
  induction fuel generalizing n with
  | zero => intro c hc; simp [natDigitsAux] at hc
  | succ fuel ih =>
    intro c hc
    unfold natDigitsAux at hc
    split at hc
    · simp only [List.mem_singleton] at hc
      exact hc ▸ digitChar_ne_slash n
    · rcases List.mem_append.mp hc with hm | hm
      · exact ih (n / 10) c hm
      · simp only [List.mem_singleton] at hm
        exact hm ▸ digitChar_ne_slash (n % 10)

theorem renderId_gen_no_slash (m : Nat) : '/' ∉ (renderId (EntId.gen m)).data := by
  intro hmem
  unfold renderId natStr at hmem
  rw [String.data_append] at hmem
  rcases List.mem_append.mp hmem with hm | hm
  · simp at hm
  · exact natDigitsAux_ne_slash (m + 1) m '/' hm rfl

theorem slash_mem_navStr (uuid : String) (a b : Int) :
    '/' ∈ (navStr uuid a b).data := by
  unfold navStr
  rw [String.data_append, String.data_append, String.data_append,
    String.data_append]
  refine List.mem_append.mpr (Or.inl ?_)
  refine List.mem_append.mpr (Or.inl ?_)
  refine List.mem_append.mpr (Or.inl ?_)
  exact List.mem_append.mpr (Or.inr (by simp))

theorem navStr_ne_renderId (uuid : String) (a b : Int) (m : Nat) :
    navStr uuid a b ≠ renderId (EntId.gen m) := by
  intro heq
  have h := slash_mem_navStr uuid a b
  rw [heq] at h
  exact renderId_gen_no_slash m h

/-- Nav fields carry only `uuid/i/j` position strings. -/
def NavGood (uuid : String) (db : DB) : Prop :=
  ∀ r ∈ db.lessons,
    (∀ s, r.previous = some s → ∃ a b, s = navStr uuid a b) ∧
    (∀ s, r.next = some s → ∃ a b, s = navStr uuid a b)

theorem navGood_update (uuid : String) (db : DB) (target : EntId)
    (pv nx : Option String)
    (hpv : ∀ s, pv = some s → ∃ a b, s = navStr uuid a b)
    (hnx : ∀ s, nx = some s → ∃ a b, s = navStr uuid a b)
    (hdb : NavGood uuid db) : NavGood uuid (updateLessonNav db target pv nx) := by
  intro r hr
  unfold updateLessonNav at hr
  simp only [List.mem_map] at hr
  obtain ⟨r0, hr0, hr0eq⟩ := hr
  by_cases hid : (r0.id == target) = true
  · rw [if_pos hid] at hr0eq
    subst hr0eq
    exact ⟨hpv, hnx⟩
  · rw [if_neg hid] at hr0eq
    subst hr0eq
    exact hdb r0 hr0

theorem navPrevOf_good (env : Env) (uuid : String) (cs : List ChapterRow)
    (i j : Nat) (st st' : St) (previous : Option String)
    (h : navPrevOf env uuid cs i j st = (st', .ok previous)) :
    ∀ s, previous = some s → ∃ a b, s = navStr uuid a b := by
  unfold navPrevOf at h
  split at h
  · obtain ⟨rfl, hr⟩ := Prod.mk.injEq .. ▸ h
    have := (Except.ok.injEq .. ▸ hr : _ = previous)
    intro s hs
    rw [← this] at hs
    exact ⟨_, _, (Option.some.inj hs).symm⟩
  · split at h
    · cases hg : cs.get? (i - 1) with
      | none =>
        rw [hg] at h
        simp at h
      | some prevCh =>
        rw [hg] at h
        simp only [issueOp] at h
        cases he : env.oracle st.opIdx with
        | some m =>
          rw [he] at h
          simp at h
        | none =>
          rw [he] at h
          simp only at h
          obtain ⟨rfl, hr⟩ := Prod.mk.injEq .. ▸ h
          have := (Except.ok.injEq .. ▸ hr : _ = previous)
          intro s hs
          rw [← this] at hs
          exact ⟨_, _, (Option.some.inj hs).symm⟩
    · obtain ⟨rfl, hr⟩ := Prod.mk.injEq .. ▸ h
      have := (Except.ok.injEq .. ▸ hr : _ = previous)
      intro s hs
      rw [← this] at hs
      simp at hs

theorem navNextOf_good (uuid : String) (csLen lsLen i j : Nat) :
    ∀ s, navNextOf uuid csLen lsLen i j = some s → ∃ a b, s = navStr uuid a b := by
  intro s hs
  unfold navNextOf at hs
  split at hs
  · exact ⟨_, _, (Option.some.inj hs).symm⟩
  · split at hs
    · exact ⟨_, _, (Option.some.inj hs).symm⟩
    · simp at hs

theorem navLessonLoop_good (env : Env) (uuid : String) (cs : List ChapterRow)
    (ls : List LessonRow) (i : Nat) :
    ∀ (j : Nat) (rest : List LessonRow) (st st' : St) (r : Except Halt Unit),
      navLessonLoop env uuid cs ls i j rest st = (st', r) →
      NavGood uuid st.db → NavGood uuid st'.db := by
  intro j rest
  induction rest generalizing j with
  | nil =>
    intro st st' r h hg
    unfold navLessonLoop at h
    obtain ⟨rfl, -⟩ := Prod.mk.injEq .. ▸ h
    exact hg
  | cons lrow tail ih =>
    intro st st' r h hg
    unfold navLessonLoop at h
    cases hp : navPrevOf env uuid cs i j st with
    | mk st1 r1 =>
      rw [hp] at h
      have hdb1 := navPrevOf_frame env uuid cs i j st
      rw [hp] at hdb1
      have hdb1' : st1.db = st.db := hdb1
      cases r1 with
      | error e =>
        simp only at h
        obtain ⟨rfl, -⟩ := Prod.mk.injEq .. ▸ h
        rw [hdb1']
        exact hg
      | ok previous =>
        have hpg := navPrevOf_good env uuid cs i j st st1 previous hp
        simp only [issueOp] at h
        cases he : env.oracle st1.opIdx with
        | some m =>
          rw [he] at h
          simp only at h
          obtain ⟨rfl, -⟩ := Prod.mk.injEq .. ▸ h
          show NavGood uuid st1.db
          rw [hdb1']
          exact hg
        | none =>
          rw [he] at h
          simp only at h
          refine ih (j + 1) _ st' r h ?_
          show NavGood uuid (updateLessonNav st1.db lrow.id previous
            (navNextOf uuid cs.length ls.length i j))
          refine navGood_update uuid st1.db lrow.id _ _ hpg
            (navNextOf_good uuid cs.length ls.length i j) ?_
          rw [hdb1']
          exact hg

theorem navChapterLoop_good (env : Env) (uuid : String) :
    ∀ (n i : Nat) (st st' : St) (r : Except Halt Unit),
      navChapterLoop env uuid i n st = (st', r) →
      NavGood uuid st.db → NavGood uuid st'.db := by
  intro n
  induction n with
  | zero =>
    intro i st st' r h hg
    unfold navChapterLoop at h
    obtain ⟨rfl, -⟩ := Prod.mk.injEq .. ▸ h
    exact hg
  | succ rem ih =>
    intro i st st' r h hg
    unfold navChapterLoop at h
    simp only [issueOp] at h
    cases he : env.oracle st.opIdx with
    | some m =>
      rw [he] at h
      simp only at h
      obtain ⟨rfl, -⟩ := Prod.mk.injEq .. ▸ h
      exact hg
    | none =>
      rw [he] at h
      simp only at h
      cases hgch : (selectChapters st.db (EntId.supplied uuid)).get? i with
      | none =>
        rw [hgch] at h
        simp only at h
        obtain ⟨rfl, -⟩ := Prod.mk.injEq .. ▸ h
        exact hg
      | some ci =>
        rw [hgch] at h
        simp only at h
        cases he2 : env.oracle (st.opIdx + 1) with
        | some m =>
          rw [he2] at h
          simp only at h
          obtain ⟨rfl, -⟩ := Prod.mk.injEq .. ▸ h
          exact hg
        | none =>
          rw [he2] at h
          simp only at h
          cases hl : navLessonLoop env uuid _ _ i 0 _ _ with
          | mk st3 r3 =>
            rw [hl] at h
            have h3 := navLessonLoop_good env uuid
              (selectChapters st.db (EntId.supplied uuid))
              (selectLessons st.db ci.id) i 0 (selectLessons st.db ci.id) _ st3 r3 hl hg
            cases r3 with
            | error e =>
              simp only at h
              obtain ⟨rfl, -⟩ := Prod.mk.injEq .. ▸ h
              exact h3
            | ok u =>
              simp only at h
              exact ih (i + 1) st3 st' r h h3

/-- C10: every non-null `previous`/`next` the Navigation Linker writes is
the positional path string `uuid/chapterIndex/lessonIndex` built from the
caller-supplied course identifier and the two indices — never the
store-generated identifier of any Lesson row (rendered generated ids never
contain a slash, while the positional strings always do). -/
theorem nav_values_positional (env : Env) (uuid : String) (i n : Nat)
    (st st' : St) (r : Except Halt Unit)
    (hrun : navChapterLoop env uuid i n st = (st', r))
    (h0 : ∀ row ∈ st.db.lessons, row.previous = none ∧ row.next = none) :
    ∀ row ∈ st'.db.lessons,
      (∀ s, row.previous = some s →
        (∃ a b, s = navStr uuid a b) ∧ ∀ m, s ≠ renderId (EntId.gen m)) ∧
      (∀ s, row.next = some s →
        (∃ a b, s = navStr uuid a b) ∧ ∀ m, s ≠ renderId (EntId.gen m)) := by
  have hg0 : NavGood uuid st.db := by
    intro row hrow
    obtain ⟨h1, h2⟩ := h0 row hrow
    refine ⟨fun s hs => ?_, fun s hs => ?_⟩
    · rw [h1] at hs
      cases hs
    · rw [h2] at hs
      cases hs
  have hg := navChapterLoop_good env uuid n i st st' r hrun hg0
  intro row hrow
  obtain ⟨h1, h2⟩ := hg row hrow
  refine ⟨fun s hs => ⟨h1 s hs, ?_⟩, fun s hs => ⟨h2 s hs, ?_⟩⟩
  · obtain ⟨a, b, rfl⟩ := h1 s hs
    exact fun m => navStr_ne_renderId uuid a b m
  · obtain ⟨a, b, rfl⟩ := h2 s hs
    exact fun m => navStr_ne_renderId uuid a b m

/-- Committed two-chapter, one-lesson-each course state, before linking. -/
def dbNav : DB :=
  ⟨[], [⟨.gen 0, .supplied "u", "A", 0⟩, ⟨.gen 2, .supplied "u", "B", 1⟩],
   [⟨.gen 1, .gen 0, "L", "e", 0, none, none, none, none⟩,
    ⟨.gen 3, .gen 2, "M", "e", 0, none, none, none, none⟩], [], []⟩

def stNav : St := ⟨dbNav, [], [], [], 10, 0⟩

theorem nav_values_positional_witness :
    (∃ a b, "u/1/0" = navStr "u" a b) ∧
    ∀ m, ("u/1/0" : String) ≠ renderId (EntId.gen m) := by
  have h := nav_values_positional noErrEnv "u" 0 2 stNav
    (navChapterLoop noErrEnv "u" 0 2 stNav).1
    (navChapterLoop noErrEnv "u" 0 2 stNav).2 rfl (by decide)
  have hr := h ⟨.gen 1, .gen 0, "L", "e", 0, none, none, none, some "u/1/0"⟩ (by decide)
  exact hr.2 "u/1/0" rfl

/-! ### Generic list lemmas for sorting/filtering under row maps -/

theorem insertByIdx_map {α : Type} (key : α → Nat) (f : α → α)
    (hf : ∀ x, key (f x) = key x) (x : α) (l : List α) :
    insertByIdx key (f x) (l.map f) = (insertByIdx key x l).map f := by
  induction l with
  | nil => rfl
  | cons y ys ih =>
    simp only [List.map_cons]
    unfold insertByIdx
    rw [hf x, hf y]
    by_cases h : key x < key y
    · rw [if_pos h, if_pos h]
      rfl
    · rw [if_neg h, if_neg h]
      simp only [List.map_cons]
      rw [ih]

theorem sortByIdx_map {α : Type} (key : α → Nat) (f : α → α)
    (hf : ∀ x, key (f x) = key x) (l : List α) :
    sortByIdx key (l.map f) = (sortByIdx key l).map f := by
  induction l with
  | nil => rfl
  | cons y ys ih =>
    show insertByIdx key (f y) (sortByIdx key (ys.map f))
      = (insertByIdx key y (sortByIdx key ys)).map f
    rw [ih, insertByIdx_map key f hf]

theorem filter_map_comm {α : Type} (p : α → Bool) (f : α → α)
    (hp : ∀ x, p (f x) = p x) (l : List α) :
    (l.map f).filter p = (l.filter p).map f := by
  induction l with
  | nil => rfl
  | cons y ys ih =>
    simp only [List.map_cons, List.filter_cons, hp y]
    by_cases h : p y
    · rw [if_pos h, if_pos h, List.map_cons, ih]
    · rw [if_neg h, if_neg h, ih]

theorem insertByIdx_perm {α : Type} (key : α → Nat) (x : α) (l : List α) :
    List.Perm (insertByIdx key x l) (x :: l) := by
  induction l with
  | nil => exact List.Perm.refl _
  | cons y ys ih =>
    unfold insertByIdx
    by_cases h : key x < key y
    · rw [if_pos h]
    · rw [if_neg h]
      exact ((ih.cons y).trans (List.Perm.swap x y ys))

theorem sortByIdx_perm {α : Type} (key : α → Nat) (l : List α) :
    List.Perm (sortByIdx key l) l := by
  induction l with
  | nil => exact List.Perm.refl _
  | cons y ys ih =>
    exact (insertByIdx_perm key y (sortByIdx key ys)).trans (ih.cons y)

theorem sortByIdx_length {α : Type} (key : α → Nat) (l : List α) :
    (sortByIdx key l).length = l.length :=
  (sortByIdx_perm key l).length_eq

theorem mem_sortByIdx {α : Type} (key : α → Nat) (l : List α) (x : α) :
    x ∈ sortByIdx key l ↔ x ∈ l :=
  (sortByIdx_perm key l).mem_iff

/-! ### C8 — idempotent re-runs.  Store-generated ids are modelled by the
counter; a later run draws later counter values.  `sGen d` renames every
generated id by `+ d`, leaving caller-supplied ids fixed; the run commutes
with this renaming. -/

def sGen (d : Nat) : EntId → EntId
  | .supplied s => .supplied s
  | .gen n => .gen (n + d)

def sName (d : Nat) : BlobName → BlobName
  | .guideName l => .guideName (sGen d l)
  | .workspaceName l => .workspaceName (sGen d l)
  | .fileName l san => .fileName (sGen d l) san

def sKey (d : Nat) (k : BlobKey) : BlobKey := ⟨k.bucket, sName d k.name⟩

def sVal (d : Nat) : CondValue → CondValue
  | .lit s => .lit s
  | .ref k => .ref (sKey d k)

def sCourseRow (d : Nat) (r : CourseRow) : CourseRow := { r with id := sGen d r.id }

def sChapterRow (d : Nat) (r : ChapterRow) : ChapterRow :=
  { r with id := sGen d r.id, course := sGen d r.course }

def sLessonRow (d : Nat) (r : LessonRow) : LessonRow :=
  { r with id := sGen d r.id, chapter := sGen d r.chapter,
           guide := r.guide.map (sKey d), workspace := r.workspace.map (sKey d) }

def sTaskRow (d : Nat) (r : TaskRow) : TaskRow :=
  { r with id := sGen d r.id, lesson := sGen d r.lesson }

def sCondRow (d : Nat) (r : ConditionRow) : ConditionRow :=
  { r with id := sGen d r.id, task := sGen d r.task, value := sVal d r.value }

def sDB (d : Nat) (db : DB) : DB :=
  ⟨db.courses.map (sCourseRow d), db.chapters.map (sChapterRow d),
   db.lessons.map (sLessonRow d), db.tasks.map (sTaskRow d),
   db.task_conditions.map (sCondRow d)⟩

def sKind (d : Nat) : OpKind → OpKind
  | .upload b nm c ct => .upload b (sName d nm) c ct
  | k => k

def sOp (d : Nat) (o : Op) : Op := { o with kind := sKind d o.kind }

def sEntry (d : Nat) (e : BlobKey × String) : BlobKey × String := (sKey d e.1, e.2)

def sSt (d : Nat) (st : St) : St :=
  ⟨sDB d st.db, st.storage.map (sEntry d),
   st.trace.map (sOp d), st.elog, st.ctr + d, st.opIdx⟩

theorem sGen_beq (d : Nat) (a b : EntId) : (sGen d a == sGen d b) = (a == b) := by
  cases a <;> cases b <;> simp [sGen]

theorem sGen_inj (d : Nat) (a b : EntId) (h : sGen d a = sGen d b) : a = b := by
  cases a <;> cases b <;> simp_all [sGen]

theorem sName_beq (d : Nat) (a b : BlobName) : (sName d a == sName d b) = (a == b) := by
  cases a <;> cases b <;> simp [sName] <;> intros <;>
    exact ⟨sGen_inj d _ _, fun h => h ▸ rfl⟩

theorem beq_map_inj {α : Type} [DecidableEq α] {f : α → α}
    (hf : ∀ a b, f a = f b → a = b) (a b : α) : (f a == f b) = (a == b) := by
  cases hab : a == b
  · cases hs : f a == f b
    · rfl
    · have h2 := hf a b (eq_of_beq hs)
      subst h2
      simp at hab
  · have h2 : a = b := eq_of_beq hab
    subst h2
    simp

theorem sName_inj (d : Nat) (a b : BlobName) (h : sName d a = sName d b) : a = b := by
  have hb := sName_beq d a b
  rw [h] at hb
  simp at hb
  exact hb

theorem sKey_inj (d : Nat) (a b : BlobKey) (h : sKey d a = sKey d b) : a = b := by
  cases a with
  | mk ab an =>
    cases b with
    | mk bb bn =>
      simp only [sKey, BlobKey.mk.injEq] at h ⊢
      exact ⟨h.1, sName_inj d _ _ h.2⟩

theorem sKey_beq (d : Nat) (a b : BlobKey) : (sKey d a == sKey d b) = (a == b) :=
  beq_map_inj (sKey_inj d) a b

theorem sGen_sentinel (d : Nat) (i : EntId) : (sGen d i == sentinelId) = (i == sentinelId) := by
  cases i <;> simp [sGen, sentinelId]

/-! Commutation of the primitive store operations with the id shift. -/

theorem issueOp_s (env : Env) (site : Site) (k : OpKind) (ctx : String) (d : Nat)
    (st : St) :
    issueOp env site (sKind d k) ctx (sSt d st)
      = (sSt d (issueOp env site k ctx st).1, (issueOp env site k ctx st).2) := by
  simp [issueOp, sSt, sOp]

theorem logPathErr_s (ctx e : String) (d : Nat) (st : St) :
    logPathErr ctx e (sSt d st) = sSt d (logPathErr ctx e st) := by
  simp [logPathErr, sSt]

theorem logErrOnly_s (e : String) (d : Nat) (st : St) :
    logErrOnly e (sSt d st) = sSt d (logErrOnly e st) := by
  simp [logErrOnly, sSt]

theorem applyPurge_s (t : DbTable) (d : Nat) (db : DB) :
    applyPurge t (sDB d db) = sDB d (applyPurge t db) := by
  cases t <;>
    simp [applyPurge, sDB, filter_map_comm, sCourseRow, sChapterRow, sLessonRow,
      sTaskRow, sCondRow, sGen_sentinel]

theorem purgeDelete_s (env : Env) (t : DbTable) (d : Nat) (st : St) :
    purgeDelete env t (sSt d st) = sSt d (purgeDelete env t st) := by
  unfold purgeDelete
  simp only [issueOp]
  have hop : (sSt d st).opIdx = st.opIdx := rfl
  rw [hop]
  cases he : env.oracle st.opIdx with
  | some m => simp [sSt, sOp, sKind]
  | none => simp [sSt, sOp, sKind, applyPurge_s]

theorem upsertCourseRow_s (d : Nat) (db : DB) (r : CourseRow) :
    upsertCourseRow (sDB d db) (sCourseRow d r) = sDB d (upsertCourseRow db r) := by
  unfold upsertCourseRow
  have hany : (sDB d db).courses.any (fun c => c.id == (sCourseRow d r).id)
      = db.courses.any (fun c => c.id == r.id) := by
    simp only [sDB, List.any_map]
    congr 1
    funext c
    simp [Function.comp, sCourseRow, sGen_beq]
  rw [hany]
  cases hc : db.courses.any (fun c => c.id == r.id) with
  | false =>
    simp only [hc, Bool.false_eq_true, if_false]
    simp [sDB]
  | true =>
    simp only [hc, if_true]
    simp only [sDB, List.map_map]
    congr 1
    apply List.map_congr_left
    intro c _
    simp only [Function.comp, sCourseRow, sGen_beq]
    by_cases h : (c.id == r.id) = true
    · simp [h]
    · simp [h]

theorem putBlob_s (d : Nat) (storage : List (BlobKey × String)) (k : BlobKey)
    (content : String) :
    putBlob (storage.map (sEntry d)) (sKey d k) content
      = (putBlob storage k content).map (sEntry d) := by
  unfold putBlob
  have hany : (storage.map (sEntry d)).any (fun e => e.fst == sKey d k)
      = storage.any (fun e => e.fst == k) := by
    simp only [List.any_map]
    congr 1
    funext e
    simp [Function.comp, sEntry, sKey_beq]
  rw [hany]
  cases hc : storage.any (fun e => e.fst == k) with
  | false => simp [hc, sEntry]
  | true =>
    simp only [hc, if_true, List.map_map]
    apply List.map_congr_left
    intro e _
    simp only [Function.comp, sEntry, sKey_beq]
    by_cases h : (e.fst == k) = true
    · simp [h, sEntry]
    · simp [h, sEntry]

theorem selectChapters_s (d : Nat) (db : DB) (course : EntId) :
    selectChapters (sDB d db) (sGen d course)
      = (selectChapters db course).map (sChapterRow d) := by
  unfold selectChapters
  have hf : (sDB d db).chapters.filter (fun r => r.course == sGen d course)
      = (db.chapters.filter (fun r => r.course == course)).map (sChapterRow d) := by
    simp only [sDB]
    rw [List.map_filter]
    congr 1
    apply List.filter_congr
    intro r _
    simp [Function.comp, sChapterRow, sGen_beq]
  rw [hf, sortByIdx_map]
  intro r
  simp [sChapterRow]

theorem selectLessons_s (d : Nat) (db : DB) (chapter : EntId) :
    selectLessons (sDB d db) (sGen d chapter)
      = (selectLessons db chapter).map (sLessonRow d) := by
  unfold selectLessons
  have hf : (sDB d db).lessons.filter (fun r => r.chapter == sGen d chapter)
      = (db.lessons.filter (fun r => r.chapter == chapter)).map (sLessonRow d) := by
    simp only [sDB]
    rw [List.map_filter]
    congr 1
    apply List.filter_congr
    intro r _
    simp [Function.comp, sLessonRow, sGen_beq]
  rw [hf, sortByIdx_map]
  intro r
  simp [sLessonRow]

theorem updateLessonWs_s (d : Nat) (db : DB) (t : EntId) (w : Option BlobKey) :
    updateLessonWs (sDB d db) (sGen d t) (w.map (sKey d))
      = sDB d (updateLessonWs db t w) := by
  unfold updateLessonWs
  simp only [sDB, List.map_map]
  congr 1
  apply List.map_congr_left
  intro r _
  simp only [Function.comp, sLessonRow, sGen_beq]
  by_cases h : (r.id == t) = true
  · simp [h, sLessonRow]
  · simp [h, sLessonRow]

theorem updateLessonGuide_s (d : Nat) (db : DB) (t : EntId) (g : Option BlobKey) :
    updateLessonGuide (sDB d db) (sGen d t) (g.map (sKey d))
      = sDB d (updateLessonGuide db t g) := by
  unfold updateLessonGuide
  simp only [sDB, List.map_map]
  congr 1
  apply List.map_congr_left
  intro r _
  simp only [Function.comp, sLessonRow, sGen_beq]
  by_cases h : (r.id == t) = true
  · simp [h, sLessonRow]
  · simp [h, sLessonRow]

theorem updateLessonNav_s (d : Nat) (db : DB) (t : EntId) (pv nx : Option String) :
    updateLessonNav (sDB d db) (sGen d t) pv nx
      = sDB d (updateLessonNav db t pv nx) := by
  unfold updateLessonNav
  simp only [sDB, List.map_map]
  congr 1
  apply List.map_congr_left
  intro r _
  simp only [Function.comp, sLessonRow, sGen_beq]
  by_cases h : (r.id == t) = true
  · simp [h, sLessonRow]
  · simp [h, sLessonRow]

theorem sGen_gen (d n : Nat) : sGen d (EntId.gen n) = .gen (n + d) := rfl

theorem sGen_supplied (d : Nat) (u : String) : sGen d (EntId.supplied u) = .supplied u := rfl

theorem putBlob_s_file (d : Nat) (storage : List (BlobKey × String)) (b : String)
    (lid : EntId) (san content : String) :
    putBlob (storage.map (sEntry d)) ⟨b, .fileName (sGen d lid) san⟩ content
      = (putBlob storage ⟨b, .fileName lid san⟩ content).map (sEntry d) :=
  putBlob_s d storage ⟨b, .fileName lid san⟩ content

theorem putBlob_s_guide (d : Nat) (storage : List (BlobKey × String)) (b : String)
    (lid : EntId) (content : String) :
    putBlob (storage.map (sEntry d)) ⟨b, .guideName (sGen d lid)⟩ content
      = (putBlob storage ⟨b, .guideName lid⟩ content).map (sEntry d) :=
  putBlob_s d storage ⟨b, .guideName lid⟩ content

theorem putBlob_s_ws (d : Nat) (storage : List (BlobKey × String)) (b : String)
    (lid : EntId) (content : String) :
    putBlob (storage.map (sEntry d)) ⟨b, .workspaceName (sGen d lid)⟩ content
      = (putBlob storage ⟨b, .workspaceName lid⟩ content).map (sEntry d) :=
  putBlob_s d storage ⟨b, .workspaceName lid⟩ content

/-- Shift commutation for a single condition: running on the `d`-shifted
state with `d`-shifted lesson/task ids is the shift of the original run. -/
theorem processCondition_s (env : Env) (ctx : String) (lid tid : EntId)
    (l : LessonDir) (cond : CondMeta) (d : Nat) (st : St) :
    processCondition env ctx (sGen d lid) (sGen d tid) l cond (sSt d st)
      = (sSt d (processCondition env ctx lid tid l cond st).1,
         (processCondition env ctx lid tid l cond st).2) := by
  unfold processCondition
  cases hs : statNode l cond.value with
  | none => rfl
  | some node =>
    cases node with
    | dir =>
      simp only [issueOp]
      have hop : (sSt d st).opIdx = st.opIdx := rfl
      rw [hop]
      cases he : env.oracle st.opIdx with
      | some m =>
        simp only [he]
        simp [sSt, sDB, sOp, sKind, logErrOnly]
      | none =>
        simp only [he]
        simp [sSt, sDB, sOp, sKind, sCondRow, sVal, sGen_gen, Nat.add_right_comm]
    | file content =>
      simp only [issueOp]
      have hop : (sSt d st).opIdx = st.opIdx := rfl
      rw [hop]
      cases he : env.oracle st.opIdx with
      | some m =>
        simp only [he]
        simp [sSt, sDB, sOp, sKind, sName, logPathErr]
      | none =>
        simp only [he]
        have hop2 : (sSt d st).opIdx + 1 = st.opIdx + 1 := rfl
        cases he2 : env.oracle (st.opIdx + 1) with
        | some m =>
          simp only [he2]
          simp [sSt, sDB, sOp, sKind, sName, logErrOnly, putBlob_s_file]
        | none =>
          simp only [he2]
          simp [sSt, sDB, sOp, sKind, sName, sKey, sCondRow, sVal, sGen_gen,
            putBlob_s_file, Nat.add_right_comm]

theorem processConditions_s (env : Env) (ctx : String) (lid tid : EntId)
    (l : LessonDir) (cs : List CondMeta) (d : Nat) (st : St) :
    processConditions env ctx (sGen d lid) (sGen d tid) l cs (sSt d st)
      = (sSt d (processConditions env ctx lid tid l cs st).1,
         (processConditions env ctx lid tid l cs st).2) := by
  induction cs generalizing st with
  | nil => rfl
  | cons c rest ih =>
    unfold processConditions
    rw [processCondition_s]
    cases hc : processCondition env ctx lid tid l c st with
    | mk st1 r1 =>
      cases r1 with
      | error e => rfl
      | ok u => exact ih st1

theorem processConditions_s_rel (env : Env) (ctx : String) (lid tid : EntId)
    (l : LessonDir) (cs : List CondMeta) (d : Nat) (st' st : St)
    (hst : st' = sSt d st) (lid' tid' : EntId)
    (hl : lid' = sGen d lid) (ht : tid' = sGen d tid) :
    processConditions env ctx lid' tid' l cs st'
      = (sSt d (processConditions env ctx lid tid l cs st).1,
         (processConditions env ctx lid tid l cs st).2) := by
  subst hst
  subst hl
  subst ht
  exact processConditions_s env ctx lid tid l cs d st

theorem processTask_s (env : Env) (ctx : String) (lid : EntId) (l : LessonDir)
    (j : Nat) (task : TaskMeta) (d : Nat) (st : St) :
    processTask env ctx (sGen d lid) l j task (sSt d st)
      = (sSt d (processTask env ctx lid l j task st).1,
         (processTask env ctx lid l j task st).2) := by
  unfold processTask
  simp only [issueOp]
  have hop : (sSt d st).opIdx = st.opIdx := rfl
  rw [hop]
  cases he : env.oracle st.opIdx with
  | some m =>
    simp only [he]
    simp [sSt, sDB, sOp, sKind, logPathErr]
  | none =>
    simp only [he]
    exact processConditions_s_rel env ctx lid (.gen st.ctr) l task.conditions d _ _
      (by simp [sSt, sDB, sOp, sKind, sTaskRow, sGen_gen, Nat.add_right_comm]) _ _
      rfl (by simp [sSt, sGen_gen])

theorem processTasks_s (env : Env) (ctx : String) (lid : EntId) (l : LessonDir)
    (j : Nat) (ts : List TaskMeta) (d : Nat) (st : St) :
    processTasks env ctx (sGen d lid) l j ts (sSt d st)
      = (sSt d (processTasks env ctx lid l j ts st).1,
         (processTasks env ctx lid l j ts st).2) := by
  induction ts generalizing st j with
  | nil => rfl
  | cons t rest ih =>
    unfold processTasks
    rw [processTask_s]
    cases hc : processTask env ctx lid l j t st with
    | mk st1 r1 =>
      cases r1 with
      | error e => rfl
      | ok u => exact ih (j + 1) st1

theorem processTasks_s_rel (env : Env) (ctx : String) (lid : EntId) (l : LessonDir)
    (j : Nat) (ts : List TaskMeta) (d : Nat) (st' st : St)
    (hst : st' = sSt d st) (lid' : EntId) (hl : lid' = sGen d lid) :
    processTasks env ctx lid' l j ts st'
      = (sSt d (processTasks env ctx lid l j ts st).1,
         (processTasks env ctx lid l j ts st).2) := by
  subst hst
  subst hl
  exact processTasks_s env ctx lid l j ts d st

/-! Projection and constructor forms of the shift, oriented for rewriting. -/

theorem sSt_db (d : Nat) (st : St) : (sSt d st).db = sDB d st.db := rfl

theorem sSt_storage (d : Nat) (st : St) : (sSt d st).storage = st.storage.map (sEntry d) := rfl

theorem sSt_trace (d : Nat) (st : St) : (sSt d st).trace = st.trace.map (sOp d) := rfl

theorem sSt_elog (d : Nat) (st : St) : (sSt d st).elog = st.elog := rfl

theorem sSt_ctr (d : Nat) (st : St) : (sSt d st).ctr = st.ctr + d := rfl

theorem sSt_opIdx (d : Nat) (st : St) : (sSt d st).opIdx = st.opIdx := rfl

theorem sSt_mk (d : Nat) (db : DB) (sto : List (BlobKey × String)) (tr : List Op)
    (el : List LogEntry) (c o : Nat) :
    sSt d ⟨db, sto, tr, el, c, o⟩
      = ⟨sDB d db, sto.map (sEntry d), tr.map (sOp d), el, c + d, o⟩ := rfl

theorem sDB_courses (d : Nat) (db : DB) :
    (sDB d db).courses = db.courses.map (sCourseRow d) := rfl

theorem sDB_chapters (d : Nat) (db : DB) :
    (sDB d db).chapters = db.chapters.map (sChapterRow d) := rfl

theorem sDB_lessons (d : Nat) (db : DB) :
    (sDB d db).lessons = db.lessons.map (sLessonRow d) := rfl

theorem sDB_tasks (d : Nat) (db : DB) :
    (sDB d db).tasks = db.tasks.map (sTaskRow d) := rfl

theorem sDB_conds (d : Nat) (db : DB) :
    (sDB d db).task_conditions = db.task_conditions.map (sCondRow d) := rfl

theorem sDB_mk (d : Nat) (cs : List CourseRow) (ch : List ChapterRow)
    (ls : List LessonRow) (ts : List TaskRow) (tc : List ConditionRow) :
    sDB d ⟨cs, ch, ls, ts, tc⟩
      = ⟨cs.map (sCourseRow d), ch.map (sChapterRow d), ls.map (sLessonRow d),
         ts.map (sTaskRow d), tc.map (sCondRow d)⟩ := rfl

theorem sDB_updateLessonWs (d : Nat) (db : DB) (t : EntId) (w : Option BlobKey) :
    sDB d (updateLessonWs db t w)
      = updateLessonWs (sDB d db) (sGen d t) (w.map (sKey d)) :=
  (updateLessonWs_s d db t w).symm

theorem sDB_updateLessonGuide (d : Nat) (db : DB) (t : EntId) (g : Option BlobKey) :
    sDB d (updateLessonGuide db t g)
      = updateLessonGuide (sDB d db) (sGen d t) (g.map (sKey d)) :=
  (updateLessonGuide_s d db t g).symm

theorem sDB_updateLessonNav (d : Nat) (db : DB) (t : EntId) (pv nx : Option String) :
    sDB d (updateLessonNav db t pv nx)
      = updateLessonNav (sDB d db) (sGen d t) pv nx :=
  (updateLessonNav_s d db t pv nx).symm

theorem sDB_upsertCourseRow (d : Nat) (db : DB) (r : CourseRow) :
    sDB d (upsertCourseRow db r) = upsertCourseRow (sDB d db) (sCourseRow d r) :=
  (upsertCourseRow_s d db r).symm

theorem map_sEntry_putBlob (d : Nat) (storage : List (BlobKey × String)) (k : BlobKey)
    (content : String) :
    (putBlob storage k content).map (sEntry d)
      = putBlob (storage.map (sEntry d)) (sKey d k) content :=
  (putBlob_s d storage k content).symm

theorem processLesson_s (env : Env) (ctx : String) (chid : EntId) (i : Nat)
    (l : LessonDir) (d : Nat) (st : St) :
    processLesson env ctx (sGen d chid) i l (sSt d st)
      = (sSt d (processLesson env ctx chid i l st).1,
         (processLesson env ctx chid i l st).2) := by
  unfold processLesson
  simp only [issueOp]
  rw [sSt_opIdx]
  cases he : env.oracle st.opIdx with
  | some m =>
    simp only [he]
    simp [sSt_mk, sSt_db, sSt_storage, sSt_trace, sSt_elog, sSt_ctr, sSt_opIdx,
      sOp, sKind, logPathErr]
  | none =>
    simp only [he]
    rw [sSt_ctr]
    cases he2 : env.oracle (st.opIdx + 1) with
    | some m =>
      simp only [he2]
      simp [sSt_mk, sSt_db, sSt_storage, sSt_trace, sSt_elog, sSt_ctr, sSt_opIdx,
        sDB_mk, sDB_courses, sDB_chapters, sDB_lessons, sDB_tasks, sDB_conds,
        sOp, sKind, sName, sLessonRow, sGen_gen, logPathErr, Nat.add_right_comm]
    | none =>
      simp only [he2]
      cases hw : l.workspace with
      | none =>
        simp only [hw]
        cases he3 : env.oracle (st.opIdx + 1 + 1) with
        | some m =>
          simp only [he3]
          simp [sSt_mk, sSt_db, sSt_storage, sSt_trace, sSt_elog, sSt_ctr, sSt_opIdx,
            sDB_mk, sDB_courses, sDB_chapters, sDB_lessons, sDB_tasks, sDB_conds,
            map_sEntry_putBlob, sOp, sKind, sName, sKey, sLessonRow, sGen_gen,
            logPathErr, Nat.add_right_comm]
        | none =>
          simp only [he3]
          exact processTasks_s_rel env ctx (.gen st.ctr) l 0 l.guideFM.tasks d _ _
            (by simp [sSt_mk, sSt_db, sSt_storage, sSt_trace, sSt_elog, sSt_ctr,
              sSt_opIdx, sDB_mk, sDB_courses, sDB_chapters, sDB_lessons, sDB_tasks,
              sDB_conds, sDB_updateLessonGuide, map_sEntry_putBlob, sOp, sKind, sName,
              sKey, sLessonRow, sGen_gen, Nat.add_right_comm]) _
            (by simp [sGen_gen])
      | some files =>
        simp only [hw]
        cases he3 : env.oracle (st.opIdx + 1 + 1) with
        | some m =>
          simp only [he3]
          simp [sSt_mk, sSt_db, sSt_storage, sSt_trace, sSt_elog, sSt_ctr, sSt_opIdx,
            sDB_mk, sDB_courses, sDB_chapters, sDB_lessons, sDB_tasks, sDB_conds,
            map_sEntry_putBlob, sOp, sKind, sName, sKey, sLessonRow, sGen_gen,
            logPathErr, Nat.add_right_comm]
        | none =>
          simp only [he3]
          cases he4 : env.oracle (st.opIdx + 1 + 1 + 1) with
          | some m =>
            simp only [he4]
            simp [sSt_mk, sSt_db, sSt_storage, sSt_trace, sSt_elog, sSt_ctr, sSt_opIdx,
              sDB_mk, sDB_courses, sDB_chapters, sDB_lessons, sDB_tasks, sDB_conds,
              map_sEntry_putBlob, sOp, sKind, sName, sKey, sLessonRow, sGen_gen,
              logPathErr, Nat.add_right_comm]
          | none =>
            simp only [he4]
            cases he5 : env.oracle (st.opIdx + 1 + 1 + 1 + 1) with
            | some m =>
              simp only [he5]
              simp [sSt_mk, sSt_db, sSt_storage, sSt_trace, sSt_elog, sSt_ctr, sSt_opIdx,
                sDB_mk, sDB_courses, sDB_chapters, sDB_lessons, sDB_tasks, sDB_conds,
                sDB_updateLessonWs, map_sEntry_putBlob, sOp, sKind, sName, sKey,
                sLessonRow, sGen_gen, logPathErr, Nat.add_right_comm]
            | none =>
              simp only [he5]
              exact processTasks_s_rel env ctx (.gen st.ctr) l 0 l.guideFM.tasks d _ _
                (by simp [sSt_mk, sSt_db, sSt_storage, sSt_trace, sSt_elog, sSt_ctr,
                  sSt_opIdx, sDB_mk, sDB_courses, sDB_chapters, sDB_lessons, sDB_tasks,
                  sDB_conds, sDB_updateLessonWs, sDB_updateLessonGuide, map_sEntry_putBlob,
                  sOp, sKind, sName, sKey, sLessonRow, sGen_gen, Nat.add_right_comm]) _
                (by simp [sGen_gen])

theorem processLesson_s_rel (env : Env) (ctx : String) (chid : EntId) (i : Nat)
    (l : LessonDir) (d : Nat) (st' st : St) (hst : st' = sSt d st)
    (chid' : EntId) (hc : chid' = sGen d chid) :
    processLesson env ctx chid' i l st'
      = (sSt d (processLesson env ctx chid i l st).1,
         (processLesson env ctx chid i l st).2) := by
  subst hst
  subst hc
  exact processLesson_s env ctx chid i l d st

theorem processLessons_s (env : Env) (courseCtx pathSafe : String) (chid : EntId)
    (i : Nat) (ls : List LessonDir) (d : Nat) (st : St) :
    processLessons env courseCtx pathSafe (sGen d chid) i ls (sSt d st)
      = (sSt d (processLessons env courseCtx pathSafe chid i ls st).1,
         (processLessons env courseCtx pathSafe chid i ls st).2) := by
  induction ls generalizing st i with
  | nil => rfl
  | cons l rest ih =>
    unfold processLessons
    dsimp only
    rw [processLesson_s]
    cases hc : processLesson env (courseCtx ++ "/" ++ pathSafe ++ "/" ++ l.dirname ++ "/")
        chid i l st with
    | mk st1 r1 =>
      cases r1 with
      | error e => rfl
      | ok u => exact ih (i + 1) st1

theorem processLessons_s_rel (env : Env) (courseCtx pathSafe : String) (chid : EntId)
    (i : Nat) (ls : List LessonDir) (d : Nat) (st' st : St) (hst : st' = sSt d st)
    (chid' : EntId) (hc : chid' = sGen d chid) :
    processLessons env courseCtx pathSafe chid' i ls st'
      = (sSt d (processLessons env courseCtx pathSafe chid i ls st).1,
         (processLessons env courseCtx pathSafe chid i ls st).2) := by
  subst hst
  subst hc
  exact processLessons_s env courseCtx pathSafe chid i ls d st

theorem processChapter_s (env : Env) (courseCtx courseUuid : String) (c : CourseDir)
    (cm : ChapterMeta) (d : Nat) (st : St) :
    processChapter env courseCtx courseUuid c cm (sSt d st)
      = (sSt d (processChapter env courseCtx courseUuid c cm st).1,
         (processChapter env courseCtx courseUuid c cm st).2) := by
  unfold processChapter
  simp only [issueOp]
  rw [sSt_opIdx]
  cases he : env.oracle st.opIdx with
  | some m =>
    simp only [he]
    simp [sSt_mk, sSt_db, sSt_storage, sSt_trace, sSt_elog, sSt_ctr, sSt_opIdx,
      sOp, sKind, logPathErr]
  | none =>
    simp only [he]
    rw [sSt_ctr]
    exact processLessons_s_rel env courseCtx cm.pathSafe (.gen st.ctr) 0
      (chapterLessons c cm.pathSafe) d _ _
      (by simp [sSt_mk, sSt_db, sSt_storage, sSt_trace, sSt_elog, sSt_ctr, sSt_opIdx,
        sDB_mk, sDB_courses, sDB_chapters, sDB_lessons, sDB_tasks, sDB_conds,
        sOp, sKind, sChapterRow, sGen_gen, sGen_supplied, Nat.add_right_comm]) _
      (by simp [sGen_gen])

theorem processChapters_s (env : Env) (courseCtx courseUuid : String) (c : CourseDir)
    (cms : List ChapterMeta) (d : Nat) (st : St) :
    processChapters env courseCtx courseUuid c cms (sSt d st)
      = (sSt d (processChapters env courseCtx courseUuid c cms st).1,
         (processChapters env courseCtx courseUuid c cms st).2) := by
  induction cms generalizing st with
  | nil => rfl
  | cons cm rest ih =>
    unfold processChapters
    rw [processChapter_s]
    cases hc : processChapter env courseCtx courseUuid c cm st with
    | mk st1 r1 =>
      cases r1 with
      | error e => rfl
      | ok u => exact ih st1

theorem selectChapters_s_sup (d : Nat) (db : DB) (u : String) :
    selectChapters (sDB d db) (.supplied u)
      = (selectChapters db (.supplied u)).map (sChapterRow d) :=
  selectChapters_s d db (.supplied u)

theorem selectLessons_s_ch (d : Nat) (db : DB) (c : ChapterRow) :
    selectLessons (sDB d db) ((sChapterRow d c).id)
      = (selectLessons db c.id).map (sLessonRow d) :=
  selectLessons_s d db c.id

theorem navPrevOf_s (env : Env) (uuid : String) (cs : List ChapterRow) (i j : Nat)
    (d : Nat) (st : St) :
    navPrevOf env uuid (cs.map (sChapterRow d)) i j (sSt d st)
      = (sSt d (navPrevOf env uuid cs i j st).1, (navPrevOf env uuid cs i j st).2) := by
  unfold navPrevOf
  by_cases hj : j > 0
  · simp [hj]
  · simp only [hj, if_false]
    by_cases hi : i > 0
    · simp only [hi, if_true]
      rw [List.get?_map]
      cases hg : cs.get? (i - 1) with
      | none => simp
      | some prevCh =>
        simp only [Option.map_some']
        simp only [issueOp]
        rw [sSt_opIdx]
        cases he : env.oracle st.opIdx with
        | some m =>
          simp only [he]
          simp [logErrOnly, sSt_mk, sSt_db, sSt_storage, sSt_trace, sSt_elog, sSt_ctr,
            sSt_opIdx, sOp, sKind]
        | none =>
          simp only [he]
          simp [sSt_mk, sSt_db, sSt_storage, sSt_trace, sSt_elog, sSt_ctr, sSt_opIdx,
            sOp, sKind, selectLessons_s_ch]
    · simp [hi]

theorem sSt_nav_step (d : Nat) (st1 : St) (lrow : LessonRow) (pv nx : Option String) :
    (⟨updateLessonNav (sSt d st1).db ((sLessonRow d lrow).id) pv nx, (sSt d st1).storage,
      (sSt d st1).trace ++ [⟨.navUpd, .update .lessons, "", none⟩], (sSt d st1).elog,
      (sSt d st1).ctr, st1.opIdx + 1⟩ : St)
      = sSt d ⟨updateLessonNav st1.db lrow.id pv nx, st1.storage,
          st1.trace ++ [⟨.navUpd, .update .lessons, "", none⟩], st1.elog, st1.ctr,
          st1.opIdx + 1⟩ := by
  simp [sSt_mk, sSt_db, sSt_storage, sSt_trace, sSt_elog, sSt_ctr, sDB_updateLessonNav,
    sOp, sKind, sLessonRow]

theorem navLessonLoop_s (env : Env) (uuid : String) (cs : List ChapterRow)
    (ls : List LessonRow) (i : Nat) (d : Nat) :
    ∀ (rest : List LessonRow) (j : Nat) (st : St),
    navLessonLoop env uuid (cs.map (sChapterRow d)) (ls.map (sLessonRow d)) i j
        (rest.map (sLessonRow d)) (sSt d st)
      = (sSt d (navLessonLoop env uuid cs ls i j rest st).1,
         (navLessonLoop env uuid cs ls i j rest st).2) := by
  intro rest
  induction rest with
  | nil => intro j st; rfl
  | cons lrow tail ih =>
    intro j st
    show navLessonLoop env uuid (cs.map (sChapterRow d)) (ls.map (sLessonRow d)) i j
        ((sLessonRow d lrow) :: tail.map (sLessonRow d)) (sSt d st) = _
    unfold navLessonLoop
    dsimp only
    rw [navPrevOf_s]
    cases hp : navPrevOf env uuid cs i j st with
    | mk st1 r1 =>
      cases r1 with
      | error e => rfl
      | ok prev =>
        simp only [List.length_map]
        simp only [issueOp]
        rw [sSt_opIdx]
        cases he : env.oracle st1.opIdx with
        | some m =>
          simp only [he]
          simp [logErrOnly, sSt_mk, sSt_db, sSt_storage, sSt_trace, sSt_elog, sSt_ctr,
            sSt_opIdx, sOp, sKind]
        | none =>
          simp only [he]
          rw [sSt_nav_step]
          exact ih (j + 1) _

theorem sSt_two_sel_ops (d : Nat) (st : St) :
    (⟨sDB d st.db, (sSt d st).storage,
      (sSt d st).trace ++ [⟨.navChSel, .select .chapters, "", none⟩]
        ++ [⟨.navLsSel, .select .lessons, "", none⟩],
      (sSt d st).elog, (sSt d st).ctr, st.opIdx + 1 + 1⟩ : St)
      = sSt d ⟨st.db, st.storage,
          st.trace ++ [⟨.navChSel, .select .chapters, "", none⟩]
            ++ [⟨.navLsSel, .select .lessons, "", none⟩],
          st.elog, st.ctr, st.opIdx + 1 + 1⟩ := by
  simp [sSt_mk, sSt_db, sSt_storage, sSt_trace, sSt_elog, sSt_ctr, sOp, sKind]

theorem navChapterLoop_s (env : Env) (uuid : String) (d : Nat) :
    ∀ (remaining i : Nat) (st : St),
    navChapterLoop env uuid i remaining (sSt d st)
      = (sSt d (navChapterLoop env uuid i remaining st).1,
         (navChapterLoop env uuid i remaining st).2) := by
  intro remaining
  induction remaining with
  | zero => intro i st; rfl
  | succ rem ih =>
    intro i st
    unfold navChapterLoop
    simp only [issueOp]
    rw [sSt_opIdx]
    cases he : env.oracle st.opIdx with
    | some m =>
      simp only [he]
      simp [logErrOnly, sSt_mk, sSt_db, sSt_storage, sSt_trace, sSt_elog, sSt_ctr,
        sSt_opIdx, sOp, sKind]
    | none =>
      simp only [he]
      rw [sSt_db, selectChapters_s_sup, List.get?_map]
      cases hg : (selectChapters st.db (EntId.supplied uuid)).get? i with
      | none =>
        simp only [Option.map_none']
        simp [sSt_mk, sSt_db, sSt_storage, sSt_trace, sSt_elog, sSt_ctr, sSt_opIdx,
          sOp, sKind]
      | some ci =>
        simp only [Option.map_some']
        cases he2 : env.oracle (st.opIdx + 1) with
        | some m =>
          simp only [he2]
          simp [logErrOnly, sSt_mk, sSt_db, sSt_storage, sSt_trace, sSt_elog, sSt_ctr,
            sSt_opIdx, sOp, sKind]
        | none =>
          simp only [he2]
          rw [selectLessons_s_ch, sSt_two_sel_ops, navLessonLoop_s]
          cases hl : navLessonLoop env uuid (selectChapters st.db (EntId.supplied uuid))
              (selectLessons st.db ci.id) i 0 (selectLessons st.db ci.id)
              ⟨st.db, st.storage,
               st.trace ++ [⟨.navChSel, .select .chapters, "", none⟩]
                 ++ [⟨.navLsSel, .select .lessons, "", none⟩],
               st.elog, st.ctr, st.opIdx + 1 + 1⟩ with
          | mk st3 r3 =>
            cases r3 with
            | error e => rfl
            | ok u => exact ih (i + 1) st3

theorem sSt_course_step (d : Nat) (st : St) (row : CourseRow) (ctx : String)
    (h : sCourseRow d row = row) :
    (⟨upsertCourseRow (sSt d st).db row, (sSt d st).storage,
      (sSt d st).trace ++ [⟨.courseUp, .upsert .courses, ctx, none⟩], (sSt d st).elog,
      (sSt d st).ctr, st.opIdx + 1⟩ : St)
      = sSt d ⟨upsertCourseRow st.db row, st.storage,
          st.trace ++ [⟨.courseUp, .upsert .courses, ctx, none⟩], st.elog, st.ctr,
          st.opIdx + 1⟩ := by
  have hup : upsertCourseRow (sDB d st.db) row = sDB d (upsertCourseRow st.db row) := by
    rw [sDB_upsertCourseRow, h]
  simp [sSt_mk, sSt_db, sSt_storage, sSt_trace, sSt_elog, sSt_ctr, sOp, sKind, hup]

theorem processCourse_s (env : Env) (c : CourseDir) (d : Nat) (st : St) :
    processCourse env c (sSt d st)
      = (sSt d (processCourse env c st).1, (processCourse env c st).2) := by
  unfold processCourse
  dsimp only
  simp only [issueOp]
  rw [sSt_opIdx]
  cases he : env.oracle st.opIdx with
  | some m =>
    simp only [he]
    simp [logPathErr, sSt_mk, sSt_db, sSt_storage, sSt_trace, sSt_elog, sSt_ctr,
      sSt_opIdx, sOp, sKind]
  | none =>
    simp only [he]
    rw [sSt_course_step d st _ _ (by simp [sCourseRow, sGen_supplied])]
    rw [processChapters_s]
    cases hc : processChapters env ("/" ++ c.dirname ++ "/") c.meta.uuid c
        (sortByIdx ChapterMeta.index (chaptersOf c.meta.chapters))
        ⟨upsertCourseRow st.db ⟨.supplied c.meta.uuid, c.meta.name, c.meta.description,
            c.meta.tags, c.meta.authors⟩, st.storage,
         st.trace ++ [⟨.courseUp, .upsert .courses, "/" ++ c.dirname ++ "/", none⟩],
         st.elog, st.ctr, st.opIdx + 1⟩ with
    | mk st3 r3 =>
      cases r3 with
      | error e => rfl
      | ok u =>
        dsimp only
        exact navChapterLoop_s env c.meta.uuid d
          (sortByIdx ChapterMeta.index (chaptersOf c.meta.chapters)).length 0 st3

theorem coursesPhase_s (env : Env) (fs : List CourseDir) (d : Nat) (st : St) :
    coursesPhase env fs (sSt d st)
      = (sSt d (coursesPhase env fs st).1, (coursesPhase env fs st).2) := by
  induction fs generalizing st with
  | nil => rfl
  | cons c rest ih =>
    unfold coursesPhase
    rw [processCourse_s]
    cases hc : processCourse env c st with
    | mk st1 r1 =>
      cases r1 with
      | error e => rfl
      | ok u => exact ih st1

theorem purgePhase_s (env : Env) (d : Nat) (st : St) :
    purgePhase env (sSt d st) = sSt d (purgePhase env st) := by
  unfold purgePhase
  rw [purgeDelete_s, purgeDelete_s, purgeDelete_s, purgeDelete_s, purgeDelete_s]

theorem initSt_s (d : Nat) (db0 : DB) (n0 : Nat) :
    initSt (sDB d db0) (n0 + d) = sSt d (initSt db0 n0) := by
  simp [initSt, sSt_mk]

/-- The whole run commutes with the `d`-shift of store-generated ids: running
from a `d`-shifted surviving store with a counter advanced by `d` produces the
shifted final state and the identical outcome. -/
theorem mainRun_s (env : Env) (fs : List CourseDir) (db0 : DB) (n0 d : Nat) :
    mainRun env fs (sDB d db0) (n0 + d)
      = (sSt d (mainRun env fs db0 n0).1, (mainRun env fs db0 n0).2) := by
  unfold mainRun
  rw [initSt_s, purgePhase_s, coursesPhase_s]

/-! Purge normalisation and the supplied-course-id invariant, for the
idempotence claim. -/

theorem sDB_empty (d : Nat) : sDB d emptyDB = emptyDB := rfl

theorem mainRun_sfree (fs : List CourseDir) (db0 : DB) (n0 : Nat) (h : SFreeDB db0) :
    mainRun noErrEnv fs db0 n0 = mainRun noErrEnv fs emptyDB n0 := by
  unfold mainRun
  rw [purgePhase_noerr, purgePhase_noerr]
  obtain ⟨h1, h2, h3, h4, h5⟩ := h
  rw [(filter_beq_nil_iff _ _).mpr h1, (filter_beq_nil_iff _ _).mpr h2,
    (filter_beq_nil_iff _ _).mpr h3, (filter_beq_nil_iff _ _).mpr h4,
    (filter_beq_nil_iff _ _).mpr h5]
  rfl

theorem sGen_comp (a b : Nat) (x : EntId) : sGen a (sGen b x) = sGen (b + a) x := by
  cases x <;> simp [sGen, Nat.add_assoc]

theorem sName_comp (a b : Nat) (n : BlobName) : sName a (sName b n) = sName (b + a) n := by
  cases n <;> simp [sName, sGen_comp]

theorem sKey_comp (a b : Nat) (k : BlobKey) : sKey a (sKey b k) = sKey (b + a) k := by
  cases k
  simp [sKey, sName_comp]

theorem sVal_comp (a b : Nat) (v : CondValue) : sVal a (sVal b v) = sVal (b + a) v := by
  cases v <;> simp [sVal, sKey_comp]

theorem sDB_comp (a b : Nat) (db : DB) : sDB a (sDB b db) = sDB (b + a) db := by
  cases db with
  | mk cs ch ls ts tc =>
    simp only [sDB_mk, List.map_map]
    congr 1 <;>
      (apply List.map_congr_left
       intro r _
       simp [Function.comp_def, sCourseRow, sChapterRow, sLessonRow, sTaskRow, sCondRow,
         sGen_comp, sKey_comp, sVal_comp, Option.map_map])

theorem mem_upsertCourseRow (db : DB) (row : CourseRow) (r : CourseRow)
    (hr : r ∈ (upsertCourseRow db row).courses) : r = row ∨ r ∈ db.courses := by
  unfold upsertCourseRow at hr
  by_cases h : db.courses.any (fun c => c.id == row.id)
  · simp only [h, if_true] at hr
    obtain ⟨c, hc, hceq⟩ := List.mem_map.mp hr
    by_cases hid : (c.id == row.id) = true
    · left; rw [← hceq]; simp [hid]
    · right; rw [← hceq]; simpa [hid] using hc
  · simp only [h, if_false] at hr
    rcases List.mem_append.mp hr with h1 | h1
    · right; exact h1
    · left; simpa using h1

theorem processChapter_courses (env : Env) (courseCtx courseUuid : String)
    (c : CourseDir) (cm : ChapterMeta) (st : St) :
    (processChapter env courseCtx courseUuid c cm st).1.db.courses = st.db.courses := by
  unfold processChapter
  simp only [issueOp]
  cases he : env.oracle st.opIdx with
  | some m => simp [he, logPathErr]
  | none =>
    simp only [he]
    exact (processLessons_frame env courseCtx cm.pathSafe (.gen st.ctr) 0
      (chapterLessons c cm.pathSafe)
      ⟨{ st.db with chapters := st.db.chapters ++ [⟨.gen st.ctr, .supplied courseUuid,
           cm.name, cm.index⟩] },
       st.storage,
       st.trace ++ [⟨.chapterUp, .upsert .chapters, courseCtx ++ "/" ++ cm.pathSafe, none⟩],
       st.elog, st.ctr + 1, st.opIdx + 1⟩).1

theorem processChapters_courses (env : Env) (courseCtx courseUuid : String)
    (c : CourseDir) (cms : List ChapterMeta) (st : St) :
    (processChapters env courseCtx courseUuid c cms st).1.db.courses = st.db.courses := by
  induction cms generalizing st with
  | nil => rfl
  | cons cm rest ih =>
    unfold processChapters
    cases hc : processChapter env courseCtx courseUuid c cm st with
    | mk st1 r1 =>
      have h1 := processChapter_courses env courseCtx courseUuid c cm st
      rw [hc] at h1
      cases r1 with
      | error e => exact h1
      | ok u => exact (ih st1).trans h1

theorem processCourse_supplied (env : Env) (c : CourseDir) (st : St)
    (h : ∀ r ∈ st.db.courses, ∃ u, r.id = EntId.supplied u) :
    ∀ r ∈ (processCourse env c st).1.db.courses, ∃ u, r.id = EntId.supplied u := by
  unfold processCourse
  dsimp only
  simp only [issueOp]
  cases he : env.oracle st.opIdx with
  | some m =>
    simp only [he]
    simpa [logPathErr] using h
  | none =>
    simp only [he]
    intro r hr
    cases hc : processChapters env ("/" ++ c.dirname ++ "/") c.meta.uuid c
        (sortByIdx ChapterMeta.index (chaptersOf c.meta.chapters))
        ⟨upsertCourseRow st.db ⟨.supplied c.meta.uuid, c.meta.name, c.meta.description,
            c.meta.tags, c.meta.authors⟩, st.storage,
         st.trace ++ [⟨.courseUp, .upsert .courses, "/" ++ c.dirname ++ "/", none⟩],
         st.elog, st.ctr, st.opIdx + 1⟩ with
    | mk st3 r3 =>
      rw [hc] at hr
      have h3 := processChapters_courses env ("/" ++ c.dirname ++ "/") c.meta.uuid c
        (sortByIdx ChapterMeta.index (chaptersOf c.meta.chapters))
        ⟨upsertCourseRow st.db ⟨.supplied c.meta.uuid, c.meta.name, c.meta.description,
            c.meta.tags, c.meta.authors⟩, st.storage,
         st.trace ++ [⟨.courseUp, .upsert .courses, "/" ++ c.dirname ++ "/", none⟩],
         st.elog, st.ctr, st.opIdx + 1⟩
      rw [hc] at h3
      have hmem : r ∈ (upsertCourseRow st.db ⟨.supplied c.meta.uuid, c.meta.name,
          c.meta.description, c.meta.tags, c.meta.authors⟩).courses := by
        cases r3 with
        | error e =>
          simp only at hr
          rw [h3] at hr
          exact hr
        | ok u =>
          simp only at hr
          have h4 := navChapterLoop_frame env c.meta.uuid 0
            (sortByIdx ChapterMeta.index (chaptersOf c.meta.chapters)).length st3
          rw [h4.1] at hr
          rw [h3] at hr
          exact hr
      rcases mem_upsertCourseRow _ _ _ hmem with h5 | h5
      · exact ⟨c.meta.uuid, by rw [h5]⟩
      · exact h r h5

theorem coursesPhase_supplied (env : Env) (fs : List CourseDir) (st : St)
    (h : ∀ r ∈ st.db.courses, ∃ u, r.id = EntId.supplied u) :
    ∀ r ∈ (coursesPhase env fs st).1.db.courses, ∃ u, r.id = EntId.supplied u := by
  induction fs generalizing st with
  | nil => exact h
  | cons c rest ih =>
    unfold coursesPhase
    cases hc : processCourse env c st with
    | mk st1 r1 =>
      have h1 := processCourse_supplied env c st h
      rw [hc] at h1
      cases r1 with
      | error e => exact h1
      | ok u => exact ih st1 h1

theorem mainRun_supplied (fs : List CourseDir) (n0 : Nat) :
    ∀ r ∈ (mainRun noErrEnv fs emptyDB n0).1.db.courses, ∃ u, r.id = EntId.supplied u := by
  unfold mainRun
  rw [purgePhase_noerr]
  exact coursesPhase_supplied noErrEnv _ _ (by simp [emptyDB])

/-- C8: running the pipeline twice in succession against an unchanged
filesystem tree — the second run starting from the database and
id-generation counter the first run left behind — produces the same outcome
and the same rows with identical field values: the second run's final
database is exactly the first one's with every store-generated identifier
consistently renamed (shifted by the number of ids the first run consumed),
and the Course rows (caller-supplied identifiers) are literally identical.
The sentinel-freeness hypotheses discharge the purge caveat recorded in C9. -/
theorem sync_rerun_same_rows (fs : List CourseDir) (db0 : DB) (n0 : Nat)
    (h0 : SFreeDB db0)
    (h1 : SFreeDB (mainRun noErrEnv fs db0 n0).1.db) :
    (mainRun noErrEnv fs (mainRun noErrEnv fs db0 n0).1.db
        (mainRun noErrEnv fs db0 n0).1.ctr).2
      = (mainRun noErrEnv fs db0 n0).2 ∧
    (mainRun noErrEnv fs (mainRun noErrEnv fs db0 n0).1.db
        (mainRun noErrEnv fs db0 n0).1.ctr).1.db
      = sDB ((mainRun noErrEnv fs db0 n0).1.ctr - n0) (mainRun noErrEnv fs db0 n0).1.db ∧
    (mainRun noErrEnv fs (mainRun noErrEnv fs db0 n0).1.db
        (mainRun noErrEnv fs db0 n0).1.ctr).1.db.courses
      = (mainRun noErrEnv fs db0 n0).1.db.courses := by
  have hbase : mainRun noErrEnv fs db0 n0
      = (sSt n0 (mainRun noErrEnv fs emptyDB 0).1, (mainRun noErrEnv fs emptyDB 0).2) := by
    rw [mainRun_sfree fs db0 n0 h0]
    have hms := mainRun_s noErrEnv fs emptyDB 0 n0
    rw [sDB_empty, Nat.zero_add] at hms
    exact hms
  have hctr1 : (mainRun noErrEnv fs db0 n0).1.ctr
      = (mainRun noErrEnv fs emptyDB 0).1.ctr + n0 := by rw [hbase]; rfl
  have hdb1 : (mainRun noErrEnv fs db0 n0).1.db
      = sDB n0 (mainRun noErrEnv fs emptyDB 0).1.db := by rw [hbase]; rfl
  have hrun2 : mainRun noErrEnv fs (mainRun noErrEnv fs db0 n0).1.db
        (mainRun noErrEnv fs db0 n0).1.ctr
      = (sSt ((mainRun noErrEnv fs emptyDB 0).1.ctr + n0) (mainRun noErrEnv fs emptyDB 0).1,
         (mainRun noErrEnv fs emptyDB 0).2) := by
    rw [mainRun_sfree fs _ _ h1, hctr1]
    have hms := mainRun_s noErrEnv fs emptyDB 0
      ((mainRun noErrEnv fs emptyDB 0).1.ctr + n0)
    rw [sDB_empty, Nat.zero_add] at hms
    exact hms
  have hid : ∀ (a : Nat),
      ((mainRun noErrEnv fs emptyDB 0).1.db.courses).map (sCourseRow a)
        = (mainRun noErrEnv fs emptyDB 0).1.db.courses := by
    intro a
    have hpt : ∀ r ∈ (mainRun noErrEnv fs emptyDB 0).1.db.courses,
        sCourseRow a r = id r := by
      intro r hr
      obtain ⟨u, hu⟩ := mainRun_supplied fs 0 r hr
      cases r with
      | mk rid rn rd rt ra =>
        simp only at hu
        subst hu
        simp [sCourseRow, sGen_supplied]
    rw [List.map_congr_left hpt, List.map_id]
  refine ⟨?_, ?_, ?_⟩
  · rw [hrun2, hbase]
  · rw [hrun2, hctr1, hdb1]
    show sDB ((mainRun noErrEnv fs emptyDB 0).1.ctr + n0)
        (mainRun noErrEnv fs emptyDB 0).1.db
      = sDB ((mainRun noErrEnv fs emptyDB 0).1.ctr + n0 - n0)
          (sDB n0 (mainRun noErrEnv fs emptyDB 0).1.db)
    rw [sDB_comp]
    congr 1
    omega
  · rw [hrun2, hdb1]
    show ((mainRun noErrEnv fs emptyDB 0).1.db.courses).map
        (sCourseRow ((mainRun noErrEnv fs emptyDB 0).1.ctr + n0))
      = ((mainRun noErrEnv fs emptyDB 0).1.db.courses).map (sCourseRow n0)
    rw [hid, hid]

theorem sync_rerun_same_rows_witness :
    SFreeDB emptyDB ∧ SFreeDB (mainRun noErrEnv [crsFile] emptyDB 7).1.db ∧
    ((mainRun noErrEnv [crsFile] (mainRun noErrEnv [crsFile] emptyDB 7).1.db
        (mainRun noErrEnv [crsFile] emptyDB 7).1.ctr).2
      = (mainRun noErrEnv [crsFile] emptyDB 7).2 ∧
    (mainRun noErrEnv [crsFile] (mainRun noErrEnv [crsFile] emptyDB 7).1.db
        (mainRun noErrEnv [crsFile] emptyDB 7).1.ctr).1.db
      = sDB ((mainRun noErrEnv [crsFile] emptyDB 7).1.ctr - 7)
          (mainRun noErrEnv [crsFile] emptyDB 7).1.db ∧
    (mainRun noErrEnv [crsFile] (mainRun noErrEnv [crsFile] emptyDB 7).1.db
        (mainRun noErrEnv [crsFile] emptyDB 7).1.ctr).1.db.courses
      = (mainRun noErrEnv [crsFile] emptyDB 7).1.db.courses) :=
  ⟨by decide, by decide, sync_rerun_same_rows [crsFile] emptyDB 7 (by decide) (by decide)⟩

/-! ### C5 — the navigation linker realises the global course order.
The linker's effect on the lessons table is a list of (target id, previous,
next) writes; `navW` is the write list of one chapter iteration and
`chapterWs` of the whole loop, both read off lines 240-303. -/

def navUpd1 (t : EntId) (pv nx : Option String) (r : LessonRow) : LessonRow :=
  if r.id == t then { r with previous := pv, next := nx } else r

def applyW (ws : List (EntId × Option String × Option String)) (r : LessonRow) :
    LessonRow :=
  ws.foldl (fun acc w => navUpd1 w.1 w.2.1 w.2.2 acc) r

/-- The `previous` value the body of the lesson loop computes for position
`(i, j)`, lines 260-275: within-chapter positional string for `j > 0`, else
the last position of the prior chapter's re-read lesson list, else null. -/
def prevFormulaCur (uuid : String) (cs : List ChapterRow) (db : DB) (i j : Nat) :
    Option String :=
  if j > 0 then some (navStr uuid (i : Int) ((j : Int) - 1))
  else if i > 0 then
    match cs.get? (i - 1) with
    | none => none
    | some prevCh =>
        some (navStr uuid ((i : Int) - 1)
          (((selectLessons db prevCh.id).length : Int) - 1))
  else none

/-- The write the body of the lesson loop issues for the row at position `j`
of chapter `i`: `previous` from the branch formulas of lines 260-275 (the
prior chapter's re-read lesson count for the cross-chapter case), `next`
from lines 277-283. -/
def navW (uuid : String) (cs : List ChapterRow) (db0 : DB) (lsLen : Nat) (i : Nat) :
    Nat → List LessonRow → List (EntId × Option String × Option String)
  | _, [] => []
  | j, lrow :: rest =>
    (lrow.id, prevFormulaCur uuid cs db0 i j, navNextOf uuid cs.length lsLen i j)
      :: navW uuid cs db0 lsLen i (j + 1) rest

def chapterWs (uuid : String) (cs : List ChapterRow) (db0 : DB) :
    Nat → Nat → List (EntId × Option String × Option String)
  | _, 0 => []
  | i, remaining + 1 =>
    match cs.get? i with
    | none => []
    | some ci =>
        navW uuid cs db0 (selectLessons db0 ci.id).length i 0 (selectLessons db0 ci.id)
          ++ chapterWs uuid cs db0 (i + 1) remaining

/-- Spec-side (claim wording): the global-order predecessor position of
lesson `(i, j)` — the previous lesson in the chapter, crossing into the last
lesson of the prior chapter at a chapter's first lesson, none only for the
course's very first lesson. -/
def globalPrevPos (counts : Nat → Nat) (i j : Nat) : Option (Nat × Nat) :=
  if j > 0 then some (i, j - 1)
  else if i > 0 then some (i - 1, counts (i - 1) - 1)
  else none

/-- Spec-side (claim wording): the global-order successor position of lesson
`(i, j)` among `n` chapters — the next lesson in the chapter, crossing into
the first lesson of the next chapter at a chapter's last lesson, none only
for the course's very last lesson. -/
def globalNextPos (n : Nat) (counts : Nat → Nat) (i j : Nat) : Option (Nat × Nat) :=
  if j + 1 < counts i then some (i, j + 1)
  else if i + 1 < n then some (i + 1, 0)
  else none

theorem applyW_nil (r : LessonRow) : applyW [] r = r := rfl

theorem applyW_cons (w : EntId × Option String × Option String)
    (ws : List (EntId × Option String × Option String)) (r : LessonRow) :
    applyW (w :: ws) r = applyW ws (navUpd1 w.1 w.2.1 w.2.2 r) := rfl

theorem applyW_append (a b : List (EntId × Option String × Option String))
    (r : LessonRow) : applyW (a ++ b) r = applyW b (applyW a r) :=
  List.foldl_append _ _ _ _

theorem navUpd1_id (t : EntId) (pv nx : Option String) (r : LessonRow) :
    (navUpd1 t pv nx r).id = r.id := by
  unfold navUpd1
  split <;> rfl

theorem navUpd1_chapter (t : EntId) (pv nx : Option String) (r : LessonRow) :
    (navUpd1 t pv nx r).chapter = r.chapter := by
  unfold navUpd1
  split <;> rfl

theorem navUpd1_index (t : EntId) (pv nx : Option String) (r : LessonRow) :
    (navUpd1 t pv nx r).index = r.index := by
  unfold navUpd1
  split <;> rfl

theorem applyW_id (ws : List (EntId × Option String × Option String)) (r : LessonRow) :
    (applyW ws r).id = r.id := by
  induction ws generalizing r with
  | nil => rfl
  | cons w tail ih => rw [applyW_cons, ih, navUpd1_id]

theorem applyW_chapter (ws : List (EntId × Option String × Option String))
    (r : LessonRow) : (applyW ws r).chapter = r.chapter := by
  induction ws generalizing r with
  | nil => rfl
  | cons w tail ih => rw [applyW_cons, ih, navUpd1_chapter]

theorem applyW_index (ws : List (EntId × Option String × Option String))
    (r : LessonRow) : (applyW ws r).index = r.index := by
  induction ws generalizing r with
  | nil => rfl
  | cons w tail ih => rw [applyW_cons, ih, navUpd1_index]

theorem navUpd1_miss (t : EntId) (pv nx : Option String) (r : LessonRow)
    (h : (r.id == t) = false) : navUpd1 t pv nx r = r := by
  unfold navUpd1
  rw [h]
  rfl

theorem applyW_no_hit (ws : List (EntId × Option String × Option String))
    (r : LessonRow) (h : ∀ w ∈ ws, (r.id == w.1) = false) : applyW ws r = r := by
  induction ws with
  | nil => rfl
  | cons w tail ih =>
    rw [applyW_cons, navUpd1_miss _ _ _ _ (h w (List.mem_cons_self w tail))]
    exact ih (fun x hx => h x (List.mem_cons_of_mem w hx))

theorem selectLessons_lessons_eq (db db' : DB)
    (ws : List (EntId × Option String × Option String))
    (h : db'.lessons = db.lessons.map (applyW ws)) (ch : EntId) :
    selectLessons db' ch = (selectLessons db ch).map (applyW ws) := by
  unfold selectLessons
  rw [h, List.map_filter]
  have hf : List.filter ((fun r => r.chapter == ch) ∘ applyW ws) db.lessons
      = List.filter (fun r => r.chapter == ch) db.lessons := by
    apply List.filter_congr
    intro r _
    simp [Function.comp, applyW_chapter]
  rw [hf, sortByIdx_map]
  intro r
  exact applyW_index ws r

theorem selectChapters_chapters_eq (db db' : DB) (h : db'.chapters = db.chapters)
    (u : EntId) : selectChapters db' u = selectChapters db u := by
  unfold selectChapters
  rw [h]

theorem updateLessonNav_lessons (db : DB) (t : EntId) (pv nx : Option String) :
    (updateLessonNav db t pv nx).lessons = db.lessons.map (navUpd1 t pv nx) := rfl

theorem applyW_snoc (ws : List (EntId × Option String × Option String))
    (w : EntId × Option String × Option String) (r : LessonRow) :
    applyW (ws ++ [w]) r = navUpd1 w.1 w.2.1 w.2.2 (applyW ws r) := by
  rw [applyW_append]
  rfl

theorem map_applyW_snoc (l : List LessonRow)
    (ws : List (EntId × Option String × Option String))
    (w : EntId × Option String × Option String) :
    (l.map (applyW ws)).map (navUpd1 w.1 w.2.1 w.2.2)
      = l.map (applyW (ws ++ [w])) := by
  rw [List.map_map]
  apply List.map_congr_left
  intro r _
  simp [Function.comp, applyW_snoc]

theorem prevFormulaCur_stable (uuid : String) (cs : List ChapterRow) (i j : Nat)
    (db0 db' : DB) (ws : List (EntId × Option String × Option String))
    (h : db'.lessons = db0.lessons.map (applyW ws)) :
    prevFormulaCur uuid cs db' i j = prevFormulaCur uuid cs db0 i j := by
  unfold prevFormulaCur
  by_cases hj : j > 0
  · simp [hj]
  · simp only [hj, if_false]
    by_cases hi : i > 0
    · simp only [hi, if_true]
      cases hg : cs.get? (i - 1) with
      | none => rfl
      | some prevCh =>
        dsimp only
        rw [selectLessons_lessons_eq db0 db' ws h, List.length_map]
    · simp [hi]

theorem navPrevOf_noerr (uuid : String) (cs : List ChapterRow) (i j : Nat) (st : St)
    (hprev : 0 < i → j = 0 → i - 1 < cs.length) :
    ∃ stP, navPrevOf noErrEnv uuid cs i j st
        = (stP, .ok (prevFormulaCur uuid cs st.db i j)) ∧ stP.db = st.db := by
  unfold navPrevOf prevFormulaCur
  by_cases hj : j > 0
  · exact ⟨st, by simp [hj], rfl⟩
  · simp only [hj, if_false]
    by_cases hi : i > 0
    · simp only [hi, if_true]
      cases hg : cs.get? (i - 1) with
      | none =>
        exfalso
        have hlt := hprev hi (by omega)
        rw [List.get?_eq_none] at hg
        omega
      | some prevCh =>
        simp only [issueOp, noErrEnv]
        exact ⟨_, rfl, rfl⟩
    · exact ⟨st, by simp [hi], rfl⟩

/-- Under an error-free oracle the lesson loop of chapter `i` succeeds and
its whole effect on the lessons table is appending its write list. -/
theorem navLessonLoop_noerr (uuid : String) (cs : List ChapterRow)
    (ls : List LessonRow) (i : Nat) (db0 : DB) (hi : i < cs.length) :
    ∀ (rest : List LessonRow) (j : Nat) (st : St)
      (ws : List (EntId × Option String × Option String)),
    st.db.lessons = db0.lessons.map (applyW ws) →
    (navLessonLoop noErrEnv uuid cs ls i j rest st).2 = .ok () ∧
    (navLessonLoop noErrEnv uuid cs ls i j rest st).1.db.lessons
      = db0.lessons.map (applyW (ws ++ navW uuid cs db0 ls.length i j rest)) := by
  intro rest
  induction rest with
  | nil =>
    intro j st ws hmap
    refine ⟨rfl, ?_⟩
    show st.db.lessons = _
    rw [hmap]
    simp [navW]
  | cons lrow tail ih =>
    intro j st ws hmap
    unfold navLessonLoop
    obtain ⟨stP, hP, hPdb⟩ := navPrevOf_noerr uuid cs i j st (fun _ _ => by omega)
    rw [hP]
    dsimp only
    simp only [issueOp, noErrEnv]
    rw [prevFormulaCur_stable uuid cs i j db0 st.db ws hmap]
    have hmap3 : (updateLessonNav stP.db lrow.id
          (prevFormulaCur uuid cs db0 i j) (navNextOf uuid cs.length ls.length i j)).lessons
        = db0.lessons.map (applyW (ws ++ [(lrow.id, prevFormulaCur uuid cs db0 i j,
            navNextOf uuid cs.length ls.length i j)])) := by
      rw [updateLessonNav_lessons, hPdb, hmap]
      exact map_applyW_snoc db0.lessons ws (lrow.id, prevFormulaCur uuid cs db0 i j,
        navNextOf uuid cs.length ls.length i j)
    have hrec := ih (j + 1)
      ⟨updateLessonNav stP.db lrow.id (prevFormulaCur uuid cs db0 i j)
          (navNextOf uuid cs.length ls.length i j),
       stP.storage, stP.trace ++ [⟨.navUpd, .update .lessons, "", none⟩], stP.elog,
       stP.ctr, stP.opIdx + 1⟩
      (ws ++ [(lrow.id, prevFormulaCur uuid cs db0 i j,
          navNextOf uuid cs.length ls.length i j)]) hmap3
    rw [show ws ++ navW uuid cs db0 ls.length i j (lrow :: tail)
        = (ws ++ [(lrow.id, prevFormulaCur uuid cs db0 i j,
            navNextOf uuid cs.length ls.length i j)])
          ++ navW uuid cs db0 ls.length i (j + 1) tail from by
      rw [← List.append_cons]
      rfl]
    exact hrec

theorem navW_map (uuid : String) (cs : List ChapterRow) (db0 : DB) (lsLen i : Nat)
    (ws : List (EntId × Option String × Option String)) :
    ∀ (rows : List LessonRow) (j : Nat),
    navW uuid cs db0 lsLen i j (rows.map (applyW ws))
      = navW uuid cs db0 lsLen i j rows := by
  intro rows
  induction rows with
  | nil => intro j; rfl
  | cons lrow tail ih =>
    intro j
    show navW uuid cs db0 lsLen i j (applyW ws lrow :: tail.map (applyW ws)) = _
    unfold navW
    rw [applyW_id, ih]

theorem noErr_oracle (n : Nat) : noErrEnv.oracle n = none := rfl

theorem chapterWs_succ (uuid : String) (cs : List ChapterRow) (db0 : DB)
    (i rem : Nat) (ci : ChapterRow) (hgi : cs.get? i = some ci) :
    chapterWs uuid cs db0 i (rem + 1)
      = navW uuid cs db0 (selectLessons db0 ci.id).length i 0 (selectLessons db0 ci.id)
        ++ chapterWs uuid cs db0 (i + 1) rem := by
  simp only [chapterWs, hgi]

/-- Under an error-free oracle the whole chapter loop succeeds and its
effect on the lessons table is appending every chapter's write list. -/
theorem navChapterLoop_noerr (uuid : String) (cs : List ChapterRow) (db0 : DB)
    (hsel0 : selectChapters db0 (.supplied uuid) = cs) :
    ∀ (remaining i : Nat) (st : St)
      (ws : List (EntId × Option String × Option String)),
    i + remaining = cs.length →
    st.db.chapters = db0.chapters →
    st.db.lessons = db0.lessons.map (applyW ws) →
    (navChapterLoop noErrEnv uuid i remaining st).2 = .ok () ∧
    (navChapterLoop noErrEnv uuid i remaining st).1.db.lessons
      = db0.lessons.map (applyW (ws ++ chapterWs uuid cs db0 i remaining)) ∧
    (navChapterLoop noErrEnv uuid i remaining st).1.db.chapters = db0.chapters := by
  intro remaining
  induction remaining with
  | zero =>
    intro i st ws hlen hch hmap
    refine ⟨rfl, ?_, hch⟩
    show st.db.lessons = _
    rw [hmap]
    simp [chapterWs]
  | succ rem ih =>
    intro i st ws hlen hch hmap
    unfold navChapterLoop
    simp only [issueOp, noErr_oracle]
    have hselst : selectChapters st.db (.supplied uuid) = cs :=
      (selectChapters_chapters_eq db0 st.db hch _).trans hsel0
    rw [hselst]
    cases hgi : cs.get? i with
    | none =>
      exfalso
      rw [List.get?_eq_none] at hgi
      omega
    | some ci =>
      dsimp only
      have hls : selectLessons st.db ci.id
          = (selectLessons db0 ci.id).map (applyW ws) :=
        selectLessons_lessons_eq db0 st.db ws hmap ci.id
      rw [hls]
      have hARes := navLessonLoop_noerr uuid cs
        ((selectLessons db0 ci.id).map (applyW ws)) i db0 (by omega)
        ((selectLessons db0 ci.id).map (applyW ws)) 0
        ⟨st.db, st.storage,
         st.trace ++ [⟨.navChSel, .select .chapters, "", none⟩]
           ++ [⟨.navLsSel, .select .lessons, "", none⟩],
         st.elog, st.ctr, st.opIdx + 1 + 1⟩ ws hmap
      rw [List.length_map, navW_map] at hARes
      cases hloop : navLessonLoop noErrEnv uuid cs
          ((selectLessons db0 ci.id).map (applyW ws)) i 0
          ((selectLessons db0 ci.id).map (applyW ws))
          ⟨st.db, st.storage,
           st.trace ++ [⟨.navChSel, .select .chapters, "", none⟩]
             ++ [⟨.navLsSel, .select .lessons, "", none⟩],
           st.elog, st.ctr, st.opIdx + 1 + 1⟩ with
      | mk st3 r3 =>
        rw [hloop] at hARes
        obtain ⟨h1, h2⟩ := hARes
        simp only at h1 h2
        subst h1
        have hfr := navLessonLoop_frame noErrEnv uuid cs
          ((selectLessons db0 ci.id).map (applyW ws)) i 0
          ((selectLessons db0 ci.id).map (applyW ws))
          ⟨st.db, st.storage,
           st.trace ++ [⟨.navChSel, .select .chapters, "", none⟩]
             ++ [⟨.navLsSel, .select .lessons, "", none⟩],
           st.elog, st.ctr, st.opIdx + 1 + 1⟩
        rw [hloop] at hfr
        have hch3 : st3.db.chapters = db0.chapters := by
          rw [hfr.2]
          exact hch
        have hrec := ih (i + 1) st3
          (ws ++ navW uuid cs db0 (selectLessons db0 ci.id).length i 0
            (selectLessons db0 ci.id)) (by omega) hch3 h2
        rw [chapterWs_succ uuid cs db0 i rem ci hgi, ← List.append_assoc]
        exact hrec

theorem navW_ids (uuid : String) (cs : List ChapterRow) (db0 : DB) (lsLen i : Nat) :
    ∀ (rows : List LessonRow) (j : Nat),
    ∀ w ∈ navW uuid cs db0 lsLen i j rows, ∃ x ∈ rows, w.1 = x.id := by
  intro rows
  induction rows with
  | nil => intro j w hw; cases hw
  | cons lrow tail ih =>
    intro j w hw
    unfold navW at hw
    rcases List.mem_cons.mp hw with rfl | hw'
    · exact ⟨lrow, List.mem_cons_self _ _, rfl⟩
    · obtain ⟨x, hx, hid⟩ := ih (j + 1) w hw'
      exact ⟨x, List.mem_cons_of_mem _ hx, hid⟩

theorem chapterWs_ids (uuid : String) (cs : List ChapterRow) (db0 : DB) :
    ∀ (rem i : Nat), ∀ w ∈ chapterWs uuid cs db0 i rem,
    ∃ k ck x, i ≤ k ∧ cs.get? k = some ck ∧ x ∈ selectLessons db0 ck.id ∧ w.1 = x.id := by
  intro rem
  induction rem with
  | zero => intro i w hw; cases hw
  | succ rem ih =>
    intro i w hw
    unfold chapterWs at hw
    cases hgi : cs.get? i with
    | none => rw [hgi] at hw; cases hw
    | some ci =>
      rw [hgi] at hw
      rcases List.mem_append.mp hw with hw' | hw'
      · obtain ⟨x, hx, hid⟩ := navW_ids uuid cs db0 _ i _ 0 w hw'
        exact ⟨i, ci, x, Nat.le_refl i, hgi, hx, hid⟩
      · obtain ⟨k, ck, x, hk, hck, hx, hid⟩ := ih (i + 1) w hw'
        exact ⟨k, ck, x, by omega, hck, hx, hid⟩

theorem mem_selectLessons (db : DB) (ch : EntId) (x : LessonRow)
    (hx : x ∈ selectLessons db ch) : x ∈ db.lessons ∧ x.chapter = ch := by
  unfold selectLessons at hx
  rw [mem_sortByIdx] at hx
  have := List.of_mem_filter hx
  exact ⟨List.mem_of_mem_filter hx, by simpa using this⟩

theorem selectLessons_ids_nodup (db : DB) (ch : EntId)
    (h : (db.lessons.map LessonRow.id).Nodup) :
    ((selectLessons db ch).map LessonRow.id).Nodup := by
  unfold selectLessons
  have hperm : List.Perm ((sortByIdx LessonRow.index
      (db.lessons.filter (fun r => r.chapter == ch))).map LessonRow.id)
      ((db.lessons.filter (fun r => r.chapter == ch)).map LessonRow.id) :=
    (sortByIdx_perm LessonRow.index _).map LessonRow.id
  refine hperm.nodup_iff.mpr ?_
  exact ((List.filter_sublist _).map LessonRow.id).nodup h

theorem nodup_map_get?_inj {α β : Type} [DecidableEq β] (l : List α) (f : α → β)
    (h : (l.map f).Nodup) (k1 k2 : Nat) (x1 x2 : α)
    (h1 : l.get? k1 = some x1) (h2 : l.get? k2 = some x2) (hf : f x1 = f x2) :
    k1 = k2 := by
  have hm1 : (l.map f).get? k1 = some (f x1) := by rw [List.get?_map, h1]; rfl
  have hm2 : (l.map f).get? k2 = some (f x2) := by rw [List.get?_map, h2]; rfl
  rw [hf] at hm1
  have hk1 : k1 < (l.map f).length := by
    by_contra hc
    rw [List.get?_eq_none.mpr (by omega)] at hm1
    cases hm1
  exact List.get?_inj hk1 h (hm1.trans hm2.symm)

theorem applyW_navW (uuid : String) (cs : List ChapterRow) (db0 : DB) (lsLen i : Nat) :
    ∀ (rows : List LessonRow) (j0 j : Nat) (r : LessonRow),
    rows.get? j = some r → ((rows.map LessonRow.id).Nodup) →
    applyW (navW uuid cs db0 lsLen i j0 rows) r
      = { r with previous := prevFormulaCur uuid cs db0 i (j0 + j),
                 next := navNextOf uuid cs.length lsLen i (j0 + j) } := by
  intro rows
  induction rows with
  | nil => intro j0 j r hr; cases hr
  | cons lrow tail ih =>
    intro j0 j r hr hnd
    simp only [List.map_cons, List.nodup_cons] at hnd
    obtain ⟨hhead, htail⟩ := hnd
    cases j with
    | zero =>
      have hr' : lrow = r := by simpa using hr
      subst hr'
      unfold navW
      rw [applyW_cons]
      have hhit : navUpd1 lrow.id (prevFormulaCur uuid cs db0 i j0)
          (navNextOf uuid cs.length lsLen i j0) lrow
          = { lrow with previous := prevFormulaCur uuid cs db0 i j0,
                        next := navNextOf uuid cs.length lsLen i j0 } := by
        simp [navUpd1]
      rw [hhit]
      rw [applyW_no_hit]
      · rw [Nat.add_zero]
      · intro w hw
        obtain ⟨x, hx, hid⟩ := navW_ids uuid cs db0 lsLen i tail (j0 + 1) w hw
        have hxid : x.id ∈ tail.map LessonRow.id := List.mem_map_of_mem LessonRow.id hx
        have hneq : lrow.id ≠ x.id := fun he => hhead (he ▸ hxid)
        show (lrow.id == w.1) = false
        rw [hid]
        exact beq_eq_false_iff_ne.mpr hneq
    | succ j' =>
      have hr' : tail.get? j' = some r := by simpa using hr
      have hmem : r ∈ tail := List.get?_mem hr'
      have hne : (r.id == lrow.id) = false := by
        have hxid : r.id ∈ tail.map LessonRow.id := List.mem_map_of_mem LessonRow.id hmem
        exact beq_eq_false_iff_ne.mpr (fun he => hhead (he ▸ hxid))
      unfold navW
      rw [applyW_cons, navUpd1_miss _ _ _ _ hne, ih (j0 + 1) j' r hr' htail]
      have harith : j0 + 1 + j' = j0 + (j' + 1) := by omega
      rw [harith]

theorem nodup_map_mem_inj {α β : Type} (l : List α) (f : α → β)
    (h : (l.map f).Nodup) (x y : α) (hx : x ∈ l) (hy : y ∈ l) (hf : f x = f y) :
    x = y := by
  induction l with
  | nil => cases hx
  | cons a tl ih =>
    simp only [List.map_cons, List.nodup_cons] at h
    obtain ⟨hna, hnd⟩ := h
    rcases List.mem_cons.mp hx with rfl | hx'
    · rcases List.mem_cons.mp hy with rfl | hy'
      · rfl
      · exfalso
        have hm : f y ∈ tl.map f := List.mem_map_of_mem f hy'
        rw [← hf] at hm
        exact hna hm
    · rcases List.mem_cons.mp hy with rfl | hy'
      · exfalso
        have hm : f x ∈ tl.map f := List.mem_map_of_mem f hx'
        rw [hf] at hm
        exact hna hm
      · exact ih hnd hx' hy'

theorem applyW_chapterWs (uuid : String) (cs : List ChapterRow) (db0 : DB)
    (hnodupL : (db0.lessons.map LessonRow.id).Nodup)
    (hnodupC : (cs.map ChapterRow.id).Nodup) :
    ∀ (rem : Nat), ∀ (i k : Nat) (ck : ChapterRow) (j : Nat) (r : LessonRow),
    i ≤ k → k < i + rem → k < cs.length →
    cs.get? k = some ck →
    (selectLessons db0 ck.id).get? j = some r →
    applyW (chapterWs uuid cs db0 i rem) r
      = { r with previous := prevFormulaCur uuid cs db0 k j,
                 next := navNextOf uuid cs.length
                   (selectLessons db0 ck.id).length k j } := by
  intro rem
  induction rem with
  | zero => intro i k ck j r hik hkr hkl hck hr; omega
  | succ rem ih =>
    intro i k ck j r hik hkr hkl hck hr
    have hi_lt : i < cs.length := by omega
    obtain ⟨ci, hgi⟩ : ∃ ci, cs.get? i = some ci := by
      cases hgi : cs.get? i with
      | none => rw [List.get?_eq_none] at hgi; omega
      | some ci => exact ⟨ci, rfl⟩
    rw [chapterWs_succ uuid cs db0 i rem ci hgi, applyW_append]
    have hrmem : r ∈ selectLessons db0 ck.id := List.get?_mem hr
    obtain ⟨hrl, hrch⟩ := mem_selectLessons db0 ck.id r hrmem
    by_cases hkeq : k = i
    · subst hkeq
      rw [hgi] at hck
      injection hck with hcc
      subst hcc
      rw [applyW_navW uuid cs db0 (selectLessons db0 ci.id).length k
        (selectLessons db0 ci.id) 0 j r hr (selectLessons_ids_nodup db0 ci.id hnodupL)]
      simp only [Nat.zero_add]
      refine applyW_no_hit _ _ ?_
      intro w hw
      obtain ⟨k2, ck2, x, hk2, hck2, hx, hid⟩ :=
        chapterWs_ids uuid cs db0 rem (k + 1) w hw
      show (r.id == w.1) = false
      rw [hid]
      refine beq_eq_false_iff_ne.mpr ?_
      intro he
      obtain ⟨hxl, hxch⟩ := mem_selectLessons db0 ck2.id x hx
      have hxr : x = r :=
        nodup_map_mem_inj db0.lessons LessonRow.id hnodupL x r hxl hrl he.symm
      rw [hxr] at hxch
      have hcc2 : ck2.id = ci.id := by rw [← hxch, hrch]
      have hkk : k2 = k := nodup_map_get?_inj cs ChapterRow.id hnodupC k2 k ck2 ci
        hck2 hgi hcc2
      omega
    · have hnh : applyW (navW uuid cs db0 (selectLessons db0 ci.id).length i 0
          (selectLessons db0 ci.id)) r = r := by
        refine applyW_no_hit _ _ ?_
        intro w hw
        obtain ⟨x, hx, hid⟩ := navW_ids uuid cs db0 (selectLessons db0 ci.id).length i
          (selectLessons db0 ci.id) 0 w hw
        rw [hid]
        refine beq_eq_false_iff_ne.mpr ?_
        intro he
        obtain ⟨hxl, hxch⟩ := mem_selectLessons db0 ci.id x hx
        have hxr : x = r :=
          nodup_map_mem_inj db0.lessons LessonRow.id hnodupL x r hxl hrl he.symm
        rw [hxr] at hxch
        have hcc2 : ci.id = ck.id := by rw [← hxch, hrch]
        have hkk : i = k := nodup_map_get?_inj cs ChapterRow.id hnodupC i k ci ck
          hgi hck hcc2
        omega
      rw [hnh]
      exact ih (i + 1) k ck j r (by omega) (by omega) hkl hck hr

theorem map_applyW_nil (l : List LessonRow) : l.map (applyW []) = l := by
  have h : ∀ r ∈ l, applyW [] r = id r := fun r _ => rfl
  rw [List.map_congr_left h, List.map_id]

theorem find?_map_applyW (l : List LessonRow)
    (ws : List (EntId × Option String × Option String)) (r : LessonRow)
    (hmem : r ∈ l) (hnodup : (l.map LessonRow.id).Nodup) :
    (l.map (applyW ws)).find? (fun x => x.id == r.id) = some (applyW ws r) := by
  induction l with
  | nil => cases hmem
  | cons a tail ih =>
    simp only [List.map_cons, List.nodup_cons] at hnodup
    obtain ⟨hhead, htail⟩ := hnodup
    by_cases hai : (a.id == r.id) = true
    · have har : a = r := by
        rcases List.mem_cons.mp hmem with rfl | hmem'
        · rfl
        · exfalso
          have : r.id ∈ tail.map LessonRow.id := List.mem_map_of_mem LessonRow.id hmem'
          rw [← eq_of_beq hai] at this
          exact hhead this
      subst har
      show List.find? _ (applyW ws a :: tail.map (applyW ws)) = _
      rw [List.find?_cons_of_pos]
      show ((applyW ws a).id == a.id) = true
      rw [applyW_id]
      exact beq_self_eq_true a.id
    · have hmem' : r ∈ tail := by
        rcases List.mem_cons.mp hmem with rfl | hmem'
        · simp at hai
        · exact hmem'
      show List.find? _ (applyW ws a :: tail.map (applyW ws)) = _
      rw [List.find?_cons_of_neg]
      · exact ih hmem' htail
      · show ¬((applyW ws a).id == r.id) = true
        rw [applyW_id]
        simp only [hai]
        exact Bool.false_ne_true

/-- The per-chapter lesson count the linker re-reads: the length of the
ordered select of the chapter at position `k`. -/
def chapterCounts (db : DB) (cs : List ChapterRow) (k : Nat) : Nat :=
  match cs.get? k with
  | some ck => (selectLessons db ck.id).length
  | none => 0

theorem prevFormulaCur_global (uuid : String) (cs : List ChapterRow) (db : DB)
    (i j : Nat) (hi : i < cs.length)
    (hne : ∀ k, k < cs.length → 0 < chapterCounts db cs k) :
    prevFormulaCur uuid cs db i j
      = (globalPrevPos (chapterCounts db cs) i j).map
          (fun p => navStr uuid (p.1 : Int) (p.2 : Int)) := by
  unfold prevFormulaCur globalPrevPos
  by_cases hj : j > 0
  · simp only [hj, if_true, Option.map_some']
    congr 2
    omega
  · simp only [hj, if_false]
    by_cases hi0 : i > 0
    · simp only [hi0, if_true]
      have hlt : i - 1 < cs.length := by omega
      obtain ⟨pc, hpc⟩ : ∃ pc, cs.get? (i - 1) = some pc := by
        cases hg : cs.get? (i - 1) with
        | none => rw [List.get?_eq_none] at hg; omega
        | some pc => exact ⟨pc, rfl⟩
      rw [hpc]
      dsimp only
      have hcnt : chapterCounts db cs (i - 1) = (selectLessons db pc.id).length := by
        unfold chapterCounts
        rw [hpc]
      have hpos := hne (i - 1) hlt
      rw [hcnt] at hpos ⊢
      simp only [Option.map_some']
      congr 2
      · omega
      · omega
    · simp [hi0]

theorem navNextOf_global (uuid : String) (n : Nat) (counts : Nat → Nat) (i j : Nat)
    (hj : j < counts i) (hi : i < n) :
    navNextOf uuid n (counts i) i j
      = (globalNextPos n counts i j).map
          (fun p => navStr uuid (p.1 : Int) (p.2 : Int)) := by
  unfold navNextOf globalNextPos
  by_cases h1 : j < counts i - 1
  · have h1' : j + 1 < counts i := by omega
    simp only [h1, if_true, h1', Option.map_some']
    congr 2
  · have h1' : ¬ j + 1 < counts i := by omega
    simp only [h1, if_false, h1', Option.map_some']
    by_cases h2 : i < n - 1
    · have h2' : i + 1 < n := by omega
      simp only [h2, if_true, h2', Option.map_some']
      congr 2
    · have h2' : ¬ i + 1 < n := by omega
      simp [h2, h2']

/-- C5 (amended): when every chapter the linker re-reads is non-empty (and
row ids are unambiguous), the Navigation Linker realises exactly the global
course order the spec describes, as positional path strings: for the lesson
at position `j` of the chapter at position `i`, the final table's row with
that lesson's id has `previous` = the rendered position of the preceding
lesson in global order (crossing into the last lesson of the prior chapter
at a chapter's first lesson; null only at the course's very first lesson)
and `next` = the rendered position of the following lesson (crossing into
the first lesson of the next chapter; null only at the very last lesson),
and the whole loop returns successfully.  (With an empty prior chapter the
code instead writes a dangling `u/(i-1)/(-1)` pointer — the separate
counterexample — so the non-emptiness hypothesis is exactly what rescues
the spec's wording.) -/
theorem nav_linker_global_order
    (uuid : String) (st0 : St) (cs : List ChapterRow)
    (hcs : selectChapters st0.db (.supplied uuid) = cs)
    (hnodupL : (st0.db.lessons.map LessonRow.id).Nodup)
    (hnodupC : (cs.map ChapterRow.id).Nodup)
    (hne : ∀ k, k < cs.length → 0 < chapterCounts st0.db cs k)
    (i j : Nat) (ci : ChapterRow) (hci : cs.get? i = some ci)
    (r : LessonRow) (hr : (selectLessons st0.db ci.id).get? j = some r) :
    (navChapterLoop noErrEnv uuid 0 cs.length st0).2 = .ok () ∧
    (navChapterLoop noErrEnv uuid 0 cs.length st0).1.db.lessons.find?
        (fun x => x.id == r.id)
      = some { r with
          previous := (globalPrevPos (chapterCounts st0.db cs) i j).map
            (fun p => navStr uuid (p.1 : Int) (p.2 : Int)),
          next := (globalNextPos cs.length (chapterCounts st0.db cs) i j).map
            (fun p => navStr uuid (p.1 : Int) (p.2 : Int)) } := by
  have hi : i < cs.length := by
    by_contra hcon
    rw [List.get?_eq_none.mpr (by omega)] at hci
    cases hci
  obtain ⟨hok, hless, hch⟩ := navChapterLoop_noerr uuid cs st0.db hcs cs.length 0 st0 []
    (by omega) rfl (by rw [map_applyW_nil])
  refine ⟨hok, ?_⟩
  rw [hless, List.nil_append]
  have hrmem0 : r ∈ selectLessons st0.db ci.id := List.get?_mem hr
  obtain ⟨hrl, hrch⟩ := mem_selectLessons st0.db ci.id r hrmem0
  rw [find?_map_applyW st0.db.lessons _ r hrl hnodupL]
  rw [applyW_chapterWs uuid cs st0.db hnodupL hnodupC cs.length 0 i ci j r
    (by omega) (by omega) hi hci hr]
  have hcnt : chapterCounts st0.db cs i = (selectLessons st0.db ci.id).length := by
    unfold chapterCounts
    rw [hci]
  have hjcnt : j < chapterCounts st0.db cs i := by
    rw [hcnt]
    by_contra hcon
    rw [List.get?_eq_none.mpr (by omega)] at hr
    cases hr
  rw [prevFormulaCur_global uuid cs st0.db i j hi hne, ← hcnt,
    navNextOf_global uuid cs.length (chapterCounts st0.db cs) i j hjcnt hi]

/-- Committed course state matching the claim's example: chapter A with two
lessons, chapter B with one, before linking. -/
def dbNav5 : DB :=
  ⟨[], [⟨.gen 0, .supplied "u", "A", 0⟩, ⟨.gen 3, .supplied "u", "B", 1⟩],
   [⟨.gen 1, .gen 0, "L0", "e", 0, none, none, none, none⟩,
    ⟨.gen 2, .gen 0, "L1", "e", 1, none, none, none, none⟩,
    ⟨.gen 4, .gen 3, "M0", "e", 0, none, none, none, none⟩], [], []⟩

def stNav5 : St := ⟨dbNav5, [], [], [], 10, 0⟩

def csNav5 : List ChapterRow :=
  [⟨.gen 0, .supplied "u", "A", 0⟩, ⟨.gen 3, .supplied "u", "B", 1⟩]

def rowNav5 : LessonRow := ⟨.gen 4, .gen 3, "M0", "e", 0, none, none, none, none⟩

theorem nav_linker_global_order_witness :
    (navChapterLoop noErrEnv "u" 0 2 stNav5).2 = .ok () ∧
    (navChapterLoop noErrEnv "u" 0 2 stNav5).1.db.lessons.find?
        (fun x => x.id == rowNav5.id)
      = some { rowNav5 with
          previous := (globalPrevPos (chapterCounts stNav5.db csNav5) 1 0).map
            (fun p => navStr "u" (p.1 : Int) (p.2 : Int)),
          next := (globalNextPos 2 (chapterCounts stNav5.db csNav5) 1 0).map
            (fun p => navStr "u" (p.1 : Int) (p.2 : Int)) } :=
  nav_linker_global_order "u" stNav5 csNav5 (by decide) (by decide) (by decide)
    (by decide) 1 0 ⟨.gen 3, .supplied "u", "B", 1⟩ (by decide) rowNav5 (by decide)
